import Mathlib

/-!
# Goober Eats: street map, point-to-point router, delivery optimizer, delivery planner

A shallow embedding of `StreetMap.cpp`, `PointToPointRouter.cpp`,
`DeliveryOptimizer.cpp` and `DeliveryPlanner.cpp`, followed by theorems about it.

Conventions of the embedding.

* `double` values are exact rationals (`ℚ`), with one exception: the angle between two
  lines is a number or NaN (`Angle`), because the planner's test of that angle lets NaN
  through.
* `distanceEarthMiles`, `angleOfLine` and `angleBetween2Lines` are declared in
  `provided.h`, which is not among the sources; they are parameters (`dist`,
  `angleOfLine`, `angleBetween2Lines`) of every definition that calls them.
* `std::priority_queue` fixes which entry `top()` yields only up to ties; the queue
  is a list of entries and the extraction `pop` is a parameter, constrained by
  `PopSpec` in the theorems.
* `rand()` is a finite list of draws consumed from the front.
* `load` comes twice: `StreetMapImpl.load` runs the loop body on the segment lines
  already parsed, `StreetMapImpl.loadFile` reads them from the text of the map file
  through a model of `std::istream` (`IStream`); every table `loadFile` leaves is a
  table of `load` (`loadFile_table`).
* A `while` loop whose number of iterations is not bounded syntactically takes a
  `fuel` argument; `none` means that the loop did not finish within the fuel, that
  the draws ran out, or that a null pointer was dereferenced.
* Where a theorem speaks of one pass of a loop or of the states a loop goes through,
  the loop body is a definition of its own (`annealStep`, `searchStates`), tied to the
  loop by a lemma (`annealLoop_succ`, `searchLoop_searchStates`); `legFrom` lists the
  commands of a leg in the order the planner appends them (`legCommands_cons`).
-/

namespace GooberEats

/-! ## Value types of `provided.h` -/

/-- Modelled from the spec: `GeoCoord` of `provided.h`. A coordinate is identified by its
two decimal texts; equality is equality of the texts. -/
structure GeoCoord where
  latitudeText : String
  longitudeText : String
deriving DecidableEq

/-- Modelled from the spec: `StreetSegment` of `provided.h`, a directed edge with a street
name. The field `end_` is the source's `end`. -/
structure StreetSegment where
  start : GeoCoord
  end_ : GeoCoord
  name : String
deriving DecidableEq

/-- Modelled from the spec: `DeliveryRequest` of `provided.h`. -/
structure DeliveryRequest where
  item : String
  location : GeoCoord
deriving DecidableEq

/-- Modelled from the spec: `DeliveryResult` of `provided.h`. -/
inductive DeliveryResult where
  | DELIVERY_SUCCESS
  | NO_ROUTE
  | BAD_COORD
deriving DecidableEq

/-! ## `ExpandableHashMap` -/

/-- Modelled from the spec: `ExpandableHashMap.h` is not among the sources. The table is an
association list with at most one entry per key; `find` and `associate` are the two
operations the sources call. -/
def ExpandableHashMap (K V : Type) : Type := List (K × V)

namespace ExpandableHashMap

variable {K V : Type} [DecidableEq K]

/-- The empty table. -/
def empty : ExpandableHashMap K V := ([] : List (K × V))

/-- The stored associations. -/
def entries (m : ExpandableHashMap K V) : List (K × V) := m

/-- The value stored under `key`, if any (`find` returning a pointer or `nullptr`). -/
def find : ExpandableHashMap K V → K → Option V
  | [], _ => none
  | (k, v) :: rest, key => if k = key then some v else find rest key

/-- Insert `key ↦ value`, replacing the value when `key` is already present. -/
def associate : ExpandableHashMap K V → K → V → ExpandableHashMap K V
  | [], key, value => [(key, value)]
  | (k, v) :: rest, key, value =>
      if k = key then (key, value) :: rest else (k, v) :: associate rest key value

end ExpandableHashMap

/-! ## `StreetMap.cpp` -/

/-- The function `reverseSegment` of `StreetMap.cpp`. -/
def reverseSegment (street : StreetSegment) : StreetSegment :=
  ⟨street.end_, street.start, street.name⟩

/-- The member `m_streets` of `StreetMapImpl`. -/
abbrev StreetMap : Type := ExpandableHashMap GeoCoord (List StreetSegment)

namespace StreetMapImpl

/-- The call `vec->push_back(x)` through a pointer obtained from `find(key)`: the vector
stored under `key` grows by `x`. -/
def pushBack (m_streets : StreetMap) (key : GeoCoord) (x : StreetSegment) : StreetMap :=
  match m_streets.find key with
  | some v => m_streets.associate key (v ++ [x])
  | none => m_streets

/-- The body of the `for` loop of `load` (lines 63-87) for one parsed segment line: both
look-ups happen before either insertion. -/
def loadSegment (m_streets : StreetMap) (segment : StreetSegment) : StreetMap :=
  let startVec := m_streets.find segment.start
  let endVec := m_streets.find segment.end_
  let m1 :=
    match startVec with
    | none => m_streets.associate segment.start [segment]
    | some _ => pushBack m_streets segment.start segment
  match endVec with
  | none => m1.associate segment.end_ [reverseSegment segment]
  | some _ => pushBack m1 segment.end_ (reverseSegment segment)

/-- The function `load` on the sequence of segment lines it reads, each already carrying
its street name: the table starts empty and the loop body runs once per line. -/
def load (segmentLines : List StreetSegment) : StreetMap :=
  segmentLines.foldl loadSegment ExpandableHashMap.empty

/-- The function `getSegmentsThatStartWith`: the returned flag, and the new content of the
out-parameter `segs` (unchanged when the coordinate is not a key). -/
def getSegmentsThatStartWith (m_streets : StreetMap) (gc : GeoCoord)
    (segs : List StreetSegment) : Bool × List StreetSegment :=
  match m_streets.find gc with
  | none => (false, segs)
  | some v => (true, v)

end StreetMapImpl

/-! ## `PointToPointRouter.cpp` -/

/-- The function `heuristic`. -/
def heuristic (dist : GeoCoord → GeoCoord → ℚ) (one two : GeoCoord) : ℚ :=
  dist one two

/-- What `generatePointToPointRoute` hands back: the returned code and the two
out-parameters. -/
structure RouteOutcome where
  result : DeliveryResult
  route : List StreetSegment
  totalDistanceTravelled : ℚ
deriving DecidableEq

/-- The local variables of `generatePointToPointRoute` that live across iterations of the
search loop. -/
structure SearchState where
  segs : List StreetSegment
  prevs : ExpandableHashMap GeoCoord GeoCoord
  gCost : ExpandableHashMap GeoCoord ℚ
  nodes : List (GeoCoord × ℚ)

/-- The extraction of a `std::priority_queue` ordered by `newGreater`: on a non-empty
queue, the entry `top()` yields and the queue left by the call to `pop()`. -/
abbrev Pop : Type := List (GeoCoord × ℚ) → Option ((GeoCoord × ℚ) × List (GeoCoord × ℚ))

/-- One extraction order: the earliest-pushed entry among those of least `f`. -/
def popMin : Pop
  | [] => none
  | x :: xs =>
      match popMin xs with
      | none => some (x, [])
      | some (m, rest) => if x.2 ≤ m.2 then some (x, xs) else some (m, x :: rest)

namespace PointToPointRouterImpl

/-- One iteration of the relaxation loop (lines 126-135) for the segment `it`. -/
def relaxSegment (dist : GeoCoord → GeoCoord → ℚ) (end_ current : GeoCoord)
    (st : SearchState) (it : StreetSegment) : Option SearchState :=
  match st.gCost.find current with
  | none => none
  | some gCurrent =>
      let newCost := gCurrent + dist current it.end_
      let updated : SearchState :=
        { segs := st.segs
          prevs := st.prevs.associate it.end_ current
          gCost := st.gCost.associate it.end_ newCost
          nodes := st.nodes ++ [(it.end_, newCost + heuristic dist it.end_ end_)] }
      match st.gCost.find it.end_ with
      | none => some updated
      | some old => if newCost < old then some updated else some st

/-- The relaxation loop (lines 126-135) over the snapshot of `segs`. -/
def relaxAll (dist : GeoCoord → GeoCoord → ℚ) (end_ current : GeoCoord) :
    List StreetSegment → SearchState → Option SearchState
  | [], st => some st
  | it :: rest, st =>
      match relaxSegment dist end_ current st it with
      | none => none
      | some st' => relaxAll dist end_ current rest st'

/-- The reconstruction loop `while (current != start)` (lines 107-117); `route` is the
list built by `push_back`, before the final `reverse`. -/
def traceBack (m_streetMap : StreetMap) (prevs : ExpandableHashMap GeoCoord GeoCoord)
    (start : GeoCoord) :
    Nat → GeoCoord → List StreetSegment → List StreetSegment → Option (List StreetSegment)
  | 0, _, _, _ => none
  | fuel + 1, current, segs, route =>
      if current = start then some route
      else
        let segs' := (StreetMapImpl.getSegmentsThatStartWith m_streetMap current segs).2
        match prevs.find current with
        | none => none
        | some trace =>
            match segs'.find? (fun it => decide (it.end_ = trace)) with
            | some it => traceBack m_streetMap prevs start fuel it.end_ segs'
                (route ++ [reverseSegment it])
            | none => traceBack m_streetMap prevs start fuel current segs' route

/-- The search loop `while (!nodes.empty())` (lines 102-137). `bound` is the fuel handed
to the reconstruction loop. -/
def searchLoop (pop : Pop) (dist : GeoCoord → GeoCoord → ℚ) (m_streetMap : StreetMap)
    (start end_ : GeoCoord) (bound : Nat) : Nat → SearchState → Option RouteOutcome
  | 0, _ => none
  | fuel + 1, st =>
      match pop st.nodes with
      | none => some ⟨DeliveryResult.NO_ROUTE, [], 0⟩
      | some (top, rest) =>
          let current := top.1
          if current = end_ then
            match traceBack m_streetMap st.prevs start bound current st.segs [] with
            | none => none
            | some route =>
                match st.gCost.find end_ with
                | none => none
                | some g => some ⟨DeliveryResult.DELIVERY_SUCCESS, route.reverse, g⟩
          else
            match StreetMapImpl.getSegmentsThatStartWith m_streetMap current st.segs with
            | (false, _) => some ⟨DeliveryResult.BAD_COORD, [], 0⟩
            | (true, segs) =>
                match relaxAll dist end_ current segs
                    { segs := segs, prevs := st.prevs, gCost := st.gCost, nodes := rest } with
                | none => none
                | some st' => searchLoop pop dist m_streetMap start end_ bound fuel st'

/-- The state at the first test of the `while` condition: lines 92-100. -/
def initialState (start : GeoCoord) (segs : List StreetSegment) : SearchState :=
  { segs := segs
    prevs := (ExpandableHashMap.empty : ExpandableHashMap GeoCoord GeoCoord).associate
      start start
    gCost := (ExpandableHashMap.empty : ExpandableHashMap GeoCoord ℚ).associate start 0
    nodes := [(start, 0)] }

/-- The function `generatePointToPointRoute`. -/
def generatePointToPointRoute (pop : Pop) (dist : GeoCoord → GeoCoord → ℚ)
    (m_streetMap : StreetMap) (start end_ : GeoCoord) (fuel : Nat) : Option RouteOutcome :=
  match StreetMapImpl.getSegmentsThatStartWith m_streetMap start [] with
  | (false, _) => some ⟨DeliveryResult.BAD_COORD, [], 0⟩
  | (true, segs) =>
      match StreetMapImpl.getSegmentsThatStartWith m_streetMap end_ segs with
      | (false, _) => some ⟨DeliveryResult.BAD_COORD, [], 0⟩
      | (true, segs') =>
          searchLoop pop dist m_streetMap start end_ fuel fuel (initialState start segs')

end PointToPointRouterImpl

/-! ## `DeliveryOptimizer.cpp` -/

/-- The constant `DBL_MAX` of `<cfloat>`. -/
def DBL_MAX : ℚ := 2 ^ 1024 - 2 ^ 971

/-- The function `swapGeoCoords`: the values of `first` and `second` after the call. -/
def swapGeoCoords (first second : GeoCoord) : GeoCoord × GeoCoord :=
  let temp : GeoCoord := ⟨first.latitudeText, first.longitudeText⟩
  let first' : GeoCoord := ⟨second.latitudeText, second.longitudeText⟩
  let second' : GeoCoord := ⟨temp.latitudeText, temp.longitudeText⟩
  (first', second')

/-- The function `swapRequests`: the values of `first` and `second` after the call. -/
def swapRequests (first second : DeliveryRequest) : DeliveryRequest × DeliveryRequest :=
  let temp : DeliveryRequest := ⟨first.item, first.location⟩
  let firstItem := second.item
  let locs := swapGeoCoords first.location second.location
  let secondItem := temp.item
  let locs' := swapGeoCoords locs.2 temp.location
  (⟨firstItem, locs.1⟩, ⟨secondItem, locs'.1⟩)

/-- What `optimizeDeliveryOrder` leaves in its reference parameters, and the draws it has
not consumed. -/
structure OptimizeOutcome where
  deliveries : List DeliveryRequest
  oldCrowDistance : ℚ
  newCrowDistance : ℚ
  draws : List Nat
deriving DecidableEq

/-- The local variables of `optimizeDeliveryOrder` that live across iterations of the
annealing loop, and the draws still to come. -/
structure AnnealState where
  p : List DeliveryRequest
  minCost : ℚ
  bestTour : List DeliveryRequest
  noImprove : Nat
  chance : ℚ
  draws : List Nat
deriving DecidableEq

namespace DeliveryOptimizerImpl

/-- The function `findCrowDistance`. -/
def findCrowDistance (dist : GeoCoord → GeoCoord → ℚ) (depot : GeoCoord)
    (deliveries : List DeliveryRequest) : ℚ :=
  let acc := deliveries.foldl
    (fun (acc : ℚ × GeoCoord) it => (acc.1 + dist acc.2 it.location, it.location)) (0, depot)
  acc.1 + dist acc.2 depot

/-- The `do ... while (rand1 == rand2)` loop of `permute`: the two indices and the draws
left. -/
def drawDistinct (deliveryCount : Nat) : List Nat → Option (Nat × Nat × List Nat)
  | r1 :: r2 :: rest =>
      if r1 % deliveryCount = r2 % deliveryCount then drawDistinct deliveryCount rest
      else some (r1 % deliveryCount, r2 % deliveryCount, rest)
  | _ => none

/-- The function `permute`: the value left in the reference parameter `deliveries`, the
returned copy, and the draws left. -/
def permute (deliveries : List DeliveryRequest) (draws : List Nat) :
    Option (List DeliveryRequest × List DeliveryRequest × List Nat) :=
  let deliveryCount := deliveries.length
  if deliveryCount = 1 then some (deliveries, deliveries, draws)
  else if deliveryCount = 0 then none
  else
    match drawDistinct deliveryCount draws with
    | none => none
    | some (rand1, rand2, rest) =>
        match deliveries[rand1]?, deliveries[rand2]? with
        | some first, some second =>
            let swapped := swapRequests first second
            let deliveries' := (deliveries.set rand1 swapped.1).set rand2 swapped.2
            some (deliveries', deliveries', rest)
        | _, _ => none

/-- The loop `while (noImprove < n)` of `optimizeDeliveryOrder` (lines 128-149). -/
def annealLoop (dist : GeoCoord → GeoCoord → ℚ) (depot : GeoCoord) (n : Nat) :
    Nat → AnnealState → Option AnnealState
  | 0, _ => none
  | fuel + 1, s =>
      if s.noImprove < n then
        let curCost := findCrowDistance dist depot s.p
        match permute s.p s.draws with
        | none => none
        | some (p, newP, draws) =>
            let newCost := findCrowDistance dist depot newP
            if newCost < curCost then
              if newCost < s.minCost then
                annealLoop dist depot n fuel
                  { p := newP, minCost := newCost, bestTour := newP, noImprove := 0,
                    chance := s.chance, draws := draws }
              else
                annealLoop dist depot n fuel
                  { p := newP, minCost := s.minCost, bestTour := s.bestTour,
                    noImprove := s.noImprove, chance := s.chance, draws := draws }
            else
              match draws with
              | [] => none
              | r :: draws' =>
                  let rand := r % 100
                  annealLoop dist depot n fuel
                    { p := if (rand : ℚ) < s.chance then newP else p
                      minCost := s.minCost, bestTour := s.bestTour,
                      noImprove := s.noImprove + 1, chance := s.chance * (9 / 10),
                      draws := draws' }
      else some s

/-- The function `optimizeDeliveryOrder`. -/
def optimizeDeliveryOrder (dist : GeoCoord → GeoCoord → ℚ) (depot : GeoCoord)
    (deliveries : List DeliveryRequest) (draws : List Nat) (fuel : Nat) :
    Option OptimizeOutcome :=
  let oldCrowDistance := findCrowDistance dist depot deliveries
  let size := deliveries.length * 2
  let n := min size 15
  match annealLoop dist depot n fuel
      { p := deliveries, minCost := DBL_MAX, bestTour := [], noImprove := 0, chance := 90,
        draws := draws } with
  | none => none
  | some s =>
      some
        { deliveries := s.bestTour
          oldCrowDistance := oldCrowDistance
          newCrowDistance := findCrowDistance dist depot s.bestTour
          draws := s.draws }

end DeliveryOptimizerImpl

/-! ## `DeliveryPlanner.cpp` -/

/-- Modelled from the spec: `DeliveryCommand` of `provided.h`, a record of one of three
kinds; the constructors stand for `initAsProceedCommand`, `initAsTurnCommand` and
`initAsDeliverCommand`. -/
inductive DeliveryCommand where
  | proceed (direction : String) (streetName : String) (distance : ℚ)
  | turn (direction : String) (streetName : String)
  | deliver (item : String)
deriving DecidableEq

/-- Modelled from the spec: `DeliveryCommand::increaseDistance` of `provided.h`; only a
Proceed carries a distance. -/
def DeliveryCommand.increaseDistance : DeliveryCommand → ℚ → DeliveryCommand
  | DeliveryCommand.proceed direction streetName distance, amt =>
      DeliveryCommand.proceed direction streetName (distance + amt)
  | c, _ => c

/-- Modelled from the spec: the default-constructed `StreetSegment` of `provided.h`, the
initial value of `here` and `last`. -/
def defaultSegment : StreetSegment := ⟨⟨"0", "0"⟩, ⟨"0", "0"⟩, ""⟩

/-- What `generateDeliveryPlan` hands back: the returned code and the two
out-parameters. -/
structure PlanOutcome where
  result : DeliveryResult
  commands : List DeliveryCommand
  totalDistanceTravelled : ℚ
deriving DecidableEq

/-- The variables of the emission loops: `here`, `last`, the queue `moves` and the
command list. -/
structure LegState where
  here : StreetSegment
  last : StreetSegment
  moves : List DeliveryCommand
  commands : List DeliveryCommand
deriving DecidableEq

/-- The `double` that `angleBetween2Lines` returns: a number of degrees, or NaN, which
the arithmetic of doubles yields when a coordinate of one of the two segments is NaN or
infinite. -/
inductive Angle where
  | degrees (value : ℚ)
  | nan
deriving DecidableEq

/-- A numeral read as a `double`. -/
instance instOfNatAngle (n : Nat) : OfNat Angle n := ⟨Angle.degrees n⟩

/-- The comparison `<` of two doubles: false as soon as one of them is NaN. -/
def Angle.lt : Angle → Angle → Prop
  | Angle.degrees x, Angle.degrees y => x < y
  | _, _ => False

/-- See `Angle.lt`; `a > b` is `b < a`. -/
instance instLTAngle : LT Angle := ⟨Angle.lt⟩

/-- The comparison of two doubles is decidable. -/
instance instDecidableLtAngle : (a b : Angle) → Decidable (a < b)
  | Angle.degrees x, Angle.degrees y => inferInstanceAs (Decidable (x < y))
  | Angle.degrees _, Angle.nan => isFalse (fun h => h)
  | Angle.nan, _ => isFalse (fun h => h)

/-- The functions of `provided.h` the planner calls. The angle between two lines may be
NaN: the planner's test `direction < 1 || direction > 359` lets NaN through. -/
structure Geometry where
  dist : GeoCoord → GeoCoord → ℚ
  angleOfLine : StreetSegment → ℚ
  angleBetween2Lines : StreetSegment → StreetSegment → Angle

namespace DeliveryPlannerImpl

/-- The function `getLength`. -/
def getLength (dist : GeoCoord → GeoCoord → ℚ) (street : StreetSegment) : ℚ :=
  dist street.start street.end_

/-- The function `generateProceed`. -/
def generateProceed (direction : ℚ) : String :=
  if 0 ≤ direction ∧ direction < 45 / 2 then "east"
  else if 45 / 2 ≤ direction ∧ direction < 135 / 2 then "northeast"
  else if 135 / 2 ≤ direction ∧ direction < 225 / 2 then "north"
  else if 225 / 2 ≤ direction ∧ direction < 315 / 2 then "northwest"
  else if 315 / 2 ≤ direction ∧ direction < 405 / 2 then "west"
  else if 405 / 2 ≤ direction ∧ direction < 495 / 2 then "southwest"
  else if 495 / 2 < direction ∧ direction < 585 / 2 then "south"
  else if 585 / 2 ≤ direction ∧ direction < 675 / 2 then "southeast"
  else "east"

/-- The function `generateTurn`, for a direction that is a number. -/
def generateTurn (direction : ℚ) : String :=
  if 1 ≤ direction ∧ direction < 180 then "left"
  else if 180 ≤ direction ∧ direction ≤ 359 then "right"
  else ""

/-- The function `generateTurn`, for the `double` the planner hands it: with NaN every
comparison of lines 50 and 52 is false, and line 55 returns the empty string. -/
def generateTurnOf : Angle → String
  | Angle.degrees direction => generateTurn direction
  | Angle.nan => ""

/-- The Proceed command built for the segment `here` (lines 121-123, 144-147, 159-161). -/
def proceedFor (geo : Geometry) (here : StreetSegment) : DeliveryCommand :=
  DeliveryCommand.proceed (generateProceed (geo.angleOfLine here)) here.name
    (getLength geo.dist here)

/-- The body of the loop over the segments of one route (lines 118-162). -/
def segmentStep (geo : Geometry) (s : LegState) (segment : StreetSegment) : LegState :=
  let here := segment
  match s.moves with
  | [] =>
      { here := here, last := here, moves := [proceedFor geo here], commands := s.commands }
  | front :: moves =>
      if here.name = s.last.name then
        { here := here, last := s.last, moves := front.increaseDistance (getLength geo.dist here)
            :: moves, commands := s.commands }
      else
        let commands := s.commands ++ [front]
        let direction := geo.angleBetween2Lines s.last here
        if direction < 1 ∨ direction > 359 then
          { here := here, last := here, moves := moves ++ [proceedFor geo here],
            commands := commands }
        else
          { here := here, last := here, moves := moves ++ [proceedFor geo here],
            commands := commands ++
              [DeliveryCommand.turn (generateTurnOf direction) here.name] }

/-- The statement `if (!moves.empty()) commands.push_back(moves.front());`. -/
def flushMoves (s : LegState) : List DeliveryCommand :=
  match s.moves with
  | [] => s.commands
  | front :: _ => s.commands ++ [front]

/-- The loop over `routes` (lines 115-178): the returned code and the command list. -/
def emitRoutes (geo : Geometry) (newDeliveries : List DeliveryRequest) :
    List (List StreetSegment) → Nat → LegState →
      Option (DeliveryResult × List DeliveryCommand)
  | [], _, s => some (DeliveryResult.NO_ROUTE, s.commands)
  | route :: routes, delivered, s =>
      let s' := route.foldl (segmentStep geo)
        { here := s.here, last := s.last, moves := [], commands := s.commands }
      if delivered ≠ newDeliveries.length then
        match newDeliveries[delivered]? with
        | none => none
        | some d =>
            emitRoutes geo newDeliveries routes (delivered + 1)
              { here := s'.here, last := s'.last, moves := [],
                commands := flushMoves s' ++ [DeliveryCommand.deliver d.item] }
      else some (DeliveryResult.DELIVERY_SUCCESS, flushMoves s')

/-- The loop over `newDeliveries` (lines 89-99): either the code of the first leg that
fails, or the routes; in both cases with the distance accumulated so far. -/
def routeLegs (pop : Pop) (dist : GeoCoord → GeoCoord → ℚ) (sm : StreetMap) (fuel : Nat) :
    List DeliveryRequest → GeoCoord → List (List StreetSegment) → ℚ →
      Option ((DeliveryResult ⊕ (GeoCoord × List (List StreetSegment))) × ℚ)
  | [], current, routes, total => some (Sum.inr (current, routes), total)
  | it :: rest, current, routes, total =>
      match PointToPointRouterImpl.generatePointToPointRoute pop dist sm current it.location
          fuel with
      | none => none
      | some out =>
          if out.result = DeliveryResult.BAD_COORD then
            some (Sum.inl DeliveryResult.BAD_COORD, total)
          else if out.result = DeliveryResult.NO_ROUTE then
            some (Sum.inl DeliveryResult.NO_ROUTE, total)
          else
            routeLegs pop dist sm fuel rest it.location (routes ++ [out.route])
              (total + out.totalDistanceTravelled)

/-- The function `generateDeliveryPlan`. -/
def generateDeliveryPlan (pop : Pop) (geo : Geometry) (sm : StreetMap) (depot : GeoCoord)
    (deliveries : List DeliveryRequest) (draws : List Nat) (fuel : Nat) :
    Option PlanOutcome :=
  match DeliveryOptimizerImpl.optimizeDeliveryOrder geo.dist depot deliveries draws fuel with
  | none => none
  | some opt =>
      let newDeliveries := opt.deliveries
      match routeLegs pop geo.dist sm fuel newDeliveries depot [] 0 with
      | none => none
      | some (Sum.inl result, total) => some ⟨result, [], total⟩
      | some (Sum.inr (current, routes), total) =>
          match PointToPointRouterImpl.generatePointToPointRoute pop geo.dist sm current depot
              fuel with
          | none => none
          | some out =>
              if out.result = DeliveryResult.BAD_COORD then
                some ⟨DeliveryResult.BAD_COORD, [], total⟩
              else if out.result = DeliveryResult.NO_ROUTE then
                some ⟨DeliveryResult.NO_ROUTE, [], total⟩
              else
                match emitRoutes geo newDeliveries (routes ++ [out.route]) 0
                    { here := defaultSegment, last := defaultSegment, moves := [],
                      commands := [] } with
                | none => none
                | some (result, commands) =>
                    some ⟨result, commands, total + out.totalDistanceTravelled⟩

end DeliveryPlannerImpl

/-! ## Specification vocabulary -/

/-- The segment `s` is stored in the neighbor list of its own start coordinate. -/
def HasSegment (sm : StreetMap) (s : StreetSegment) : Prop :=
  ∃ v, sm.find s.start = some v ∧ s ∈ v

/-- What every table built by `load` satisfies: a stored segment starts at its key, and
the reverse of a stored segment is stored. -/
structure WellFormed (sm : StreetMap) : Prop where
  start_eq : ∀ k v s, sm.find k = some v → s ∈ v → s.start = k
  reverse_mem : ∀ s, HasSegment sm s → HasSegment sm (reverseSegment s)

/-- A route from `a` to `b`: a contiguous list of stored segments. -/
def IsRoute (sm : StreetMap) : GeoCoord → GeoCoord → List StreetSegment → Prop
  | a, b, [] => a = b
  | a, b, s :: r => s.start = a ∧ HasSegment sm s ∧ IsRoute sm s.end_ b r

/-- The sum of the lengths of the segments of a route. -/
def routeLength (dist : GeoCoord → GeoCoord → ℚ) (r : List StreetSegment) : ℚ :=
  (r.map (fun s => dist s.start s.end_)).sum

/-- What the router needs of `distanceEarthMiles`: it is never negative and satisfies the
triangle inequality. -/
structure IsDistance (dist : GeoCoord → GeoCoord → ℚ) : Prop where
  nonneg : ∀ a b, 0 ≤ dist a b
  triangle : ∀ a b c, dist a c ≤ dist a b + dist b c

/-- What `std::priority_queue` with `newGreater` guarantees of `top()` and `pop()`: the
queue is exhausted exactly when empty, the extracted entry has the least `f`, and the
other entries stay. -/
structure PopSpec (pop : Pop) : Prop where
  none_iff : ∀ q, pop q = none ↔ q = []
  perm : ∀ q top rest, pop q = some (top, rest) → List.Perm q (top :: rest)
  least : ∀ q top rest, pop q = some (top, rest) → ∀ x ∈ q, top.2 ≤ x.2

/-- The number of segment entries stored in the table. -/
def storedSegments (sm : StreetMap) : Nat :=
  (sm.entries.map (fun e => e.2.length)).sum

/-- A fuel that suffices for `generatePointToPointRoute` on the table `sm`. -/
def searchFuel (sm : StreetMap) : Nat := storedSegments sm + 2

/-- The number of segment entries stored under keys outside `E`. -/
def work (sm : StreetMap) (E : List GeoCoord) : Nat :=
  ((sm.entries.filter (fun e => decide (e.1 ∉ E))).map (fun e => e.2.length)).sum

/-- The list `r` is what the reconstruction loop produces from `v`: it follows `prevs`
through coordinates of `E` down to `start`, taking at each coordinate the first
stored segment that ends at the predecessor. -/
inductive TraceRoute (sm : StreetMap) (prevs : ExpandableHashMap GeoCoord GeoCoord)
    (start : GeoCoord) (E : List GeoCoord) : GeoCoord → List StreetSegment → Prop where
  | base : TraceRoute sm prevs start E start []
  | step {v u : GeoCoord} {segs : List StreetSegment} {it : StreetSegment}
      {r : List StreetSegment} :
      v ≠ start → prevs.find v = some u → u ∈ E → sm.find v = some segs →
      segs.find? (fun it => decide (it.end_ = u)) = some it →
      TraceRoute sm prevs start E u r →
      TraceRoute sm prevs start E v (r ++ [reverseSegment it])

/-- The invariant of the search loop. `E` lists the coordinates whose segments have been
relaxed, `pending` the segments of the coordinate under relaxation that are still to
be relaxed, `B` bounds the number of iterations left. -/
structure SearchInv (dist : GeoCoord → GeoCoord → ℚ) (sm : StreetMap) (start end_ : GeoCoord)
    (E : List GeoCoord) (pending : List StreetSegment) (B : Nat) (st : SearchState) :
    Prop where
  g_start : st.gCost.find start = some 0
  seen_key : ∀ v gv, st.gCost.find v = some gv → ∃ segs, sm.find v = some segs
  trace : ∀ v gv, st.gCost.find v = some gv →
    ∃ r, TraceRoute sm st.prevs start E v r ∧ IsRoute sm start v r ∧
      routeLength dist r = gv ∧ r.length ≤ E.length ∧ (v ∈ E → r.length < E.length)
  closed_opt : ∀ u, u ∈ E →
    ∃ gu, st.gCost.find u = some gu ∧ ∀ r, IsRoute sm start u r → gu ≤ routeLength dist r
  closed_edges : ∀ s, HasSegment sm s → s.start ∈ E → s ∉ pending →
    ∀ gu, st.gCost.find s.start = some gu →
      ∃ gv, st.gCost.find s.end_ = some gv ∧ gv ≤ gu + dist s.start s.end_
  open_entry : ∀ v gv, st.gCost.find v = some gv → v ∉ E →
    ∃ f, (v, f) ∈ st.nodes ∧ f ≤ gv + dist v end_
  entry_seen : ∀ v f, (v, f) ∈ st.nodes →
    ∃ gv, st.gCost.find v = some gv ∧ (gv + dist v end_ ≤ f ∨ v = start)
  end_open : end_ ∉ E
  budget : work sm E + st.nodes.length + pending.length ≤ B
  expanded : E.length + B ≤ storedSegments sm + 1

/-- What an outcome of the search loop satisfies. -/
def RouterPost (dist : GeoCoord → GeoCoord → ℚ) (sm : StreetMap) (start end_ : GeoCoord)
    (out : RouteOutcome) : Prop :=
  out.result ≠ DeliveryResult.BAD_COORD ∧
  (out.result = DeliveryResult.DELIVERY_SUCCESS →
    IsRoute sm start end_ out.route ∧
    routeLength dist out.route = out.totalDistanceTravelled ∧
    ∀ r, IsRoute sm start end_ r → out.totalDistanceTravelled ≤ routeLength dist r) ∧
  (out.result = DeliveryResult.NO_ROUTE →
    out.route = [] ∧ out.totalDistanceTravelled = 0 ∧ ∀ r, ¬ IsRoute sm start end_ r)

/-! ## Fixtures -/

/-- The whole number a text of decimal digits denotes. -/
def wholeNumber (s : String) : ℚ :=
  ((s.data.foldl (fun n ch => 10 * n + (ch.toNat - 48)) 0 : Nat) : ℚ)

/-- A distance for coordinates with whole-number texts: degrees of latitude plus degrees
of longitude between the two points. On one parallel or one meridian it is
proportional to the length of the arc between them. -/
def gridDistance (a b : GeoCoord) : ℚ :=
  |wholeNumber a.latitudeText - wholeNumber b.latitudeText| +
    |wholeNumber a.longitudeText - wholeNumber b.longitudeText|

/-- The coordinate with the given whole-number latitude and longitude texts. -/
def coordAt (latitudeText longitudeText : String) : GeoCoord := ⟨latitudeText, longitudeText⟩

/-- The map of the end-to-end scenarios: A-B and B-C on "Main St", C-D on "Oak Ave",
and a street I-J apart from them. -/
def scenarioLines : List StreetSegment :=
  [⟨coordAt "0" "0", coordAt "0" "1", "Main St"⟩, ⟨coordAt "0" "1", coordAt "0" "2", "Main St"⟩,
   ⟨coordAt "0" "2", coordAt "1" "2", "Oak Ave"⟩, ⟨coordAt "5" "5", coordAt "5" "6", "Far Rd"⟩]

/-- The geometry of the scenarios: `gridDistance`, every street heading east, every
corner a 90 degree turn. -/
def scenarioGeometry : Geometry := ⟨gridDistance, fun _ => 0, fun _ _ => 90⟩

/-- Four deliveries along the equator, at 1, 2, 3 and 4 degrees east of the depot. -/
def equatorDeliveries : List DeliveryRequest :=
  [⟨"a", coordAt "0" "1"⟩, ⟨"b", coordAt "0" "2"⟩, ⟨"c", coordAt "0" "3"⟩, ⟨"d", coordAt "0" "4"⟩]

/-- Draws for `equatorDeliveries`: swap positions 0 and 2, then 2 and 3, then eight times
0 and 2; every acceptance roll is 0. -/
def equatorDraws : List Nat :=
  [0, 2, 0, 2, 3, 0, 2, 0, 0, 2, 0, 0, 2, 0, 0, 2, 0, 0, 2, 0, 0, 2, 0, 0, 2, 0, 0, 2, 0]

/-! ## Planner vocabulary -/

/-- The commands one leg contributes: what the loop over the segments of `route` appends
to the command list, the pending Proceed included. -/
def legCommands (geo : Geometry) (route : List StreetSegment) : List DeliveryCommand :=
  DeliveryPlannerImpl.flushMoves
    (route.foldl (DeliveryPlannerImpl.segmentStep geo)
      { here := defaultSegment, last := defaultSegment, moves := [], commands := [] })

/-- The legs that end at a delivery: from `current` to the first delivery, then from each
delivery to the next. -/
def deliveryLegs : GeoCoord → List DeliveryRequest → List (GeoCoord × GeoCoord)
  | _, [] => []
  | current, it :: rest => (current, it.location) :: deliveryLegs it.location rest

/-- Where the courier stands after the deliveries: the location of the last one, or
`current` when there is none. -/
def lastStop : GeoCoord → List DeliveryRequest → GeoCoord
  | current, [] => current
  | _, it :: rest => lastStop it.location rest

/-- The consecutive legs of (depot, d1, ..., dn, depot). -/
def tourLegs (depot : GeoCoord) (deliveries : List DeliveryRequest) :
    List (GeoCoord × GeoCoord) :=
  deliveryLegs depot deliveries ++ [(lastStop depot deliveries, depot)]

/-- The router call for the leg `leg` returns `out`, and `out` is a success. -/
def LegSucceeds (pop : Pop) (dist : GeoCoord → GeoCoord → ℚ) (sm : StreetMap) (fuel : Nat)
    (leg : GeoCoord × GeoCoord) (out : RouteOutcome) : Prop :=
  PointToPointRouterImpl.generatePointToPointRoute pop dist sm leg.1 leg.2 fuel = some out ∧
    out.result = DeliveryResult.DELIVERY_SUCCESS

/-- The command list of a plan with the given deliveries and routes: each leg's commands,
followed by the Deliver command of the delivery the leg ends at, if any. -/
def planCommands (geo : Geometry) :
    List DeliveryRequest → List (List StreetSegment) → List DeliveryCommand
  | _, [] => []
  | [], route :: _ => legCommands geo route
  | d :: deliveries, route :: routes =>
      legCommands geo route ++ DeliveryCommand.deliver d.item ::
        planCommands geo deliveries routes

/-- The command is a Proceed. -/
def DeliveryCommand.IsProceed : DeliveryCommand → Prop
  | DeliveryCommand.proceed _ _ _ => True
  | _ => False

/-- A geometry in which every street heads east and every corner is straight. -/
def straightGeometry : Geometry := ⟨gridDistance, fun _ => 0, fun _ _ => 0⟩

/-- The router fails on one of `legs`: the legs before it succeed, `result` is what the
router returns for it, and `paid` is the summed distance of the legs before it. -/
def FirstFailure (pop : Pop) (dist : GeoCoord → GeoCoord → ℚ) (sm : StreetMap) (fuel : Nat)
    (legs : List (GeoCoord × GeoCoord)) (result : DeliveryResult) (paid : ℚ) : Prop :=
  ∃ pre leg post outs bad, legs = pre ++ leg :: post ∧
    List.Forall₂ (LegSucceeds pop dist sm fuel) pre outs ∧
    PointToPointRouterImpl.generatePointToPointRoute pop dist sm leg.1 leg.2 fuel = some bad ∧
    bad.result ≠ DeliveryResult.DELIVERY_SUCCESS ∧ bad.result = result ∧
    paid = (outs.map RouteOutcome.totalDistanceTravelled).sum

/-- Three deliveries on the scenario map: soda to B, a menu to the depot A itself, pizza
to C. -/
def scenarioDeliveries : List DeliveryRequest :=
  [⟨"soda", coordAt "0" "1"⟩, ⟨"menu", coordAt "0" "0"⟩, ⟨"pizza", coordAt "0" "2"⟩]

/-- Draws for three deliveries: swap positions 0 and 1, then six times 1 and 2; every
acceptance roll is 0. -/
def scenarioDraws : List Nat :=
  [0, 1, 1, 2, 0, 1, 2, 0, 1, 2, 0, 1, 2, 0, 1, 2, 0, 1, 2, 0]

/-- Three deliveries on the scenario map: pizza to C, soda to B, salad to D. -/
def roundDeliveries : List DeliveryRequest :=
  [⟨"pizza", coordAt "0" "2"⟩, ⟨"soda", coordAt "0" "1"⟩, ⟨"salad", coordAt "1" "2"⟩]

/-- Three deliveries on the scenario map, the last one to I, which no street joins to the
depot: soda to B, a menu to the depot A, pizza to I. -/
def strandedDeliveries : List DeliveryRequest :=
  [⟨"soda", coordAt "0" "1"⟩, ⟨"menu", coordAt "0" "0"⟩, ⟨"pizza", coordAt "5" "5"⟩]

/-! ## `load` on the text of the map file -/

/-- Modelled from the spec: the C++ standard library's `std::istream`, as far as `load`
uses it: the characters not yet read, `eofbit` and `failbit`. -/
structure IStream where
  chars : List Char
  eofbit : Bool
  failbit : Bool
deriving DecidableEq

namespace IStream

/-- The member `good()`. -/
def good (is : IStream) : Bool := !is.eofbit && !is.failbit

/-- A stream opened on a text. -/
def ofString (text : String) : IStream := ⟨text.data, false, false⟩

/-- The function `isspace` of the "C" locale. -/
def isSpace (c : Char) : Bool :=
  c = ' ' || c = Char.ofNat 9 || c = Char.ofNat 10 || c = Char.ofNat 11 || c = Char.ofNat 12 ||
    c = Char.ofNat 13

/-- The characters before the first newline, and those after it; `none` when there is no
newline. -/
def splitLine : List Char → List Char × Option (List Char)
  | [] => ([], none)
  | c :: cs =>
      if c = Char.ofNat 10 then ([], some cs)
      else ((c :: (splitLine cs).1), (splitLine cs).2)

/-- Leading whitespace removed. -/
def skipSpace : List Char → List Char
  | [] => []
  | c :: cs => if isSpace c then skipSpace cs else c :: cs

/-- The leading characters that satisfy `p`, and the rest. -/
def takeWhileRest (p : Char → Bool) : List Char → List Char × List Char
  | [] => ([], [])
  | c :: cs =>
      if p c then ((c :: (takeWhileRest p cs).1), (takeWhileRest p cs).2) else ([], c :: cs)

/-- The call `std::getline(is, str)`: the stream after it and the content of `str`. A
stream that is not good fails and leaves `str`; otherwise `str` receives the
characters up to the next newline, which is consumed, or up to the end of input,
which sets `eofbit`; when nothing at all could be extracted `failbit` is set. -/
def getline (is : IStream) (str : String) : IStream × String :=
  if !is.good then ({ chars := is.chars, eofbit := is.eofbit, failbit := true }, str)
  else
    match splitLine is.chars with
    | (line, some rest) => ({ chars := rest, eofbit := false, failbit := false }, String.mk line)
    | (line, none) =>
        ({ chars := [], eofbit := true, failbit := line.isEmpty }, String.mk line)

/-- The constants `INT_MAX` and `INT_MIN`. -/
def INT_MAX : Int := 2147483647

/-- See `INT_MAX`. -/
def INT_MIN : Int := -2147483648

/-- The number a list of decimal digits denotes. -/
def natOfDigits (digits : List Char) : Nat :=
  digits.foldl (fun n ch => 10 * n + (ch.toNat - 48)) 0

/-- The extraction `is >> value` for an `int` (`none` is an uninitialised `int`). A stream
that is not good, or that ends within the leading whitespace, fails and leaves
`value`; a field without digits fails and stores 0; a number out of range fails and
stores the nearest bound; reaching the end of input sets `eofbit`. -/
def extractInt (is : IStream) (value : Option Int) : IStream × Option Int :=
  if !is.good then ({ chars := is.chars, eofbit := is.eofbit, failbit := true }, value)
  else
    match skipSpace is.chars with
    | [] => ({ chars := [], eofbit := true, failbit := true }, value)
    | c :: cs =>
        let negative := decide (c = '-')
        let afterSign := if c = '-' ∨ c = '+' then cs else c :: cs
        let field := takeWhileRest Char.isDigit afterSign
        let n : Int := if negative then -(natOfDigits field.1 : Int) else (natOfDigits field.1 : Int)
        if field.1.isEmpty then
          ({ chars := field.2, eofbit := field.2.isEmpty, failbit := true }, some 0)
        else if INT_MAX < n then
          ({ chars := field.2, eofbit := field.2.isEmpty, failbit := true }, some INT_MAX)
        else if n < INT_MIN then
          ({ chars := field.2, eofbit := field.2.isEmpty, failbit := true }, some INT_MIN)
        else ({ chars := field.2, eofbit := field.2.isEmpty, failbit := false }, some n)

/-- Characters discarded by `ignore(n, newline)`: up to `n` of them, the newline that ends
the run included; the flag tells that the end of input was reached. -/
def discard : Nat → List Char → List Char × Bool
  | 0, cs => (cs, false)
  | _ + 1, [] => ([], true)
  | n + 1, c :: cs => if c = Char.ofNat 10 then (cs, false) else discard n cs

/-- The call `is.ignore(1000, newline)`. -/
def ignore (is : IStream) : IStream :=
  if !is.good then { chars := is.chars, eofbit := is.eofbit, failbit := true }
  else
    { chars := (discard 1000 is.chars).1, eofbit := (discard 1000 is.chars).2,
      failbit := false }

/-- The extraction `is >> str` for a `std::string`: a stream that is not good, or that
ends within the leading whitespace, fails and leaves `str`; otherwise `str` receives
the characters up to the next whitespace or the end of input. -/
def extractWord (is : IStream) (str : String) : IStream × String :=
  if !is.good then ({ chars := is.chars, eofbit := is.eofbit, failbit := true }, str)
  else
    match skipSpace is.chars with
    | [] => ({ chars := [], eofbit := true, failbit := true }, str)
    | c :: cs =>
        let field := takeWhileRest (fun ch => !isSpace ch) (c :: cs)
        ({ chars := field.2, eofbit := field.2.isEmpty, failbit := false }, String.mk field.1)

end IStream

/-- The local variables of `load`, the table and what has been written to `cerr`. -/
structure LoadVars where
  infile : IStream
  streetName : String
  streetCount : Option Int
  coords : String
  coordLat1 : String
  coordLon1 : String
  coordLat2 : String
  coordLon2 : String
  m_streets : StreetMap
  cerr : List String

/-- Equality of street tables is decidable. -/
instance instDecidableEqStreetMap : DecidableEq StreetMap :=
  inferInstanceAs (DecidableEq (List (GeoCoord × List StreetSegment)))

/-- What `load` hands back: the returned flag, the table it leaves in `m_streets`, and
what it has written to `cerr`. -/
structure LoadOutcome where
  result : Bool
  m_streets : StreetMap
  cerr : List String
deriving DecidableEq

namespace StreetMapImpl

/-- The body of the `for` loop of `load` (lines 59-87). `stodOk` tells for which texts the
conversion in the constructor of `GeoCoord` returns; for the others it throws, and
`load` does not return. -/
def readSegment (stodOk : String → Bool) (v : LoadVars) : Option LoadVars :=
  let line := IStream.getline v.infile v.coords
  let iss := IStream.ofString line.2
  let w1 := IStream.extractWord iss v.coordLat1
  let w2 := IStream.extractWord w1.1 v.coordLon1
  let w3 := IStream.extractWord w2.1 v.coordLat2
  let w4 := IStream.extractWord w3.1 v.coordLon2
  if stodOk w1.2 && stodOk w2.2 && stodOk w3.2 && stodOk w4.2 then
    some
      { infile := line.1, streetName := v.streetName, streetCount := v.streetCount,
        coords := line.2, coordLat1 := w1.2, coordLon1 := w2.2, coordLat2 := w3.2,
        coordLon2 := w4.2,
        m_streets := loadSegment v.m_streets ⟨⟨w1.2, w2.2⟩, ⟨w3.2, w4.2⟩, v.streetName⟩,
        cerr := v.cerr }
  else none

/-- The loop `for (int i = 0; i != streetCount; i++)` for a count that is not negative. -/
def readSegments (stodOk : String → Bool) : Nat → LoadVars → Option LoadVars
  | 0, v => some v
  | n + 1, v =>
      match readSegment stodOk v with
      | none => none
      | some v' => readSegments stodOk n v'

/-- The loop `while (getline(infile, streetName))` of `load` (lines 52-89). An
uninitialised or negative `streetCount` gives `none`: the `for` loop reads an
indeterminate value, or never reaches `i == streetCount`. -/
def loadLoop (stodOk : String → Bool) : Nat → LoadVars → Option LoadVars
  | 0, _ => none
  | fuel + 1, v =>
      let name := IStream.getline v.infile v.streetName
      if name.1.failbit then
        some
          { infile := name.1, streetName := name.2, streetCount := v.streetCount,
            coords := v.coords, coordLat1 := v.coordLat1, coordLon1 := v.coordLon1,
            coordLat2 := v.coordLat2, coordLon2 := v.coordLon2, m_streets := v.m_streets,
            cerr := v.cerr }
      else
        let count := IStream.extractInt name.1 v.streetCount
        let cerr :=
          if count.1.failbit then v.cerr ++ ["inFile failed to retrieve streetCount."]
          else v.cerr
        let infile := IStream.ignore count.1
        match count.2 with
        | none => none
        | some streetCount =>
            if streetCount < 0 then none
            else
              match readSegments stodOk streetCount.toNat
                  { infile := infile, streetName := name.2, streetCount := count.2,
                    coords := v.coords, coordLat1 := v.coordLat1, coordLon1 := v.coordLon1,
                    coordLat2 := v.coordLat2, coordLon2 := v.coordLon2,
                    m_streets := v.m_streets, cerr := cerr } with
              | none => none
              | some v' => loadLoop stodOk fuel v'

/-- The function `load` on the file named `mapFile`; `content` is the text of the file, or
`none` when the file cannot be opened. The table starts empty. -/
def loadFile (stodOk : String → Bool) (mapFile : String) (content : Option String)
    (fuel : Nat) : Option LoadOutcome :=
  match content with
  | none =>
      some ⟨false, ExpandableHashMap.empty, ["Failed to retrieve data from " ++ mapFile ++ "!"]⟩
  | some text =>
      match loadLoop stodOk fuel
          { infile := IStream.ofString text, streetName := "", streetCount := none,
            coords := "", coordLat1 := "", coordLon1 := "", coordLat2 := "", coordLon2 := "",
            m_streets := ExpandableHashMap.empty, cerr := [] } with
      | none => none
      | some v => some ⟨true, v.m_streets, v.cerr⟩

end StreetMapImpl

/-- The texts made of decimal digits only, for all of which `std::stod` returns. -/
def digitsOnly (s : String) : Bool := !s.data.isEmpty && s.data.all Char.isDigit

/-! ## Vocabulary for the command list -/

/-- The commands the rest of a leg appends, in order: `last` is the value of the variable
`last`, `pending` the Proceed at the front of `moves`, and the list holds the segments
still to come. -/
def legFrom (geo : Geometry) :
    StreetSegment → DeliveryCommand → List StreetSegment → List DeliveryCommand
  | _, pending, [] => [pending]
  | last, pending, here :: rest =>
      if here.name = last.name then
        legFrom geo last
          (pending.increaseDistance (DeliveryPlannerImpl.getLength geo.dist here)) rest
      else if geo.angleBetween2Lines last here < 1 ∨ geo.angleBetween2Lines last here > 359 then
        pending :: legFrom geo here (DeliveryPlannerImpl.proceedFor geo here) rest
      else
        pending ::
          DeliveryCommand.turn
            (DeliveryPlannerImpl.generateTurnOf (geo.angleBetween2Lines last here)) here.name ::
          legFrom geo here (DeliveryPlannerImpl.proceedFor geo here) rest

/-- The distance a command carries: that of a Proceed, and none for a Turn or a
Deliver. -/
def DeliveryCommand.proceedDistance : DeliveryCommand → ℚ
  | DeliveryCommand.proceed _ _ distance => distance
  | _ => 0

/-- The item a Deliver command names. -/
def DeliveryCommand.deliveredItem : DeliveryCommand → Option String
  | DeliveryCommand.deliver item => some item
  | _ => none

/-- The segments travelled on the street entered with `here`: `here` and the segments
after it up to the next one with another street name. -/
def streetRun (here : StreetSegment) (rest : List StreetSegment) : List StreetSegment :=
  here :: rest.takeWhile (fun s => decide (s.name = here.name))

/-- The bearing of a segment that runs along a meridian or a parallel, for coordinates
with whole-number texts: 0 east, 90 north, 180 west, 270 south. -/
def compassBearing (s : StreetSegment) : ℚ :=
  if wholeNumber s.start.latitudeText < wholeNumber s.end_.latitudeText then 90
  else if wholeNumber s.end_.latitudeText < wholeNumber s.start.latitudeText then 270
  else if wholeNumber s.end_.longitudeText < wholeNumber s.start.longitudeText then 180
  else 0

/-- A geometry for maps drawn on the grid: `gridDistance`, `compassBearing`, and for the
angle between two lines the bearing of the second less the bearing of the first,
brought into [0, 360). -/
def compassGeometry : Geometry :=
  ⟨gridDistance, compassBearing, fun line1 line2 =>
    Angle.degrees
      (if compassBearing line2 - compassBearing line1 < 0 then
        compassBearing line2 - compassBearing line1 + 360
      else compassBearing line2 - compassBearing line1)⟩

/-- A map in which the coordinate X between A and D has the latitude text "nan", for
which `std::stod` returns NaN: "Main St" from A to X, "Oak Ave" from X to D. -/
def nanLines : List StreetSegment :=
  [⟨coordAt "0" "0", coordAt "nan" "1", "Main St"⟩,
   ⟨coordAt "nan" "1", coordAt "0" "2", "Oak Ave"⟩]

/-- A geometry for the map `nanLines`: every two different coordinates are one unit
apart, and the angle between two lines is NaN when one of them touches the coordinate
with the latitude "nan", and 90 degrees otherwise. -/
def nanGeometry : Geometry :=
  ⟨fun a b => if a = b then 0 else 1, fun _ => 0, fun line1 line2 =>
    if line1.start.latitudeText = "nan" ∨ line1.end_.latitudeText = "nan" ∨
        line2.start.latitudeText = "nan" ∨ line2.end_.latitudeText = "nan" then Angle.nan
    else 90⟩

/-- Three deliveries on the map `nanLines`: soda to D, a menu to the depot A, pizza
to D. -/
def nanDeliveries : List DeliveryRequest :=
  [⟨"soda", coordAt "0" "2"⟩, ⟨"menu", coordAt "0" "0"⟩, ⟨"pizza", coordAt "0" "2"⟩]

/-- A map with a bend: "Hill Rd" runs east from A to B and then north from B to C, where
"Elm St" carries on north to D. -/
def bendLines : List StreetSegment :=
  [⟨coordAt "0" "0", coordAt "0" "1", "Hill Rd"⟩, ⟨coordAt "0" "1", coordAt "1" "1", "Hill Rd"⟩,
   ⟨coordAt "1" "1", coordAt "2" "1", "Elm St"⟩]

/-- Three deliveries on the map with a bend: soda to D, a menu to the depot A, pizza
to D. -/
def bendDeliveries : List DeliveryRequest :=
  [⟨"soda", coordAt "2" "1"⟩, ⟨"menu", coordAt "0" "0"⟩, ⟨"pizza", coordAt "2" "1"⟩]

namespace DeliveryOptimizerImpl

/-- The body of the loop `while (noImprove < n)` of `optimizeDeliveryOrder`
(lines 130-148): the variables after one pass. -/
def annealStep (dist : GeoCoord → GeoCoord → ℚ) (depot : GeoCoord) (s : AnnealState) :
    Option AnnealState :=
  let curCost := findCrowDistance dist depot s.p
  match permute s.p s.draws with
  | none => none
  | some (p, newP, draws) =>
      let newCost := findCrowDistance dist depot newP
      if newCost < curCost then
        if newCost < s.minCost then
          some { p := newP, minCost := newCost, bestTour := newP, noImprove := 0,
                 chance := s.chance, draws := draws }
        else
          some { p := newP, minCost := s.minCost, bestTour := s.bestTour,
                 noImprove := s.noImprove, chance := s.chance, draws := draws }
      else
        match draws with
        | [] => none
        | r :: draws' =>
            let rand := r % 100
            some { p := if (rand : ℚ) < s.chance then newP else p
                   minCost := s.minCost, bestTour := s.bestTour,
                   noImprove := s.noImprove + 1, chance := s.chance * (9 / 10),
                   draws := draws' }

/-- The costs compared in each pass of the loop `while (noImprove < n)`: `curCost`
(line 130) and `newCost` (line 132), pass by pass. -/
def annealTrace (dist : GeoCoord → GeoCoord → ℚ) (depot : GeoCoord) (n : Nat) :
    Nat → AnnealState → Option (List (ℚ × ℚ))
  | 0, _ => none
  | fuel + 1, s =>
      if s.noImprove < n then
        match permute s.p s.draws, annealStep dist depot s with
        | some (_, newP, _), some s' =>
            (annealTrace dist depot n fuel s').map
              (fun t => (findCrowDistance dist depot s.p, findCrowDistance dist depot newP) :: t)
        | _, _ => none
      else some []

end DeliveryOptimizerImpl

namespace PointToPointRouterImpl

/-- The state of the search loop at the test of its condition after `passes` passes, none
of which extracted `end_` (lines 102-136): each pass extracts a coordinate other than
`end_` and relaxes its segments. -/
def searchStates (pop : Pop) (dist : GeoCoord → GeoCoord → ℚ) (m_streetMap : StreetMap)
    (end_ : GeoCoord) : Nat → SearchState → Option SearchState
  | 0, st => some st
  | passes + 1, st =>
      match pop st.nodes with
      | none => none
      | some (top, rest) =>
          let current := top.1
          if current = end_ then none
          else
            match StreetMapImpl.getSegmentsThatStartWith m_streetMap current st.segs with
            | (false, _) => none
            | (true, segs) =>
                match relaxAll dist end_ current segs
                    { segs := segs, prevs := st.prevs, gCost := st.gCost, nodes := rest } with
                | none => none
                | some st' => searchStates pop dist m_streetMap end_ passes st'

end PointToPointRouterImpl

/-- One step back along the predecessor map: `u` is recorded for `v`, and the neighbor
list of `v` holds a segment that ends at `u`. -/
def TraceStep (sm : StreetMap) (prevs : ExpandableHashMap GeoCoord GeoCoord)
    (v u : GeoCoord) : Prop :=
  prevs.find v = some u ∧ ∃ segs, sm.find v = some segs ∧ ∃ it, it ∈ segs ∧ it.end_ = u

/-- Equality of tables is decidable when equality of keys and of values is. -/
instance instDecidableEqExpandableHashMap {K V : Type} [DecidableEq K] [DecidableEq V] :
    DecidableEq (ExpandableHashMap K V) :=
  inferInstanceAs (DecidableEq (List (K × V)))

deriving instance DecidableEq for SearchState

/-! ## The records of a map file -/

/-- One record of a map file as the grammar of the spec writes it: the line with the
street name, the digits of the line with the segment count, and the four words of each
coordinate line. -/
structure StreetRecord where
  name : String
  count : List Char
  lines : List (String × String × String × String)

namespace StreetRecord

/-- The text of one coordinate line: four words, a blank between two of them, and the
newline. -/
def lineText (line : String × String × String × String) : List Char :=
  line.1.data ++ ' ' :: line.2.1.data ++ ' ' :: line.2.2.1.data ++ ' ' ::
    line.2.2.2.data ++ [Char.ofNat 10]

/-- The text of a record: the name line, the count line, the coordinate lines. -/
def text (r : StreetRecord) : List Char :=
  r.name.data ++ Char.ofNat 10 :: r.count ++ Char.ofNat 10 :: (r.lines.map lineText).flatten

/-- The segment a coordinate line of the record stands for. -/
def segmentOf (r : StreetRecord) (line : String × String × String × String) :
    StreetSegment :=
  ⟨⟨line.1, line.2.1⟩, ⟨line.2.2.1, line.2.2.2⟩, r.name⟩

/-- The segments the coordinate lines of the record stand for, in file order. -/
def segments (r : StreetRecord) : List StreetSegment := r.lines.map r.segmentOf

/-- The number the count line announces. -/
def announced (r : StreetRecord) : Nat := IStream.natOfDigits r.count

/-- A word of a coordinate line: not empty, without whitespace, and a text for which
`std::stod` returns. -/
@[reducible]
def WordOk (stodOk : String → Bool) (w : String) : Prop :=
  w.data ≠ [] ∧ (∀ c, c ∈ w.data → IStream.isSpace c = false) ∧ stodOk w = true

/-- What every record of a map file satisfies, short of the number of its lines: the
name is one line, the count line holds decimal digits only and a number that fits an
`int`, and every word of a coordinate line is a coordinate. -/
def Written (stodOk : String → Bool) (r : StreetRecord) : Prop :=
  Char.ofNat 10 ∉ r.name.data ∧
  r.count ≠ [] ∧ (∀ c, c ∈ r.count → c.isDigit = true) ∧
  (r.announced : Int) ≤ IStream.INT_MAX ∧
  ∀ line, line ∈ r.lines →
    WordOk stodOk line.1 ∧ WordOk stodOk line.2.1 ∧ WordOk stodOk line.2.2.1 ∧
      WordOk stodOk line.2.2.2

/-- A record with as many coordinate lines as its count announces. -/
def Complete (stodOk : String → Bool) (r : StreetRecord) : Prop :=
  r.Written stodOk ∧ r.lines.length = r.announced

end StreetRecord

/-- The text of a map file made of the given records. -/
def mapText (records : List StreetRecord) : List Char :=
  (records.map StreetRecord.text).flatten

/-- The segments of the given records, in file order. -/
def mapSegments (records : List StreetRecord) : List StreetSegment :=
  (records.map StreetRecord.segments).flatten

/-- A complete record: "Oak Ave" with its one segment from C to D. -/
def oakRecord : StreetRecord := ⟨"Oak Ave", ['1'], [("0", "2", "1", "2")]⟩

/-- A record that announces two coordinate lines and has one: "Main St" from A to B. -/
def shortRecord : StreetRecord := ⟨"Main St", ['2'], [("0", "0", "0", "1")]⟩

/-! ## Lemmas -/

open ExpandableHashMap StreetMapImpl PointToPointRouterImpl DeliveryOptimizerImpl
open DeliveryPlannerImpl

namespace ExpandableHashMap

variable {K V : Type} [DecidableEq K]

theorem find_empty (key : K) : (empty : ExpandableHashMap K V).find key = none := rfl

theorem find_associate (m : ExpandableHashMap K V) (key : K) (value : V) (k : K) :
    (m.associate key value).find k = if key = k then some value else m.find k := by
  induction m with
  | nil => simp [associate, find]
  | cons p rest ih =>
    obtain ⟨k0, v0⟩ := p
    by_cases h : k0 = key
    · subst h
      by_cases hk : k0 = k <;> simp [associate, find, hk]
    · by_cases hk : key = k
      · subst hk
        simp [associate, find, h, ih]
      · by_cases hk0 : k0 = k
        · subst hk0
          simp [associate, find, h, hk]
        · simp [associate, find, h, hk, hk0, ih]

theorem find_associate_self (m : ExpandableHashMap K V) (key : K) (value : V) :
    (m.associate key value).find key = some value := by
  simp [find_associate]

theorem find_associate_of_ne (m : ExpandableHashMap K V) {key k : K} (value : V)
    (h : key ≠ k) : (m.associate key value).find k = m.find k := by
  simp [find_associate, h]

theorem mem_of_find (m : ExpandableHashMap K V) {key : K} {value : V}
    (h : m.find key = some value) : (key, value) ∈ m.entries := by
  induction m with
  | nil => simp [find] at h
  | cons p rest ih =>
    obtain ⟨k0, v0⟩ := p
    by_cases hk : k0 = key
    · subst hk
      simp [find] at h
      subst h
      exact List.mem_cons_self _ _
    · simp [find, hk] at h
      exact List.mem_cons_of_mem _ (ih h)

end ExpandableHashMap

namespace StreetMapImpl

theorem reverseSegment_reverseSegment (s : StreetSegment) :
    reverseSegment (reverseSegment s) = s := rfl

theorem find_pushBack (m : StreetMap) (key : GeoCoord) (x : StreetSegment) (k : GeoCoord) :
    (pushBack m key x).find k =
      if key = k then (m.find k).map (fun v => v ++ [x]) else m.find k := by
  unfold pushBack
  by_cases hk : key = k
  · subst hk
    cases hf : m.find key with
    | none => simp [hf]
    | some v => simp [find_associate]
  · cases hf : m.find key with
    | none => simp [hk]
    | some v => simp [find_associate, hk]

/-- The neighbor list of `k` after one loop body, in terms of the list before. -/
theorem find_loadSegment (m : StreetMap) (seg : StreetSegment) (k : GeoCoord) :
    (loadSegment m seg).find k =
      if seg.end_ = k then
        (match m.find seg.end_ with
          | none => some [reverseSegment seg]
          | some v =>
              some ((if seg.start = seg.end_ then v ++ [seg] else v) ++ [reverseSegment seg]))
      else if seg.start = k then
        (match m.find seg.start with
          | none => some [seg]
          | some v => some (v ++ [seg]))
      else m.find k := by
  unfold loadSegment
  cases hs : m.find seg.start with
  | none =>
    cases he : m.find seg.end_ with
    | none =>
      by_cases h1 : seg.end_ = k
      · simp [find_associate, h1]
      · by_cases h2 : seg.start = k <;> simp [find_associate, h1, h2, hs]
    | some w =>
      have hne : seg.start ≠ seg.end_ := by
        intro h; rw [h] at hs; rw [hs] at he; cases he
      by_cases h1 : seg.end_ = k
      · subst h1
        simp [find_pushBack, find_associate, hne, he]
      · by_cases h2 : seg.start = k <;> simp [find_pushBack, find_associate, h1, h2, hs]
  | some v =>
    cases he : m.find seg.end_ with
    | none =>
      have hne : seg.start ≠ seg.end_ := by
        intro h; rw [h] at hs; rw [hs] at he; cases he
      by_cases h1 : seg.end_ = k
      · simp [find_associate, h1]
      · by_cases h2 : seg.start = k
        · subst h2
          simp [find_pushBack, find_associate, h1, hs]
        · simp [find_pushBack, find_associate, h1, h2]
    | some w =>
      by_cases h1 : seg.end_ = k
      · subst h1
        by_cases h3 : seg.start = seg.end_
        · simp [find_pushBack, h3, he]
        · simp [find_pushBack, h3, he]
      · by_cases h2 : seg.start = k
        · subst h2
          simp [find_pushBack, h1, hs]
        · simp [find_pushBack, h1, h2]

theorem loadSegment_mono (m : StreetMap) (seg : StreetSegment) {k : GeoCoord}
    {v : List StreetSegment} {s : StreetSegment} (hf : m.find k = some v) (hs : s ∈ v) :
    ∃ v', (loadSegment m seg).find k = some v' ∧ s ∈ v' := by
  rw [find_loadSegment]
  by_cases h1 : seg.end_ = k
  · subst h1
    simp only [if_true, hf]
    refine ⟨_, rfl, ?_⟩
    by_cases h3 : seg.start = seg.end_ <;> simp [h3, hs]
  · by_cases h2 : seg.start = k
    · subst h2
      simp only [h1, if_false, if_true, hf]
      exact ⟨_, rfl, by simp [hs]⟩
    · simp only [h1, h2, if_false]
      exact ⟨v, hf, hs⟩

theorem loadSegment_reverse (m : StreetMap) (seg : StreetSegment) :
    ∃ v', (loadSegment m seg).find seg.end_ = some v' ∧ reverseSegment seg ∈ v' := by
  rw [find_loadSegment]
  simp only [if_true]
  cases m.find seg.end_ with
  | none => exact ⟨_, rfl, by simp⟩
  | some v => exact ⟨_, rfl, by simp⟩

theorem loadSegment_forward (m : StreetMap) (seg : StreetSegment) :
    ∃ v', (loadSegment m seg).find seg.start = some v' ∧ seg ∈ v' := by
  by_cases h : seg.start = seg.end_
  · have hrev : reverseSegment seg = seg := by
      cases seg with
      | mk a b n =>
        simp only at h
        subst h
        rfl
    have := loadSegment_reverse m seg
    rw [hrev, ← h] at this
    exact this
  · rw [find_loadSegment]
    have h' : ¬ seg.end_ = seg.start := fun e => h e.symm
    simp only [h', if_false, if_true]
    cases m.find seg.start with
    | none => exact ⟨_, rfl, by simp⟩
    | some v => exact ⟨_, rfl, by simp⟩

theorem loadSegment_origin (m : StreetMap) (seg : StreetSegment) {k : GeoCoord}
    {v' : List StreetSegment} {s : StreetSegment}
    (hf : (loadSegment m seg).find k = some v') (hs : s ∈ v') :
    (∃ v, m.find k = some v ∧ s ∈ v) ∨ (s = seg ∧ k = seg.start) ∨
      (s = reverseSegment seg ∧ k = seg.end_) := by
  rw [find_loadSegment] at hf
  by_cases h1 : seg.end_ = k
  · subst h1
    simp only [if_true] at hf
    cases hm : m.find seg.end_ with
    | none =>
      rw [hm] at hf
      simp only [Option.some.injEq] at hf
      subst hf
      simp only [List.mem_singleton] at hs
      exact Or.inr (Or.inr ⟨hs, rfl⟩)
    | some v =>
      rw [hm] at hf
      simp only [Option.some.injEq] at hf
      subst hf
      by_cases h3 : seg.start = seg.end_
      · simp only [h3, if_true, List.mem_append, List.mem_singleton] at hs
        rcases hs with (hs | hs) | hs
        · exact Or.inl ⟨v, rfl, hs⟩
        · exact Or.inr (Or.inl ⟨hs, h3.symm⟩)
        · exact Or.inr (Or.inr ⟨hs, rfl⟩)
      · simp only [h3, if_false, List.mem_append, List.mem_singleton] at hs
        rcases hs with hs | hs
        · exact Or.inl ⟨v, rfl, hs⟩
        · exact Or.inr (Or.inr ⟨hs, rfl⟩)
  · by_cases h2 : seg.start = k
    · subst h2
      simp only [h1, if_false, if_true] at hf
      cases hm : m.find seg.start with
      | none =>
        rw [hm] at hf
        simp only [Option.some.injEq] at hf
        subst hf
        simp only [List.mem_singleton] at hs
        exact Or.inr (Or.inl ⟨hs, rfl⟩)
      | some v =>
        rw [hm] at hf
        simp only [Option.some.injEq] at hf
        subst hf
        simp only [List.mem_append, List.mem_singleton] at hs
        rcases hs with hs | hs
        · exact Or.inl ⟨v, rfl, hs⟩
        · exact Or.inr (Or.inl ⟨hs, rfl⟩)
    · simp only [h1, h2, if_false] at hf
      exact Or.inl ⟨v', hf, hs⟩

theorem wellFormed_empty : WellFormed (ExpandableHashMap.empty : StreetMap) :=
  ⟨fun k v s h => by simp [find_empty] at h,
   fun s ⟨v, h, _⟩ => by simp [find_empty] at h⟩

theorem wellFormed_loadSegment {m : StreetMap} (hm : WellFormed m) (seg : StreetSegment) :
    WellFormed (loadSegment m seg) := by
  constructor
  · intro k v s hf hs
    rcases loadSegment_origin m seg hf hs with ⟨v0, h0, hs0⟩ | ⟨rfl, rfl⟩ | ⟨rfl, rfl⟩
    · exact hm.start_eq k v0 s h0 hs0
    · rfl
    · rfl
  · rintro s ⟨v, hf, hs⟩
    rcases loadSegment_origin m seg hf hs with ⟨v0, h0, hs0⟩ | ⟨rfl, _⟩ | ⟨rfl, _⟩
    · obtain ⟨w, hw, hrw⟩ := hm.reverse_mem s ⟨v0, h0, hs0⟩
      exact loadSegment_mono m seg hw hrw
    · exact loadSegment_reverse m s
    · exact loadSegment_forward m seg

theorem wellFormed_foldl (lines : List StreetSegment) :
    ∀ m : StreetMap, WellFormed m → WellFormed (lines.foldl loadSegment m) := by
  induction lines with
  | nil => intro m hm; exact hm
  | cons seg rest ih => intro m hm; exact ih _ (wellFormed_loadSegment hm seg)

theorem wellFormed_load (lines : List StreetSegment) : WellFormed (load lines) :=
  wellFormed_foldl lines _ wellFormed_empty

end StreetMapImpl

/-! ### Routes -/

theorem isRoute_append {sm : StreetMap} {a b c : GeoCoord} {r1 r2 : List StreetSegment}
    (h1 : IsRoute sm a b r1) (h2 : IsRoute sm b c r2) : IsRoute sm a c (r1 ++ r2) := by
  induction r1 generalizing a with
  | nil =>
    simp only [IsRoute] at h1
    subst h1
    simpa using h2
  | cons s r ih =>
    obtain ⟨hs, hmem, hr⟩ := h1
    exact ⟨hs, hmem, ih hr⟩

theorem isRoute_snoc {sm : StreetMap} {a b : GeoCoord} {r : List StreetSegment}
    {s : StreetSegment} (h : IsRoute sm a b r) (hs : s.start = b) (hmem : HasSegment sm s) :
    IsRoute sm a s.end_ (r ++ [s]) :=
  isRoute_append h ⟨hs, hmem, rfl⟩

theorem routeLength_nil (dist : GeoCoord → GeoCoord → ℚ) : routeLength dist [] = 0 := rfl

theorem routeLength_cons (dist : GeoCoord → GeoCoord → ℚ) (s : StreetSegment)
    (r : List StreetSegment) :
    routeLength dist (s :: r) = dist s.start s.end_ + routeLength dist r := by
  simp [routeLength]

theorem routeLength_append (dist : GeoCoord → GeoCoord → ℚ) (r1 r2 : List StreetSegment) :
    routeLength dist (r1 ++ r2) = routeLength dist r1 + routeLength dist r2 := by
  simp [routeLength]

theorem routeLength_nonneg {dist : GeoCoord → GeoCoord → ℚ} (hd : IsDistance dist)
    (r : List StreetSegment) : 0 ≤ routeLength dist r := by
  induction r with
  | nil => simp [routeLength]
  | cons s r ih =>
    rw [routeLength_cons]
    have := hd.nonneg s.start s.end_
    linarith

/-- The heuristic is consistent along every route. -/
theorem heuristic_le_route {dist : GeoCoord → GeoCoord → ℚ} (hd : IsDistance dist)
    {sm : StreetMap} {a b : GeoCoord} (goal : GeoCoord) {r : List StreetSegment}
    (h : IsRoute sm a b r) : dist a goal ≤ routeLength dist r + dist b goal := by
  induction r generalizing a with
  | nil =>
    simp only [IsRoute] at h
    subst h
    simp [routeLength]
  | cons s r ih =>
    obtain ⟨hs, _, hr⟩ := h
    subst hs
    rw [routeLength_cons]
    have h1 := ih hr
    have h2 := hd.triangle s.start s.end_ goal
    linarith

/-! ### The work measure -/

theorem work_nil (sm : StreetMap) : work sm [] = storedSegments sm := by
  simp [work, storedSegments]

theorem work_aux_le (L : List (GeoCoord × List StreetSegment)) (E : List GeoCoord)
    (u : GeoCoord) :
    ((L.filter (fun e => decide (e.1 ∉ u :: E))).map (fun e => e.2.length)).sum ≤
      ((L.filter (fun e => decide (e.1 ∉ E))).map (fun e => e.2.length)).sum := by
  induction L with
  | nil => simp
  | cons e L ih =>
    by_cases h1 : e.1 ∈ E
    · have h2 : e.1 ∈ u :: E := List.mem_cons_of_mem _ h1
      simp [List.filter_cons, h1]
      simpa using ih
    · by_cases h3 : e.1 = u
      · simp [List.filter_cons, h1, h3]
        have := ih
        simp at this
        rw [h3] at h1
        simp [h1]
        omega
      · simp [List.filter_cons, h1, h3]
        simpa using ih

theorem work_aux (L : List (GeoCoord × List StreetSegment)) (E : List GeoCoord)
    (u : GeoCoord) (segs : List StreetSegment) (hmem : (u, segs) ∈ L) (hu : u ∉ E) :
    ((L.filter (fun e => decide (e.1 ∉ u :: E))).map (fun e => e.2.length)).sum + segs.length ≤
      ((L.filter (fun e => decide (e.1 ∉ E))).map (fun e => e.2.length)).sum := by
  induction L with
  | nil => simp at hmem
  | cons e L ih =>
    rcases List.mem_cons.1 hmem with h | h
    · subst h
      have := work_aux_le L E u
      simp at this
      simp [List.filter_cons, hu]
      omega
    · have := ih h
      simp at this
      by_cases h1 : e.1 ∈ E
      · simp [List.filter_cons, h1]
        exact this
      · by_cases h3 : e.1 = u
        · rw [h3] at h1
          simp [List.filter_cons, h1, h3]
          omega
        · simp [List.filter_cons, h1, h3]
          omega

theorem work_cons {sm : StreetMap} {E : List GeoCoord} {u : GeoCoord}
    {segs : List StreetSegment} (hf : sm.find u = some segs) (hu : u ∉ E) :
    work sm (u :: E) + segs.length ≤ work sm E :=
  work_aux sm.entries E u segs (mem_of_find sm hf) hu

/-! ### Extraction from the queue -/

theorem popMin_spec : PopSpec popMin := by
  have key : ∀ q : List (GeoCoord × ℚ), (q = [] → popMin q = none) ∧
      (q ≠ [] → ∃ top rest, popMin q = some (top, rest) ∧ List.Perm q (top :: rest) ∧
        ∀ x ∈ q, top.2 ≤ x.2) := by
    intro q
    induction q with
    | nil => exact ⟨fun _ => rfl, fun h => absurd rfl h⟩
    | cons x xs ih =>
      refine ⟨fun h => (by cases h), fun _ => ?_⟩
      by_cases hxs : xs = []
      · subst hxs
        exact ⟨x, [], by simp [popMin], List.Perm.refl _, by simp⟩
      · obtain ⟨m, rest, hm, hperm, hleast⟩ := ih.2 hxs
        by_cases hle : x.2 ≤ m.2
        · refine ⟨x, xs, by simp [popMin, hm, hle], List.Perm.refl _, ?_⟩
          intro y hy
          rcases List.mem_cons.1 hy with rfl | hy
          · exact le_refl _
          · exact le_trans hle (hleast y hy)
        · refine ⟨m, x :: rest, by simp [popMin, hm, hle], ?_, ?_⟩
          · exact (List.Perm.cons x hperm).trans (List.Perm.swap m x rest)
          · intro y hy
            rcases List.mem_cons.1 hy with rfl | hy
            · exact le_of_lt (lt_of_not_le hle)
            · exact hleast y hy
  constructor
  · intro q
    constructor
    · intro h
      by_contra hq
      obtain ⟨top, rest, h', _⟩ := (key q).2 hq
      rw [h] at h'
      cases h'
    · intro h
      exact (key q).1 h
  · intro q top rest h
    have hq : q ≠ [] := by
      intro hq
      rw [(key q).1 hq] at h
      cases h
    obtain ⟨top', rest', h', hp, _⟩ := (key q).2 hq
    rw [h] at h'
    cases h'
    exact hp
  · intro q top rest h
    have hq : q ≠ [] := by
      intro hq
      rw [(key q).1 hq] at h
      cases h
    obtain ⟨top', rest', h', _, hl⟩ := (key q).2 hq
    rw [h] at h'
    cases h'
    exact hl

/-! ### The reconstruction loop -/

theorem TraceRoute.frame {sm : StreetMap} {start : GeoCoord}
    {p p' : ExpandableHashMap GeoCoord GeoCoord} {E E' : List GeoCoord} {v : GeoCoord}
    {r : List StreetSegment} (h : TraceRoute sm p start E v r) (hE : ∀ x, x ∈ E → x ∈ E')
    (hagree : ∀ x, x ∈ E → p'.find x = p.find x) (hv : p'.find v = p.find v) :
    TraceRoute sm p' start E' v r := by
  induction h with
  | base => exact TraceRoute.base
  | step hne hp hu hsm hfind _ ih =>
    exact TraceRoute.step hne (hv.trans hp) (hE _ hu) hsm hfind (ih (hagree _ hu))

theorem traceBack_of_trace {sm : StreetMap} {p : ExpandableHashMap GeoCoord GeoCoord}
    {start : GeoCoord} {E : List GeoCoord} {v : GeoCoord} {r : List StreetSegment}
    (h : TraceRoute sm p start E v r) :
    ∀ (fuel : Nat) (segs acc : List StreetSegment), r.length < fuel →
      traceBack sm p start fuel v segs acc = some (acc ++ r.reverse) := by
  induction h with
  | base =>
    intro fuel segs acc hlt
    cases fuel with
    | zero => exact absurd hlt (Nat.not_lt_zero _)
    | succ f => simp [traceBack]
  | @step v u segsv it r hne hp hu hsm hfind _ ih =>
    intro fuel segs acc hlt
    cases fuel with
    | zero => exact absurd hlt (Nat.not_lt_zero _)
    | succ f =>
      have hend : it.end_ = u := by
        have := List.find?_some hfind
        simpa using this
      have hlen : r.length < f := by
        simp only [List.length_append, List.length_singleton] at hlt
        omega
      have := ih f segsv (acc ++ [reverseSegment it]) hlen
      simp [traceBack, hne, StreetMapImpl.getSegmentsThatStartWith, hsm, hp, hfind, hend, this]

theorem traceBack_mono (sm : StreetMap) (p : ExpandableHashMap GeoCoord GeoCoord)
    (start : GeoCoord) :
    ∀ (fuel fuel' : Nat) (v : GeoCoord) (segs acc x : List StreetSegment), fuel ≤ fuel' →
      traceBack sm p start fuel v segs acc = some x →
      traceBack sm p start fuel' v segs acc = some x := by
  intro fuel
  induction fuel with
  | zero => intro fuel' v segs acc x _ h; simp [traceBack] at h
  | succ f ih =>
    intro fuel' v segs acc x hle h
    cases fuel' with
    | zero => exact absurd hle (Nat.not_succ_le_zero _)
    | succ f' =>
      have hle' : f ≤ f' := Nat.le_of_succ_le_succ hle
      unfold traceBack at h ⊢
      by_cases hv : v = start
      · simpa [hv] using h
      · simp only [hv, if_false] at h ⊢
        cases hp : p.find v with
        | none => simp [hp] at h
        | some trace =>
          simp only [hp] at h ⊢
          cases hfind : List.find? (fun it => decide (it.end_ = trace))
              (StreetMapImpl.getSegmentsThatStartWith sm v segs).2 with
          | none =>
            simp only [hfind] at h ⊢
            exact ih _ _ _ _ _ hle' h
          | some it =>
            simp only [hfind] at h ⊢
            exact ih _ _ _ _ _ hle' h

/-! ### Optimality of an extracted coordinate -/

theorem frontier {dist : GeoCoord → GeoCoord → ℚ} {sm : StreetMap} {start end_ : GeoCoord}
    {E : List GeoCoord} {B : Nat} {st : SearchState} (hd : IsDistance dist)
    (inv : SearchInv dist sm start end_ E [] B st) :
    ∀ (r : List StreetSegment) (a x : GeoCoord) (c ga : ℚ), IsRoute sm a x r →
      st.gCost.find a = some ga → ga ≤ c →
      (x ∈ E ∧ ∃ gx, st.gCost.find x = some gx ∧ gx ≤ c + routeLength dist r) ∨
      (∃ y f, (y, f) ∈ st.nodes ∧ f ≤ c + routeLength dist r + dist x end_) := by
  intro r
  induction r with
  | nil =>
    intro a x c ga hr hga hc
    simp only [IsRoute] at hr
    subst hr
    by_cases ha : a ∈ E
    · exact Or.inl ⟨ha, ga, hga, by simp [routeLength_nil, hc]⟩
    · obtain ⟨f, hf, hle⟩ := inv.open_entry a ga hga ha
      refine Or.inr ⟨a, f, hf, ?_⟩
      rw [routeLength_nil]
      linarith
  | cons s r ih =>
    intro a x c ga hr hga hc
    have hroute := hr
    obtain ⟨hs, hmem, hr'⟩ := hr
    by_cases ha : a ∈ E
    · subst hs
      obtain ⟨gv, hgv, hle⟩ := inv.closed_edges s hmem ha (List.not_mem_nil _) ga hga
      have := ih s.end_ x (c + dist s.start s.end_) gv hr' hgv (by linarith)
      rw [routeLength_cons]
      rcases this with ⟨hx, gx, hgx, hle'⟩ | ⟨y, f, hf, hle'⟩
      · exact Or.inl ⟨hx, gx, hgx, by linarith⟩
      · exact Or.inr ⟨y, f, hf, by linarith⟩
    · obtain ⟨f, hf, hle⟩ := inv.open_entry a ga hga ha
      refine Or.inr ⟨a, f, hf, ?_⟩
      have := heuristic_le_route hd end_ hroute
      linarith

theorem popped_optimal {pop : Pop} {dist : GeoCoord → GeoCoord → ℚ} {sm : StreetMap}
    {start end_ : GeoCoord} {E : List GeoCoord} {B : Nat} {st : SearchState}
    (hpop : PopSpec pop) (hd : IsDistance dist)
    (inv : SearchInv dist sm start end_ E [] B st) {top : GeoCoord × ℚ}
    {rest : List (GeoCoord × ℚ)} (h : pop st.nodes = some (top, rest)) :
    ∃ gu, st.gCost.find top.1 = some gu ∧
      ∀ r, IsRoute sm start top.1 r → gu ≤ routeLength dist r := by
  have hmem : top ∈ st.nodes := (hpop.perm _ _ _ h).mem_iff.2 (List.mem_cons_self _ _)
  obtain ⟨gu, hgu, hor⟩ := inv.entry_seen top.1 top.2 hmem
  refine ⟨gu, hgu, fun r hr => ?_⟩
  rcases hor with hle | hst
  · rcases frontier hd inv r start top.1 0 0 hr inv.g_start (le_refl _) with
      ⟨_, gx, hgx, hle'⟩ | ⟨y, f, hf, hle'⟩
    · rw [hgu] at hgx
      cases hgx
      linarith
    · have := hpop.least _ _ _ h (y, f) hf
      simp only at this
      linarith
  · rw [hst, inv.g_start] at hgu
    cases hgu
    exact routeLength_nonneg hd r

/-! ### One relaxation -/

theorem routeLength_singleton (dist : GeoCoord → GeoCoord → ℚ) (s : StreetSegment) :
    routeLength dist [s] = dist s.start s.end_ := by
  simp [routeLength]

/-- The state after the assignments of lines 130-133. -/
theorem relax_update {dist : GeoCoord → GeoCoord → ℚ} {sm : StreetMap} {start end_ : GeoCoord}
    {E : List GeoCoord} {it : StreetSegment} {rest : List StreetSegment} {B : Nat}
    {st : SearchState} (hd : IsDistance dist) (hwf : WellFormed sm)
    (inv : SearchInv dist sm start end_ E (it :: rest) B st) (hu : it.start ∈ E)
    (hit : HasSegment sm it) {gu : ℚ} (hgu : st.gCost.find it.start = some gu)
    (hcond : ∀ old, st.gCost.find it.end_ = some old → gu + dist it.start it.end_ < old) :
    SearchInv dist sm start end_ E rest B
      { segs := st.segs
        prevs := st.prevs.associate it.end_ it.start
        gCost := st.gCost.associate it.end_ (gu + dist it.start it.end_)
        nodes := st.nodes ++
          [(it.end_, gu + dist it.start it.end_ + heuristic dist it.end_ end_)] } := by
  obtain ⟨ru, htr_u, hroute_u, hlen_u, -, hlt_u⟩ := inv.trace it.start gu hgu
  have hlt_u' := hlt_u hu
  have hvE : it.end_ ∉ E := by
    intro hv
    obtain ⟨gv, hgv, hoptv⟩ := inv.closed_opt it.end_ hv
    have h1 := hoptv (ru ++ [it]) (isRoute_snoc hroute_u rfl hit)
    rw [routeLength_append, hlen_u, routeLength_singleton] at h1
    have h2 := hcond gv hgv
    linarith
  have hvs : it.end_ ≠ start := by
    intro hv
    have h1 := hcond 0 (by rw [hv]; exact inv.g_start)
    have h2 := routeLength_nonneg hd ru
    have h3 := hd.nonneg it.start it.end_
    rw [hlen_u] at h2
    linarith
  have hvu : it.end_ ≠ it.start := fun h => hvE (h ▸ hu)
  obtain ⟨segsv, hsv, hrev⟩ := hwf.reverse_mem it hit
  have hsv' : sm.find it.end_ = some segsv := hsv
  obtain ⟨it', hfind⟩ : ∃ it', segsv.find? (fun x => decide (x.end_ = it.start)) = some it' := by
    cases hf : segsv.find? (fun x => decide (x.end_ = it.start)) with
    | some it' => exact ⟨it', rfl⟩
    | none =>
      have := List.find?_eq_none.1 hf (reverseSegment it) hrev
      simp [reverseSegment] at this
  have hmem' : it' ∈ segsv := List.mem_of_find?_eq_some hfind
  have hend' : it'.end_ = it.start := by simpa using List.find?_some hfind
  have hstart' : it'.start = it.end_ := hwf.start_eq _ _ _ hsv' hmem'
  have hhas' : HasSegment sm it' := ⟨segsv, by rw [hstart']; exact hsv', hmem'⟩
  have hhasrev : HasSegment sm (reverseSegment it') := hwf.reverse_mem _ hhas'
  have hnewroute : IsRoute sm start it.end_ (ru ++ [reverseSegment it']) := by
    have := isRoute_snoc hroute_u (s := reverseSegment it') hend' hhasrev
    simpa [reverseSegment, hstart'] using this
  have hnewlen : routeLength dist (ru ++ [reverseSegment it']) =
      gu + dist it.start it.end_ := by
    rw [routeLength_append, hlen_u, routeLength_singleton]
    simp [reverseSegment, hend', hstart']
  have hpE : ∀ x, x ∈ E → (st.prevs.associate it.end_ it.start).find x = st.prevs.find x := by
    intro x hx
    exact find_associate_of_ne _ _ (fun h => hvE (h ▸ hx))
  refine
    { g_start := ?_, seen_key := ?_, trace := ?_, closed_opt := ?_, closed_edges := ?_,
      open_entry := ?_, entry_seen := ?_, end_open := inv.end_open, budget := ?_,
      expanded := inv.expanded }
  · show (st.gCost.associate _ _).find start = some 0
    rw [find_associate_of_ne _ _ hvs]
    exact inv.g_start
  · intro w gw hgw
    change (st.gCost.associate _ _).find w = some gw at hgw
    by_cases hw : it.end_ = w
    · exact ⟨segsv, hw ▸ hsv'⟩
    · rw [find_associate_of_ne _ _ hw] at hgw
      exact inv.seen_key w gw hgw
  · intro w gw hgw
    change (st.gCost.associate _ _).find w = some gw at hgw
    by_cases hw : it.end_ = w
    · subst hw
      rw [find_associate_self] at hgw
      cases hgw
      refine ⟨ru ++ [reverseSegment it'], ?_, hnewroute, hnewlen, ?_, fun h => absurd h hvE⟩
      · exact TraceRoute.step hvs (find_associate_self _ _ _) hu hsv' hfind
          (htr_u.frame (fun x hx => hx) hpE (find_associate_of_ne _ _ hvu))
      · simp only [List.length_append, List.length_singleton]
        omega
    · rw [find_associate_of_ne _ _ hw] at hgw
      obtain ⟨r, htr, hroute, hlen, hle, hlt⟩ := inv.trace w gw hgw
      exact ⟨r, htr.frame (fun x hx => hx) hpE (find_associate_of_ne _ _ hw), hroute, hlen,
        hle, hlt⟩
  · intro x hx
    obtain ⟨gx, hgx, hopt⟩ := inv.closed_opt x hx
    refine ⟨gx, ?_, hopt⟩
    show (st.gCost.associate _ _).find x = some gx
    rw [find_associate_of_ne _ _ (fun h : it.end_ = x => hvE (h ▸ hx))]
    exact hgx
  · intro s hs hsE hsrest gs hgs
    change (st.gCost.associate _ _).find s.start = some gs at hgs
    rw [find_associate_of_ne _ _ (fun h : it.end_ = s.start => hvE (h ▸ hsE))] at hgs
    show ∃ gv, (st.gCost.associate _ _).find s.end_ = some gv ∧ _
    by_cases hse : it.end_ = s.end_
    · rw [← hse, find_associate_self]
      refine ⟨_, rfl, ?_⟩
      by_cases hsit : s = it
      · subst hsit
        rw [hgu] at hgs
        cases hgs
        exact le_refl _
      · have hnot : s ∉ it :: rest := by
          intro h
          rcases List.mem_cons.1 h with h | h
          · exact hsit h
          · exact hsrest h
        obtain ⟨gv, hgv, hle⟩ := inv.closed_edges s hs hsE hnot gs hgs
        rw [← hse] at hgv hle
        have := hcond gv hgv
        linarith
    · rw [find_associate_of_ne _ _ hse]
      have hsit : s ≠ it := fun h => hse (h ▸ rfl)
      have hnot : s ∉ it :: rest := by
        intro h
        rcases List.mem_cons.1 h with h | h
        · exact hsit h
        · exact hsrest h
      exact inv.closed_edges s hs hsE hnot gs hgs
  · intro w gw hgw hwE
    change (st.gCost.associate _ _).find w = some gw at hgw
    show ∃ f, (w, f) ∈ st.nodes ++ _ ∧ _
    by_cases hw : it.end_ = w
    · subst hw
      rw [find_associate_self] at hgw
      cases hgw
      exact ⟨_, List.mem_append_right _ (List.mem_singleton_self _), le_refl _⟩
    · rw [find_associate_of_ne _ _ hw] at hgw
      obtain ⟨f, hf, hle⟩ := inv.open_entry w gw hgw hwE
      exact ⟨f, List.mem_append_left _ hf, hle⟩
  · intro w f hwf'
    change (w, f) ∈ st.nodes ++ _ at hwf'
    show ∃ gv, (st.gCost.associate _ _).find w = some gv ∧ _
    rcases List.mem_append.1 hwf' with h | h
    · obtain ⟨gw, hgw, hor⟩ := inv.entry_seen w f h
      by_cases hw : it.end_ = w
      · subst hw
        rw [find_associate_self]
        refine ⟨_, rfl, ?_⟩
        rcases hor with hle | hst
        · have := hcond gw hgw
          exact Or.inl (by linarith)
        · exact Or.inr hst
      · rw [find_associate_of_ne _ _ hw]
        exact ⟨gw, hgw, hor⟩
    · simp only [List.mem_singleton, Prod.mk.injEq] at h
      obtain ⟨rfl, rfl⟩ := h
      rw [find_associate_self]
      exact ⟨_, rfl, Or.inl (le_refl _)⟩
  · have := inv.budget
    simp only [List.length_append, List.length_singleton, List.length_cons,
      List.length_nil] at this ⊢
    omega

/-- The state is kept when the condition of line 129 fails. -/
theorem relax_keep {dist : GeoCoord → GeoCoord → ℚ} {sm : StreetMap} {start end_ : GeoCoord}
    {E : List GeoCoord} {it : StreetSegment} {rest : List StreetSegment} {B : Nat}
    {st : SearchState} (inv : SearchInv dist sm start end_ E (it :: rest) B st)
    {gu old : ℚ} (hgu : st.gCost.find it.start = some gu)
    (hold : st.gCost.find it.end_ = some old) (hcond : ¬ gu + dist it.start it.end_ < old) :
    SearchInv dist sm start end_ E rest B st := by
  refine
    { g_start := inv.g_start, seen_key := inv.seen_key, trace := inv.trace,
      closed_opt := inv.closed_opt, closed_edges := ?_, open_entry := inv.open_entry,
      entry_seen := inv.entry_seen, end_open := inv.end_open, budget := ?_,
      expanded := inv.expanded }
  · intro s hs hsE hsrest gs hgs
    by_cases hsit : s = it
    · subst hsit
      rw [hgu] at hgs
      cases hgs
      exact ⟨old, hold, le_of_not_lt hcond⟩
    · have hnot : s ∉ it :: rest := by
        intro h
        rcases List.mem_cons.1 h with h | h
        · exact hsit h
        · exact hsrest h
      exact inv.closed_edges s hs hsE hnot gs hgs
  · have := inv.budget
    simp only [List.length_cons] at this
    omega

theorem relaxSegment_inv {dist : GeoCoord → GeoCoord → ℚ} {sm : StreetMap}
    {start end_ : GeoCoord} {E : List GeoCoord} {it : StreetSegment}
    {rest : List StreetSegment} {B : Nat} {st : SearchState} (hd : IsDistance dist)
    (hwf : WellFormed sm) (inv : SearchInv dist sm start end_ E (it :: rest) B st)
    (hu : it.start ∈ E) (hit : HasSegment sm it) :
    ∃ st', relaxSegment dist end_ it.start st it = some st' ∧
      SearchInv dist sm start end_ E rest B st' := by
  obtain ⟨gu, hgu, -⟩ := inv.closed_opt it.start hu
  unfold relaxSegment
  simp only [hgu]
  cases hold : st.gCost.find it.end_ with
  | none =>
    exact ⟨_, rfl, relax_update hd hwf inv hu hit hgu (fun old h => by rw [hold] at h; cases h)⟩
  | some old =>
    by_cases hlt : gu + dist it.start it.end_ < old
    · simp only [hlt, if_true]
      refine ⟨_, rfl, relax_update hd hwf inv hu hit hgu (fun old' h => ?_)⟩
      rw [hold] at h
      cases h
      exact hlt
    · simp only [hlt, if_false]
      exact ⟨_, rfl, relax_keep inv hgu hold hlt⟩

theorem relaxAll_inv {dist : GeoCoord → GeoCoord → ℚ} {sm : StreetMap}
    {start end_ : GeoCoord} {E : List GeoCoord} {B : Nat} (hd : IsDistance dist)
    (hwf : WellFormed sm) (u : GeoCoord) (hu : u ∈ E) :
    ∀ (pending : List StreetSegment) (st : SearchState),
      (∀ s, s ∈ pending → HasSegment sm s ∧ s.start = u) →
      SearchInv dist sm start end_ E pending B st →
      ∃ st', relaxAll dist end_ u pending st = some st' ∧
        SearchInv dist sm start end_ E [] B st' := by
  intro pending
  induction pending with
  | nil => intro st _ inv; exact ⟨st, rfl, inv⟩
  | cons it rest ih =>
    intro st hall inv
    obtain ⟨hit, hstart⟩ := hall it (List.mem_cons_self _ _)
    subst hstart
    obtain ⟨st1, h1, inv1⟩ := relaxSegment_inv hd hwf inv hu hit
    obtain ⟨st2, h2, inv2⟩ := ih st1 (fun s hs => hall s (List.mem_cons_of_mem _ hs)) inv1
    exact ⟨st2, by simp [relaxAll, h1, h2], inv2⟩

/-! ### One extraction -/

theorem pop_budget {pop : Pop} {dist : GeoCoord → GeoCoord → ℚ} {sm : StreetMap}
    {start end_ : GeoCoord} {E : List GeoCoord} {B : Nat} {st : SearchState}
    (hpop : PopSpec pop) (inv : SearchInv dist sm start end_ E [] B st)
    {top : GeoCoord × ℚ} {rest : List (GeoCoord × ℚ)} (h : pop st.nodes = some (top, rest)) :
    st.nodes.length = rest.length + 1 ∧ 1 ≤ B := by
  have hlen := (hpop.perm _ _ _ h).length_eq
  simp only [List.length_cons] at hlen
  have := inv.budget
  exact ⟨hlen, by omega⟩

theorem pop_new {pop : Pop} {dist : GeoCoord → GeoCoord → ℚ} {sm : StreetMap}
    {start end_ : GeoCoord} {E : List GeoCoord} {B : Nat} {st : SearchState}
    (hpop : PopSpec pop) (hd : IsDistance dist)
    (inv : SearchInv dist sm start end_ E [] B st) {top : GeoCoord × ℚ}
    {rest : List (GeoCoord × ℚ)} (h : pop st.nodes = some (top, rest)) (hE : top.1 ∉ E)
    (hend : top.1 ≠ end_) {segs : List StreetSegment} (hsegs : sm.find top.1 = some segs) :
    SearchInv dist sm start end_ (top.1 :: E) segs (B - 1)
      { segs := segs, prevs := st.prevs, gCost := st.gCost, nodes := rest } := by
  obtain ⟨hlen, hB⟩ := pop_budget hpop inv h
  have hperm := hpop.perm _ _ _ h
  refine
    { g_start := inv.g_start, seen_key := inv.seen_key, trace := ?_, closed_opt := ?_,
      closed_edges := ?_, open_entry := ?_, entry_seen := ?_, end_open := ?_, budget := ?_,
      expanded := ?_ }
  · intro v gv hgv
    obtain ⟨r, htr, hroute, hl, hle, hlt⟩ := inv.trace v gv hgv
    refine ⟨r, htr.frame (fun x hx => List.mem_cons_of_mem _ hx) (fun _ _ => rfl) rfl, hroute,
      hl, ?_, ?_⟩
    · simp only [List.length_cons]
      omega
    · intro _
      simp only [List.length_cons]
      omega
  · intro u hu
    rcases List.mem_cons.1 hu with rfl | hu
    · exact popped_optimal hpop hd inv h
    · exact inv.closed_opt u hu
  · intro s hs hsE hspend gs hgs
    rcases List.mem_cons.1 hsE with hsu | hsE
    · exfalso
      obtain ⟨v, hv, hmem⟩ := hs
      rw [hsu, hsegs] at hv
      cases hv
      exact hspend hmem
    · exact inv.closed_edges s hs hsE (List.not_mem_nil _) gs hgs
  · intro v gv hgv hv
    have hvt : v ≠ top.1 := fun e => hv (e ▸ List.mem_cons_self _ _)
    have hvE : v ∉ E := fun e => hv (List.mem_cons_of_mem _ e)
    obtain ⟨f, hf, hle⟩ := inv.open_entry v gv hgv hvE
    refine ⟨f, ?_, hle⟩
    rcases List.mem_cons.1 (hperm.mem_iff.1 hf) with e | e
    · exact absurd (congrArg Prod.fst e) hvt
    · exact e
  · intro v f hf
    exact inv.entry_seen v f (hperm.mem_iff.2 (List.mem_cons_of_mem _ hf))
  · intro e
    rcases List.mem_cons.1 e with e | e
    · exact hend e.symm
    · exact inv.end_open e
  · have h1 := inv.budget
    have h2 := work_cons hsegs hE
    simp only [List.length_nil] at h1
    show work sm (top.1 :: E) + rest.length + segs.length ≤ B - 1
    omega
  · have := inv.expanded
    simp only [List.length_cons]
    omega

theorem pop_stale {pop : Pop} {dist : GeoCoord → GeoCoord → ℚ} {sm : StreetMap}
    {start end_ : GeoCoord} {E : List GeoCoord} {B : Nat} {st : SearchState}
    (hpop : PopSpec pop) (inv : SearchInv dist sm start end_ E [] B st) {top : GeoCoord × ℚ}
    {rest : List (GeoCoord × ℚ)} (h : pop st.nodes = some (top, rest)) (hE : top.1 ∈ E)
    (segs : List StreetSegment) :
    SearchInv dist sm start end_ E [] (B - 1)
      { segs := segs, prevs := st.prevs, gCost := st.gCost, nodes := rest } := by
  obtain ⟨hlen, hB⟩ := pop_budget hpop inv h
  have hperm := hpop.perm _ _ _ h
  refine
    { g_start := inv.g_start, seen_key := inv.seen_key, trace := inv.trace,
      closed_opt := inv.closed_opt, closed_edges := inv.closed_edges, open_entry := ?_,
      entry_seen := ?_, end_open := inv.end_open, budget := ?_, expanded := ?_ }
  · intro v gv hgv hv
    have hvt : v ≠ top.1 := fun e => hv (e ▸ hE)
    obtain ⟨f, hf, hle⟩ := inv.open_entry v gv hgv hv
    refine ⟨f, ?_, hle⟩
    rcases List.mem_cons.1 (hperm.mem_iff.1 hf) with e | e
    · exact absurd (congrArg Prod.fst e) hvt
    · exact e
  · intro v f hf
    exact inv.entry_seen v f (hperm.mem_iff.2 (List.mem_cons_of_mem _ hf))
  · have h1 := inv.budget
    simp only [List.length_nil] at h1 ⊢
    show work sm E + rest.length + 0 ≤ B - 1
    omega
  · have := inv.expanded
    omega

theorem relaxAll_noop (dist : GeoCoord → GeoCoord → ℚ) (end_ u : GeoCoord) (gu : ℚ) :
    ∀ (segs : List StreetSegment) (st : SearchState), st.gCost.find u = some gu →
      (∀ it, it ∈ segs → ∃ gv, st.gCost.find it.end_ = some gv ∧ gv ≤ gu + dist u it.end_) →
      relaxAll dist end_ u segs st = some st := by
  intro segs
  induction segs with
  | nil => intro st _ _; rfl
  | cons it rest ih =>
    intro st hgu hall
    obtain ⟨gv, hgv, hle⟩ := hall it (List.mem_cons_self _ _)
    have hstep : relaxSegment dist end_ u st it = some st := by
      unfold relaxSegment
      simp only [hgu, hgv]
      rw [if_neg (not_lt_of_le hle)]
    simp only [relaxAll, hstep]
    exact ih st hgu (fun it' h' => hall it' (List.mem_cons_of_mem _ h'))

/-! ### The search loop -/

theorem searchInv_init {dist : GeoCoord → GeoCoord → ℚ} (hd : IsDistance dist)
    {sm : StreetMap} {start : GeoCoord} (end_ : GeoCoord) {segs0 : List StreetSegment}
    (hstart : sm.find start = some segs0) (segs : List StreetSegment) :
    SearchInv dist sm start end_ [] [] (storedSegments sm + 1) (initialState start segs) := by
  unfold initialState
  have hseen : ∀ v gv,
      ((ExpandableHashMap.empty : ExpandableHashMap GeoCoord ℚ).associate start 0).find v =
        some gv → v = start ∧ gv = 0 := by
    intro v gv h
    rw [find_associate] at h
    by_cases hv : start = v
    · simp only [hv, if_true, Option.some.injEq] at h
      exact ⟨hv ▸ rfl, h.symm⟩
    · simp only [hv, if_false, find_empty] at h
      cases h
  refine
    { g_start := find_associate_self _ _ _, seen_key := ?_, trace := ?_, closed_opt := ?_,
      closed_edges := ?_, open_entry := ?_, entry_seen := ?_, end_open := List.not_mem_nil _,
      budget := ?_, expanded := ?_ }
  · intro v gv h
    obtain ⟨rfl, -⟩ := hseen v gv h
    exact ⟨segs0, hstart⟩
  · intro v gv h
    obtain ⟨rfl, rfl⟩ := hseen v gv h
    exact ⟨[], TraceRoute.base, rfl, rfl, le_refl _, fun h => absurd h (List.not_mem_nil _)⟩
  · intro u hu
    exact absurd hu (List.not_mem_nil _)
  · intro s _ hs
    exact absurd hs (List.not_mem_nil _)
  · intro v gv h _
    obtain ⟨rfl, rfl⟩ := hseen v gv h
    refine ⟨0, List.mem_singleton_self _, ?_⟩
    have := hd.nonneg v end_
    linarith
  · intro v f h
    simp only [List.mem_singleton, Prod.mk.injEq] at h
    obtain ⟨rfl, rfl⟩ := h
    exact ⟨0, find_associate_self _ _ _, Or.inr rfl⟩
  · simp [work_nil]
  · simp

theorem searchLoop_total {pop : Pop} {dist : GeoCoord → GeoCoord → ℚ} {sm : StreetMap}
    {start end_ : GeoCoord} (hpop : PopSpec pop) (hd : IsDistance dist) (hwf : WellFormed sm)
    {bound : Nat} (hbound : storedSegments sm + 1 < bound) :
    ∀ (fuel B : Nat) (E : List GeoCoord) (st : SearchState),
      SearchInv dist sm start end_ E [] B st → B < fuel →
      ∃ out, searchLoop pop dist sm start end_ bound fuel st = some out ∧
        RouterPost dist sm start end_ out := by
  intro fuel
  induction fuel with
  | zero => intro B E st _ h; exact absurd h (Nat.not_lt_zero _)
  | succ f ih =>
    intro B E st inv hB
    unfold searchLoop
    cases hp : pop st.nodes with
    | none =>
      have hq : st.nodes = [] := (hpop.none_iff _).1 hp
      refine ⟨_, rfl, ?_, ?_, ?_⟩
      · simp
      · intro h; cases h
      · intro _
        refine ⟨rfl, rfl, fun r hr => ?_⟩
        rcases frontier hd inv r start end_ 0 0 hr inv.g_start (le_refl _) with
          ⟨hE, _⟩ | ⟨y, g, hy, _⟩
        · exact inv.end_open hE
        · rw [hq] at hy
          exact List.not_mem_nil _ hy
    | some pr =>
      obtain ⟨top, rest⟩ := pr
      obtain ⟨gu, hgu, hopt⟩ := popped_optimal hpop hd inv hp
      obtain ⟨hlen, hB1⟩ := pop_budget hpop inv hp
      simp only
      by_cases hcur : top.1 = end_
      · simp only [hcur, if_true]
        rw [hcur] at hgu hopt
        obtain ⟨r, htr, hroute, hl, hle, -⟩ := inv.trace end_ gu hgu
        have hfuel : r.length < bound := by
          have := inv.expanded
          omega
        have htb := traceBack_of_trace htr bound st.segs [] hfuel
        simp only [List.nil_append] at htb
        simp only [htb, hgu, List.reverse_reverse]
        refine ⟨_, rfl, ?_, ?_, ?_⟩
        · simp
        · intro _
          exact ⟨hroute, hl, hopt⟩
        · intro h; cases h
      · simp only [hcur, if_false]
        obtain ⟨segs, hsegs⟩ := inv.seen_key top.1 gu hgu
        simp only [StreetMapImpl.getSegmentsThatStartWith, hsegs]
        by_cases hE : top.1 ∈ E
        · have inv' := pop_stale hpop inv hp hE segs
          have hno : relaxAll dist end_ top.1 segs
              { segs := segs, prevs := st.prevs, gCost := st.gCost, nodes := rest } =
              some { segs := segs, prevs := st.prevs, gCost := st.gCost, nodes := rest } := by
            refine relaxAll_noop dist end_ top.1 gu segs
              { segs := segs, prevs := st.prevs, gCost := st.gCost, nodes := rest } hgu ?_
            intro it hit
            have hst : it.start = top.1 := hwf.start_eq _ _ _ hsegs hit
            have hhas : HasSegment sm it := ⟨segs, by rw [hst]; exact hsegs, hit⟩
            have := inv.closed_edges it hhas (by rw [hst]; exact hE) (List.not_mem_nil _) gu
              (by rw [hst]; exact hgu)
            rw [hst] at this
            exact this
          simp only [hno]
          exact ih (B - 1) E _ inv' (by omega)
        · have inv1 := pop_new hpop hd inv hp hE hcur hsegs
          obtain ⟨st', hrel, inv'⟩ := relaxAll_inv hd hwf top.1 (List.mem_cons_self _ _) segs _
            (fun s hs => by
              have hst : s.start = top.1 := hwf.start_eq _ _ _ hsegs hs
              exact ⟨⟨segs, by rw [hst]; exact hsegs, hs⟩, hst⟩) inv1
          simp only [hrel]
          exact ih (B - 1) _ st' inv' (by omega)

theorem searchLoop_mono (pop : Pop) (dist : GeoCoord → GeoCoord → ℚ) (sm : StreetMap)
    (start end_ : GeoCoord) {bound bound' : Nat} (hb : bound ≤ bound') :
    ∀ (fuel fuel' : Nat) (st : SearchState) (out : RouteOutcome), fuel ≤ fuel' →
      searchLoop pop dist sm start end_ bound fuel st = some out →
      searchLoop pop dist sm start end_ bound' fuel' st = some out := by
  intro fuel
  induction fuel with
  | zero => intro fuel' st out _ h; simp [searchLoop] at h
  | succ f ih =>
    intro fuel' st out hle h
    cases fuel' with
    | zero => exact absurd hle (Nat.not_succ_le_zero _)
    | succ f' =>
      have hle' : f ≤ f' := Nat.le_of_succ_le_succ hle
      unfold searchLoop at h ⊢
      cases hp : pop st.nodes with
      | none => simpa [hp] using h
      | some pr =>
        obtain ⟨top, rest⟩ := pr
        simp only [hp] at h ⊢
        by_cases hcur : top.1 = end_
        · simp only [hcur, if_true] at h ⊢
          cases htb : traceBack sm st.prevs start bound end_ st.segs [] with
          | none => simp [htb] at h
          | some route =>
            rw [traceBack_mono sm st.prevs start bound bound' _ _ _ _ hb htb]
            simpa [htb] using h
        · simp only [hcur, if_false] at h ⊢
          cases hg : StreetMapImpl.getSegmentsThatStartWith sm top.1 st.segs with
          | mk ok segs =>
            cases ok with
            | false => simpa [hg] using h
            | true =>
              simp only [hg] at h ⊢
              cases hrel : relaxAll dist end_ top.1 segs
                  { segs := segs, prevs := st.prevs, gCost := st.gCost, nodes := rest } with
              | none => simp [hrel] at h
              | some st' =>
                simp only [hrel] at h ⊢
                exact ih f' st' out hle' h

/-! ### `generatePointToPointRoute` -/

theorem generate_of_keys (pop : Pop) (dist : GeoCoord → GeoCoord → ℚ) (sm : StreetMap)
    (start end_ : GeoCoord) (fuel : Nat) {segs0 segs1 : List StreetSegment}
    (hs : sm.find start = some segs0) (he : sm.find end_ = some segs1) :
    generatePointToPointRoute pop dist sm start end_ fuel =
      searchLoop pop dist sm start end_ fuel fuel (initialState start segs1) := by
  simp [generatePointToPointRoute, getSegmentsThatStartWith, hs, he]

theorem generate_of_not_keys (pop : Pop) (dist : GeoCoord → GeoCoord → ℚ) (sm : StreetMap)
    (start end_ : GeoCoord) (fuel : Nat) (h : sm.find start = none ∨ sm.find end_ = none) :
    generatePointToPointRoute pop dist sm start end_ fuel =
      some ⟨DeliveryResult.BAD_COORD, [], 0⟩ := by
  cases hs : sm.find start with
  | none => simp [generatePointToPointRoute, getSegmentsThatStartWith, hs]
  | some segs0 =>
    rcases h with h | h
    · rw [hs] at h; cases h
    · simp [generatePointToPointRoute, getSegmentsThatStartWith, hs, h]

/-- With both endpoints stored and enough fuel the search returns, and what it returns
satisfies `RouterPost`. -/
theorem generate_total {pop : Pop} {dist : GeoCoord → GeoCoord → ℚ} {sm : StreetMap}
    (hpop : PopSpec pop) (hd : IsDistance dist) (hwf : WellFormed sm) {start end_ : GeoCoord}
    {segs0 segs1 : List StreetSegment} (hs : sm.find start = some segs0)
    (he : sm.find end_ = some segs1) {fuel : Nat} (hfuel : searchFuel sm ≤ fuel) :
    ∃ out, generatePointToPointRoute pop dist sm start end_ fuel = some out ∧
      RouterPost dist sm start end_ out := by
  rw [generate_of_keys pop dist sm start end_ fuel hs he]
  have hb : storedSegments sm + 1 < fuel := by
    unfold searchFuel at hfuel
    omega
  exact searchLoop_total hpop hd hwf hb fuel (storedSegments sm + 1) [] _
    (searchInv_init hd end_ hs segs1) hb

/-- Whatever the fuel, an outcome of the search with both endpoints stored satisfies
`RouterPost`. -/
theorem generate_post {pop : Pop} {dist : GeoCoord → GeoCoord → ℚ} {sm : StreetMap}
    (hpop : PopSpec pop) (hd : IsDistance dist) (hwf : WellFormed sm) {start end_ : GeoCoord}
    {segs0 segs1 : List StreetSegment} (hs : sm.find start = some segs0)
    (he : sm.find end_ = some segs1) {fuel : Nat} {out : RouteOutcome}
    (h : generatePointToPointRoute pop dist sm start end_ fuel = some out) :
    RouterPost dist sm start end_ out := by
  rw [generate_of_keys pop dist sm start end_ fuel hs he] at h
  have hle : fuel ≤ max fuel (searchFuel sm) := le_max_left _ _
  have hbig := searchLoop_mono pop dist sm start end_ hle fuel _ _ out hle h
  obtain ⟨out', h', hpost⟩ := generate_total hpop hd hwf hs he
    (le_max_right fuel (searchFuel sm))
  rw [generate_of_keys pop dist sm start end_ _ hs he, hbig] at h'
  cases h'
  exact hpost

theorem generate_success {pop : Pop} {dist : GeoCoord → GeoCoord → ℚ} {sm : StreetMap}
    (hpop : PopSpec pop) (hd : IsDistance dist) (hwf : WellFormed sm) {start end_ : GeoCoord}
    {fuel : Nat} {out : RouteOutcome}
    (h : generatePointToPointRoute pop dist sm start end_ fuel = some out)
    (hok : out.result = DeliveryResult.DELIVERY_SUCCESS) :
    IsRoute sm start end_ out.route ∧
      routeLength dist out.route = out.totalDistanceTravelled ∧
      ∀ r, IsRoute sm start end_ r → out.totalDistanceTravelled ≤ routeLength dist r := by
  cases hs : sm.find start with
  | none =>
    rw [generate_of_not_keys pop dist sm start end_ fuel (Or.inl hs)] at h
    cases h
    cases hok
  | some segs0 =>
    cases he : sm.find end_ with
    | none =>
      rw [generate_of_not_keys pop dist sm start end_ fuel (Or.inr he)] at h
      cases h
      cases hok
    | some segs1 => exact (generate_post hpop hd hwf hs he h).2.1 hok

theorem isRoute_shape {sm : StreetMap} {a b : GeoCoord} {r : List StreetSegment}
    (h : IsRoute sm a b r) :
    (a ≠ b → r ≠ []) ∧ (r ≠ [] → r.head?.map StreetSegment.start = some a ∧
      r.getLast?.map StreetSegment.end_ = some b) ∧
      List.Chain' (fun s t => s.end_ = t.start) r := by
  induction r generalizing a with
  | nil =>
    simp only [IsRoute] at h
    exact ⟨fun hne => absurd h hne, fun hne => absurd rfl hne, List.chain'_nil⟩
  | cons s r ih =>
    obtain ⟨hs, _, hr⟩ := h
    obtain ⟨-, h2, h3⟩ := ih hr
    refine ⟨fun _ => List.cons_ne_nil _ _, fun _ => ⟨by simp [hs], ?_⟩, ?_⟩
    · cases r with
      | nil =>
        simp only [IsRoute] at hr
        simp [hr]
      | cons t r' =>
        have := (h2 (List.cons_ne_nil _ _)).2
        simpa [List.getLast?_cons_cons] using this
    · cases r with
      | nil => exact List.chain'_singleton _
      | cons t r' =>
        have := (h2 (List.cons_ne_nil _ _)).1
        simp only [List.head?_cons, Option.map_some', Option.some.injEq] at this
        exact List.chain'_cons.2 ⟨this.symm, h3⟩

theorem gridDistance_isDistance : IsDistance gridDistance := by
  constructor
  · intro a b
    unfold gridDistance
    positivity
  · intro a b c
    unfold gridDistance
    have h1 := abs_sub_le (wholeNumber a.latitudeText) (wholeNumber b.latitudeText)
      (wholeNumber c.latitudeText)
    have h2 := abs_sub_le (wholeNumber a.longitudeText) (wholeNumber b.longitudeText)
      (wholeNumber c.longitudeText)
    linarith

theorem searchLoop_post {pop : Pop} {dist : GeoCoord → GeoCoord → ℚ} {sm : StreetMap}
    (hpop : PopSpec pop) (hd : IsDistance dist) (hwf : WellFormed sm) {start end_ : GeoCoord}
    {segs0 : List StreetSegment} (hs : sm.find start = some segs0)
    (segs : List StreetSegment) {bound fuel : Nat} {out : RouteOutcome}
    (h : searchLoop pop dist sm start end_ bound fuel (initialState start segs) = some out) :
    RouterPost dist sm start end_ out := by
  have hb : bound ≤ max (max bound fuel) (searchFuel sm) :=
    le_trans (le_max_left _ _) (le_max_left _ _)
  have hf : fuel ≤ max (max bound fuel) (searchFuel sm) :=
    le_trans (le_max_right _ _) (le_max_left _ _)
  have hN : storedSegments sm + 1 < max (max bound fuel) (searchFuel sm) :=
    lt_of_lt_of_le (by unfold searchFuel; omega) (le_max_right _ _)
  have hbig := searchLoop_mono pop dist sm start end_ hb fuel _ _ out hf h
  obtain ⟨out', h', hpost⟩ := searchLoop_total hpop hd hwf hN
    (max (max bound fuel) (searchFuel sm)) (storedSegments sm + 1) [] _
    (searchInv_init hd end_ hs segs) hN
  rw [hbig] at h'
  cases h'
  exact hpost

/-! ### The emission loops -/

theorem segmentStep_extends (geo : Geometry) (base : List DeliveryCommand) (s : LegState)
    (segment : StreetSegment) :
    segmentStep geo
        { here := s.here, last := s.last, moves := s.moves, commands := base ++ s.commands }
        segment =
      { here := (segmentStep geo s segment).here, last := (segmentStep geo s segment).last,
        moves := (segmentStep geo s segment).moves,
        commands := base ++ (segmentStep geo s segment).commands } := by
  unfold segmentStep
  cases hm : s.moves with
  | nil => simp
  | cons front moves =>
    by_cases hname : segment.name = s.last.name
    · simp [hname]
    · by_cases hangle : geo.angleBetween2Lines s.last segment < 1 ∨
          geo.angleBetween2Lines s.last segment > 359
      · simp [hname, hangle, List.append_assoc]
      · simp [hname, hangle, List.append_assoc]

theorem foldl_segmentStep_extends (geo : Geometry) (base : List DeliveryCommand) :
    ∀ (route : List StreetSegment) (s : LegState),
      route.foldl (segmentStep geo)
          { here := s.here, last := s.last, moves := s.moves, commands := base ++ s.commands } =
        { here := (route.foldl (segmentStep geo) s).here,
          last := (route.foldl (segmentStep geo) s).last,
          moves := (route.foldl (segmentStep geo) s).moves,
          commands := base ++ (route.foldl (segmentStep geo) s).commands } := by
  intro route
  induction route with
  | nil => intro s; rfl
  | cons seg rest ih =>
    intro s
    simp only [List.foldl_cons]
    rw [segmentStep_extends, ih]

theorem flushMoves_extends (base : List DeliveryCommand) (s : LegState) :
    flushMoves
        { here := s.here, last := s.last, moves := s.moves, commands := base ++ s.commands } =
      base ++ flushMoves s := by
  unfold flushMoves
  cases s.moves with
  | nil => rfl
  | cons front moves => simp [List.append_assoc]

theorem segmentStep_first (geo : Geometry) (here last : StreetSegment)
    (commands : List DeliveryCommand) (segment : StreetSegment) :
    segmentStep geo { here := here, last := last, moves := [], commands := commands } segment =
      { here := segment, last := segment, moves := [proceedFor geo segment],
        commands := commands } := rfl

/-- What a leg appends to the command list does not depend on the values `here` and `last`
had before it. -/
theorem flushMoves_foldl (geo : Geometry) (here last : StreetSegment)
    (base : List DeliveryCommand) (route : List StreetSegment) :
    flushMoves (route.foldl (segmentStep geo)
        { here := here, last := last, moves := [], commands := base }) =
      base ++ legCommands geo route := by
  cases route with
  | nil => simp [legCommands, flushMoves]
  | cons seg rest =>
    unfold legCommands
    simp only [List.foldl_cons, segmentStep_first]
    have h := foldl_segmentStep_extends geo base rest
      { here := seg, last := seg, moves := [proceedFor geo seg], commands := [] }
    simp only [List.append_nil] at h
    rw [h, flushMoves_extends]

theorem emitRoutes_success (geo : Geometry) (newDeliveries : List DeliveryRequest) :
    ∀ (routes : List (List StreetSegment)) (route : List StreetSegment) (delivered : Nat)
      (s : LegState), delivered + routes.length = newDeliveries.length →
      emitRoutes geo newDeliveries (route :: routes) delivered s =
        some (DeliveryResult.DELIVERY_SUCCESS,
          s.commands ++ planCommands geo (newDeliveries.drop delivered) (route :: routes)) := by
  intro routes
  induction routes with
  | nil =>
    intro route delivered s hlen
    simp only [List.length_nil, Nat.add_zero] at hlen
    subst hlen
    simp [emitRoutes, flushMoves_foldl, planCommands]
  | cons next routes ih =>
    intro route delivered s hlen
    simp only [List.length_cons] at hlen
    have hlt : delivered < newDeliveries.length := by omega
    have hne : delivered ≠ newDeliveries.length := by omega
    have hdrop : newDeliveries.drop delivered =
        newDeliveries[delivered] :: newDeliveries.drop (delivered + 1) :=
      List.drop_eq_getElem_cons hlt
    unfold emitRoutes
    simp only [hne, ne_eq, not_false_eq_true, if_true, List.getElem?_eq_getElem hlt]
    rw [ih next (delivered + 1) _ (by omega), hdrop]
    simp [flushMoves_foldl, planCommands, List.append_assoc]

theorem segmentStep_proceed (geo : Geometry) (base : List DeliveryCommand) (s : LegState)
    (segment : StreetSegment)
    (h : ∃ m, s.moves = [m] ∧ m.IsProceed ∧
      (s.commands = base ∨ ∃ c tail, DeliveryCommand.IsProceed c ∧ s.commands = base ++ c :: tail)) :
    ∃ m, (segmentStep geo s segment).moves = [m] ∧ m.IsProceed ∧
      ((segmentStep geo s segment).commands = base ∨
        ∃ c tail, DeliveryCommand.IsProceed c ∧
          (segmentStep geo s segment).commands = base ++ c :: tail) := by
  obtain ⟨m, hm, hp, hc⟩ := h
  have hpre : ∀ extra : List DeliveryCommand,
      ∃ c tail, DeliveryCommand.IsProceed c ∧ s.commands ++ m :: extra = base ++ c :: tail := by
    intro extra
    rcases hc with hc | ⟨c, tail, hcp, hc⟩
    · exact ⟨m, extra, hp, by rw [hc]⟩
    · exact ⟨c, tail ++ m :: extra, hcp, by rw [hc]; simp⟩
  unfold segmentStep
  rw [hm]
  by_cases hname : segment.name = s.last.name
  · simp only [hname, if_true]
    refine ⟨_, rfl, ?_, hc⟩
    cases m with
    | proceed d n x => trivial
    | turn d n => exact hp
    | deliver i => exact hp
  · by_cases hangle : geo.angleBetween2Lines s.last segment < 1 ∨
        geo.angleBetween2Lines s.last segment > 359
    · simp only [hname, hangle, if_false, if_true]
      exact ⟨_, rfl, trivial, Or.inr (hpre [])⟩
    · simp only [hname, hangle, if_false]
      refine ⟨_, rfl, trivial, Or.inr ?_⟩
      obtain ⟨c, tail, hcp, h⟩ := hpre [DeliveryCommand.turn
        (generateTurnOf (geo.angleBetween2Lines s.last segment)) segment.name]
      exact ⟨c, tail, hcp, by rw [← h]; simp⟩

theorem foldl_segmentStep_proceed (geo : Geometry) (base : List DeliveryCommand) :
    ∀ (route : List StreetSegment) (s : LegState),
      (∃ m, s.moves = [m] ∧ m.IsProceed ∧
        (s.commands = base ∨
          ∃ c tail, DeliveryCommand.IsProceed c ∧ s.commands = base ++ c :: tail)) →
      ∃ m, (route.foldl (segmentStep geo) s).moves = [m] ∧ m.IsProceed ∧
        ((route.foldl (segmentStep geo) s).commands = base ∨
          ∃ c tail, DeliveryCommand.IsProceed c ∧
            (route.foldl (segmentStep geo) s).commands = base ++ c :: tail) := by
  intro route
  induction route with
  | nil => intro s h; exact h
  | cons seg rest ih =>
    intro s h
    simp only [List.foldl_cons]
    exact ih _ (segmentStep_proceed geo base s seg h)

/-- The commands of a leg with at least one segment begin with a Proceed. -/
theorem legCommands_head (geo : Geometry) (segment : StreetSegment)
    (rest : List StreetSegment) :
    ∃ c tail, DeliveryCommand.IsProceed c ∧ legCommands geo (segment :: rest) = c :: tail := by
  unfold legCommands
  simp only [List.foldl_cons, segmentStep_first]
  obtain ⟨m, hm, hp, hc⟩ := foldl_segmentStep_proceed geo [] rest
    { here := segment, last := segment, moves := [proceedFor geo segment], commands := [] }
    ⟨_, rfl, trivial, Or.inl rfl⟩
  unfold flushMoves
  rw [hm]
  rcases hc with hc | ⟨c, tail, hcp, hc⟩
  · exact ⟨m, [], hp, by rw [hc]; rfl⟩
  · exact ⟨c, tail ++ [m], hcp, by rw [hc]; simp⟩

theorem legCommands_nil (geo : Geometry) : legCommands geo [] = [] := rfl

/-! ### The plan -/

theorem result_cases (r : DeliveryResult) (h1 : r ≠ DeliveryResult.BAD_COORD)
    (h2 : r ≠ DeliveryResult.NO_ROUTE) : r = DeliveryResult.DELIVERY_SUCCESS := by
  cases r with
  | DELIVERY_SUCCESS => rfl
  | NO_ROUTE => exact absurd rfl h2
  | BAD_COORD => exact absurd rfl h1

theorem forall₂_legSucceeds_length {pop : Pop} {dist : GeoCoord → GeoCoord → ℚ}
    {sm : StreetMap} {fuel : Nat} {legs : List (GeoCoord × GeoCoord)}
    {outs : List RouteOutcome} (h : List.Forall₂ (LegSucceeds pop dist sm fuel) legs outs) :
    outs.length = legs.length :=
  h.length_eq.symm

theorem deliveryLegs_length : ∀ (current : GeoCoord) (nd : List DeliveryRequest),
    (deliveryLegs current nd).length = nd.length := by
  intro current nd
  induction nd generalizing current with
  | nil => rfl
  | cons it rest ih => simp [deliveryLegs, ih]

/-- The loop over `newDeliveries`, when every leg succeeds. -/
theorem routeLegs_inr (pop : Pop) (dist : GeoCoord → GeoCoord → ℚ) (sm : StreetMap)
    (fuel : Nat) :
    ∀ (nd : List DeliveryRequest) (current : GeoCoord) (routes : List (List StreetSegment))
      (total : ℚ) (cur' : GeoCoord) (routes' : List (List StreetSegment)) (total' : ℚ),
      routeLegs pop dist sm fuel nd current routes total = some (Sum.inr (cur', routes'), total') →
      ∃ outs, List.Forall₂ (LegSucceeds pop dist sm fuel) (deliveryLegs current nd) outs ∧
        cur' = lastStop current nd ∧ routes' = routes ++ outs.map RouteOutcome.route ∧
        total' = total + (outs.map RouteOutcome.totalDistanceTravelled).sum := by
  intro nd
  induction nd with
  | nil =>
    intro current routes total cur' routes' total' h
    simp only [routeLegs, Option.some.injEq, Prod.mk.injEq, Sum.inr.injEq] at h
    obtain ⟨⟨rfl, rfl⟩, rfl⟩ := h
    exact ⟨[], List.Forall₂.nil, rfl, by simp, by simp⟩
  | cons it rest ih =>
    intro current routes total cur' routes' total' h
    unfold routeLegs at h
    cases hr : generatePointToPointRoute pop dist sm current it.location fuel with
    | none => simp [hr] at h
    | some out =>
      simp only [hr] at h
      by_cases hb : out.result = DeliveryResult.BAD_COORD
      · rw [if_pos hb] at h
        simp at h
      · by_cases hn : out.result = DeliveryResult.NO_ROUTE
        · rw [if_neg hb, if_pos hn] at h
          simp at h
        · rw [if_neg hb, if_neg hn] at h
          obtain ⟨outs, hall, hcur, hroutes, htotal⟩ := ih _ _ _ _ _ _ h
          refine ⟨out :: outs, List.Forall₂.cons ⟨hr, result_cases _ hb hn⟩ hall, hcur, ?_, ?_⟩
          · rw [hroutes]
            simp
          · rw [htotal]
            simp [add_assoc]

/-- The loop over `newDeliveries`, when it returns early. -/
theorem routeLegs_inl (pop : Pop) (dist : GeoCoord → GeoCoord → ℚ) (sm : StreetMap)
    (fuel : Nat) :
    ∀ (nd : List DeliveryRequest) (current : GeoCoord) (routes : List (List StreetSegment))
      (total : ℚ) (r : DeliveryResult) (total' : ℚ),
      routeLegs pop dist sm fuel nd current routes total = some (Sum.inl r, total') →
      ∃ paid, FirstFailure pop dist sm fuel (deliveryLegs current nd) r paid ∧
        total' = total + paid := by
  intro nd
  induction nd with
  | nil =>
    intro current routes total r total' h
    simp [routeLegs] at h
  | cons it rest ih =>
    intro current routes total r total' h
    unfold routeLegs at h
    cases hr : generatePointToPointRoute pop dist sm current it.location fuel with
    | none => simp [hr] at h
    | some out =>
      simp only [hr] at h
      by_cases hb : out.result = DeliveryResult.BAD_COORD
      · rw [if_pos hb] at h
        simp only [Option.some.injEq, Prod.mk.injEq, Sum.inl.injEq] at h
        obtain ⟨rfl, rfl⟩ := h
        exact ⟨0, ⟨[], (current, it.location), deliveryLegs it.location rest, [], out, rfl,
          List.Forall₂.nil, hr, by rw [hb]; decide, hb, by simp⟩, by simp⟩
      · by_cases hn : out.result = DeliveryResult.NO_ROUTE
        · rw [if_neg hb, if_pos hn] at h
          simp only [Option.some.injEq, Prod.mk.injEq, Sum.inl.injEq] at h
          obtain ⟨rfl, rfl⟩ := h
          exact ⟨0, ⟨[], (current, it.location), deliveryLegs it.location rest, [], out, rfl,
            List.Forall₂.nil, hr, by rw [hn]; decide, hn, by simp⟩, by simp⟩
        · rw [if_neg hb, if_neg hn] at h
          obtain ⟨paid, ⟨pre, leg, post, outs, bad, hlegs, hall, hbad, hne, hres, hpaid⟩,
            htotal⟩ := ih _ _ _ _ _ h
          refine ⟨out.totalDistanceTravelled + paid,
            ⟨(current, it.location) :: pre, leg, post, out :: outs, bad, ?_,
              List.Forall₂.cons ⟨hr, result_cases _ hb hn⟩ hall, hbad, hne, hres, ?_⟩, ?_⟩
          · simp [deliveryLegs, hlegs]
          · simp [hpaid]
          · rw [htotal]
            ring

theorem routeLegs_returns (pop : Pop) (dist : GeoCoord → GeoCoord → ℚ) (sm : StreetMap)
    (fuel : Nat)
    (hret : ∀ a b, ∃ o, generatePointToPointRoute pop dist sm a b fuel = some o) :
    ∀ (nd : List DeliveryRequest) (current : GeoCoord) (routes : List (List StreetSegment))
      (total : ℚ), ∃ x, routeLegs pop dist sm fuel nd current routes total = some x := by
  intro nd
  induction nd with
  | nil => intro current routes total; exact ⟨_, rfl⟩
  | cons it rest ih =>
    intro current routes total
    obtain ⟨out, hr⟩ := hret current it.location
    unfold routeLegs
    simp only [hr]
    by_cases hb : out.result = DeliveryResult.BAD_COORD
    · rw [if_pos hb]
      exact ⟨_, rfl⟩
    · by_cases hn : out.result = DeliveryResult.NO_ROUTE
      · rw [if_neg hb, if_pos hn]
        exact ⟨_, rfl⟩
      · rw [if_neg hb, if_neg hn]
        exact ih _ _ _

theorem emitRoutes_all (geo : Geometry) (newDeliveries : List DeliveryRequest)
    (routes : List (List StreetSegment)) (s : LegState)
    (hlen : routes.length = newDeliveries.length + 1) :
    emitRoutes geo newDeliveries routes 0 s =
      some (DeliveryResult.DELIVERY_SUCCESS,
        s.commands ++ planCommands geo newDeliveries routes) := by
  cases routes with
  | nil => simp at hlen
  | cons route routes =>
    have := emitRoutes_success geo newDeliveries routes route 0 s
      (by simp only [List.length_cons] at hlen; omega)
    simpa using this

theorem firstFailure_append {pop : Pop} {dist : GeoCoord → GeoCoord → ℚ} {sm : StreetMap}
    {fuel : Nat} {legs : List (GeoCoord × GeoCoord)} {r : DeliveryResult} {paid : ℚ}
    (h : FirstFailure pop dist sm fuel legs r paid) (more : List (GeoCoord × GeoCoord)) :
    FirstFailure pop dist sm fuel (legs ++ more) r paid := by
  obtain ⟨pre, leg, post, outs, bad, hlegs, hall, hbad, hne, hres, hpaid⟩ := h
  exact ⟨pre, leg, post ++ more, outs, bad, by simp [hlegs], hall, hbad, hne, hres, hpaid⟩

/-- What `generateDeliveryPlan` returns, in terms of the optimizer's output and the router's
outcomes for the legs of the tour. -/
theorem generateDeliveryPlan_char (pop : Pop) (geo : Geometry) (sm : StreetMap)
    (depot : GeoCoord) (deliveries : List DeliveryRequest) (draws : List Nat) (fuel : Nat)
    (out : PlanOutcome)
    (h : generateDeliveryPlan pop geo sm depot deliveries draws fuel = some out) :
    ∃ opt, optimizeDeliveryOrder geo.dist depot deliveries draws fuel = some opt ∧
      ((out.result = DeliveryResult.DELIVERY_SUCCESS ∧
          ∃ outs, List.Forall₂ (LegSucceeds pop geo.dist sm fuel)
              (tourLegs depot opt.deliveries) outs ∧
            out.totalDistanceTravelled = (outs.map RouteOutcome.totalDistanceTravelled).sum ∧
            out.commands = planCommands geo opt.deliveries (outs.map RouteOutcome.route)) ∨
        (FirstFailure pop geo.dist sm fuel (tourLegs depot opt.deliveries) out.result
            out.totalDistanceTravelled ∧ out.commands = [])) := by
  unfold generateDeliveryPlan at h
  cases hopt : optimizeDeliveryOrder geo.dist depot deliveries draws fuel with
  | none => simp [hopt] at h
  | some opt =>
    refine ⟨opt, rfl, ?_⟩
    simp only [hopt] at h
    cases hlegs : routeLegs pop geo.dist sm fuel opt.deliveries depot [] 0 with
    | none => simp [hlegs] at h
    | some x =>
      obtain ⟨x1, total⟩ := x
      cases x1 with
      | inl r =>
        simp only [hlegs, Option.some.injEq] at h
        subst h
        obtain ⟨paid, hfail, htotal⟩ := routeLegs_inl pop geo.dist sm fuel _ _ _ _ _ _ hlegs
        right
        refine ⟨?_, rfl⟩
        have : total = paid := by simpa using htotal
        rw [this]
        exact firstFailure_append hfail _
      | inr y =>
        obtain ⟨current, routes⟩ := y
        obtain ⟨outs, hall, hcur, hroutes, htotal⟩ :=
          routeLegs_inr pop geo.dist sm fuel _ _ _ _ _ _ _ hlegs
        simp only [List.nil_append] at hroutes
        simp only [zero_add] at htotal
        simp only [hlegs] at h
        cases hr : generatePointToPointRoute pop geo.dist sm current depot fuel with
        | none => simp [hr] at h
        | some last =>
          simp only [hr] at h
          have hfailure : last.result ≠ DeliveryResult.DELIVERY_SUCCESS →
              FirstFailure pop geo.dist sm fuel (tourLegs depot opt.deliveries) last.result
                total :=
            fun hne => ⟨deliveryLegs depot opt.deliveries, (current, depot), [], outs, last,
              by rw [hcur]; rfl, hall, hr, hne, rfl, htotal⟩
          by_cases hb : last.result = DeliveryResult.BAD_COORD
          · rw [if_pos hb] at h
            simp only [Option.some.injEq] at h
            subst h
            right
            refine ⟨?_, rfl⟩
            have := hfailure (by rw [hb]; decide)
            rw [hb] at this
            exact this
          · by_cases hn : last.result = DeliveryResult.NO_ROUTE
            · rw [if_neg hb, if_pos hn] at h
              simp only [Option.some.injEq] at h
              subst h
              right
              refine ⟨?_, rfl⟩
              have := hfailure (by rw [hn]; decide)
              rw [hn] at this
              exact this
            · rw [if_neg hb, if_neg hn] at h
              have hlen : (routes ++ [last.route]).length = opt.deliveries.length + 1 := by
                rw [hroutes]
                simp [forall₂_legSucceeds_length hall, deliveryLegs_length]
              rw [emitRoutes_all geo opt.deliveries _ _ hlen] at h
              simp only [Option.some.injEq] at h
              subst h
              left
              refine ⟨rfl, outs ++ [last], ?_, ?_, ?_⟩
              · unfold tourLegs
                exact List.rel_append hall (List.Forall₂.cons
                  ⟨by rw [← hcur]; exact hr, result_cases _ hb hn⟩ List.Forall₂.nil)
              · simp [htotal]
              · simp [hroutes]

theorem generateDeliveryPlan_returns (pop : Pop) (geo : Geometry) (sm : StreetMap)
    (depot : GeoCoord) (deliveries : List DeliveryRequest) (draws : List Nat) (fuel : Nat)
    (hret : ∀ a b, ∃ o, generatePointToPointRoute pop geo.dist sm a b fuel = some o)
    (opt : OptimizeOutcome)
    (hopt : optimizeDeliveryOrder geo.dist depot deliveries draws fuel = some opt) :
    ∃ out, generateDeliveryPlan pop geo sm depot deliveries draws fuel = some out := by
  unfold generateDeliveryPlan
  simp only [hopt]
  obtain ⟨x, hlegs⟩ := routeLegs_returns pop geo.dist sm fuel hret opt.deliveries depot [] 0
  obtain ⟨x1, total⟩ := x
  cases x1 with
  | inl r =>
    simp only [hlegs]
    exact ⟨_, rfl⟩
  | inr y =>
    obtain ⟨current, routes⟩ := y
    obtain ⟨outs, hall, hcur, hroutes, htotal⟩ :=
      routeLegs_inr pop geo.dist sm fuel _ _ _ _ _ _ _ hlegs
    simp only [List.nil_append] at hroutes
    simp only [hlegs]
    obtain ⟨last, hr⟩ := hret current depot
    simp only [hr]
    by_cases hb : last.result = DeliveryResult.BAD_COORD
    · rw [if_pos hb]
      exact ⟨_, rfl⟩
    · by_cases hn : last.result = DeliveryResult.NO_ROUTE
      · rw [if_neg hb, if_pos hn]
        exact ⟨_, rfl⟩
      · rw [if_neg hb, if_neg hn]
        have hlen : (routes ++ [last.route]).length = opt.deliveries.length + 1 := by
          rw [hroutes]
          simp [forall₂_legSucceeds_length hall, deliveryLegs_length]
        rw [emitRoutes_all geo opt.deliveries _ _ hlen]
        exact ⟨_, rfl⟩

/-- On a table built by `load`, with fuel `searchFuel` or more, every router call
returns. -/
theorem generate_returns {pop : Pop} {dist : GeoCoord → GeoCoord → ℚ} (hpop : PopSpec pop)
    (hd : IsDistance dist) (segmentLines : List StreetSegment) {fuel : Nat}
    (hfuel : searchFuel (load segmentLines) ≤ fuel) (a b : GeoCoord) :
    ∃ o, generatePointToPointRoute pop dist (load segmentLines) a b fuel = some o := by
  cases hs : (load segmentLines).find a with
  | none => exact ⟨_, generate_of_not_keys pop dist _ a b fuel (Or.inl hs)⟩
  | some segs0 =>
    cases he : (load segmentLines).find b with
    | none => exact ⟨_, generate_of_not_keys pop dist _ a b fuel (Or.inr he)⟩
    | some segs1 =>
      obtain ⟨out, hout, -⟩ := generate_total hpop hd (wellFormed_load segmentLines) hs he hfuel
      exact ⟨out, hout⟩

theorem forall₂_mid {α β : Type} {R : α → β → Prop} :
    ∀ {pre : List α} {a : α} {post : List α} {bs : List β},
      List.Forall₂ R (pre ++ a :: post) bs → ∃ b, R a b := by
  intro pre
  induction pre with
  | nil =>
    intro a post bs h
    cases h with
    | cons hab _ => exact ⟨_, hab⟩
  | cons x pre ih =>
    intro a post bs h
    cases h with
    | cons _ htail => exact ih htail

/-- From a coordinate to itself the router succeeds with no segment and distance 0. -/
theorem generate_self {pop : Pop} (hpop : PopSpec pop) (dist : GeoCoord → GeoCoord → ℚ)
    (sm : StreetMap) (x : GeoCoord) (hx : sm.find x ≠ none) (fuel : Nat) :
    generatePointToPointRoute pop dist sm x x (fuel + 1) =
      some ⟨DeliveryResult.DELIVERY_SUCCESS, [], 0⟩ := by
  cases hs : sm.find x with
  | none => exact absurd hs hx
  | some segs0 =>
    rw [generate_of_keys pop dist sm x x (fuel + 1) hs hs]
    unfold searchLoop
    cases hp : pop (initialState x segs0).nodes with
    | none =>
      have := (hpop.none_iff _).1 hp
      simp [initialState] at this
    | some pr =>
      obtain ⟨top, rest⟩ := pr
      have hperm := hpop.perm _ _ _ hp
      have htop : top = (x, 0) := by
        have : top ∈ (initialState x segs0).nodes := hperm.mem_iff.2 (List.mem_cons_self _ _)
        simpa [initialState] using this
      subst htop
      simp [traceBack, initialState, find_associate_self]

theorem optimizeDeliveryOrder_nil (dist : GeoCoord → GeoCoord → ℚ) (depot : GeoCoord)
    (draws : List Nat) (fuel : Nat) :
    optimizeDeliveryOrder dist depot [] draws (fuel + 1) =
      some
        { deliveries := []
          oldCrowDistance := dist depot depot
          newCrowDistance := dist depot depot
          draws := draws } := by
  simp [optimizeDeliveryOrder, annealLoop, findCrowDistance]

/-! ### `load` on the text of the map file -/

theorem load_snoc (segmentLines : List StreetSegment) (segment : StreetSegment) :
    load (segmentLines ++ [segment]) = loadSegment (load segmentLines) segment := by
  simp [load, List.foldl_append]

theorem readSegment_table (stodOk : String → Bool) (v v' : LoadVars)
    (h : readSegment stodOk v = some v') (hv : ∃ lines, v.m_streets = load lines) :
    ∃ lines, v'.m_streets = load lines := by
  obtain ⟨lines, hl⟩ := hv
  unfold readSegment at h
  simp only at h
  split at h
  · simp only [Option.some.injEq] at h
    subst h
    exact ⟨lines ++ [_], by rw [load_snoc, hl]⟩
  · cases h

theorem readSegments_table (stodOk : String → Bool) :
    ∀ (n : Nat) (v v' : LoadVars), readSegments stodOk n v = some v' →
      (∃ lines, v.m_streets = load lines) → ∃ lines, v'.m_streets = load lines := by
  intro n
  induction n with
  | zero =>
    intro v v' h hv
    simp only [readSegments, Option.some.injEq] at h
    subst h
    exact hv
  | succ n ih =>
    intro v v' h hv
    unfold readSegments at h
    cases hr : readSegment stodOk v with
    | none => simp [hr] at h
    | some v1 =>
      simp only [hr] at h
      exact ih v1 v' h (readSegment_table stodOk v v1 hr hv)

theorem loadLoop_table (stodOk : String → Bool) :
    ∀ (fuel : Nat) (v v' : LoadVars), loadLoop stodOk fuel v = some v' →
      (∃ lines, v.m_streets = load lines) → ∃ lines, v'.m_streets = load lines := by
  intro fuel
  induction fuel with
  | zero => intro v v' h; simp [loadLoop] at h
  | succ fuel ih =>
    intro v v' h hv
    unfold loadLoop at h
    simp only at h
    split at h
    · simp only [Option.some.injEq] at h
      subst h
      exact hv
    · split at h
      · cases h
      · split at h
        · cases h
        · split at h
          · cases h
          · rename_i v1 hr
            exact ih v1 v' h (readSegments_table stodOk _ _ v1 hr hv)

/-- Every table `load` leaves is the table of the segment lines it inserted. -/
theorem loadFile_table (stodOk : String → Bool) (mapFile : String) (content : Option String)
    (fuel : Nat) (out : LoadOutcome) (h : loadFile stodOk mapFile content fuel = some out) :
    ∃ lines, out.m_streets = load lines := by
  unfold loadFile at h
  cases content with
  | none =>
    simp only [Option.some.injEq] at h
    subst h
    exact ⟨[], rfl⟩
  | some text =>
    simp only at h
    split at h
    · cases h
    · rename_i v hv
      simp only [Option.some.injEq] at h
      subst h
      exact loadLoop_table stodOk fuel _ v hv ⟨[], rfl⟩

theorem loadFile_result (stodOk : String → Bool) (mapFile : String) (text : String)
    (fuel : Nat) (out : LoadOutcome)
    (h : loadFile stodOk mapFile (some text) fuel = some out) : out.result = true := by
  unfold loadFile at h
  simp only at h
  split at h
  · cases h
  · simp only [Option.some.injEq] at h
    subst h
    rfl

/-! ### The commands of one leg -/

theorem foldl_segmentStep_legFrom (geo : Geometry) :
    ∀ (rest : List StreetSegment) (s : LegState) (pending : DeliveryCommand),
      s.moves = [pending] →
      flushMoves (rest.foldl (segmentStep geo) s) =
        s.commands ++ legFrom geo s.last pending rest := by
  intro rest
  induction rest with
  | nil =>
    intro s pending hm
    simp [flushMoves, hm, legFrom]
  | cons here rest ih =>
    intro s pending hm
    rw [List.foldl_cons]
    unfold legFrom
    by_cases hname : here.name = s.last.name
    · rw [if_pos hname]
      have hstep : segmentStep geo s here =
          { here := here, last := s.last,
            moves := [pending.increaseDistance (getLength geo.dist here)],
            commands := s.commands } := by
        simp [segmentStep, hm, hname]
      rw [hstep, ih _ _ rfl]
    · rw [if_neg hname]
      by_cases hangle : geo.angleBetween2Lines s.last here < 1 ∨
          geo.angleBetween2Lines s.last here > 359
      · rw [if_pos hangle]
        have hstep : segmentStep geo s here =
            { here := here, last := here, moves := [proceedFor geo here],
              commands := s.commands ++ [pending] } := by
          simp [segmentStep, hm, hname, hangle]
        rw [hstep, ih _ _ rfl]
        simp
      · rw [if_neg hangle]
        have hstep : segmentStep geo s here =
            { here := here, last := here, moves := [proceedFor geo here],
              commands := s.commands ++ [pending] ++
                [DeliveryCommand.turn (generateTurnOf (geo.angleBetween2Lines s.last here))
                  here.name] } := by
          simp [segmentStep, hm, hname, hangle]
        rw [hstep, ih _ _ rfl]
        simp

theorem legCommands_cons (geo : Geometry) (segment : StreetSegment)
    (rest : List StreetSegment) :
    legCommands geo (segment :: rest) = legFrom geo segment (proceedFor geo segment) rest := by
  unfold legCommands
  rw [List.foldl_cons, segmentStep_first, foldl_segmentStep_legFrom geo rest _ _ rfl]
  simp

/-- The first command the rest of a leg appends is the pending Proceed, grown by the
lengths of the segments that stay on its street. -/
theorem legFrom_head (geo : Geometry) :
    ∀ (rest : List StreetSegment) (last : StreetSegment) (d n : String) (x : ℚ),
      ∃ tail, legFrom geo last (DeliveryCommand.proceed d n x) rest =
        DeliveryCommand.proceed d n
          (x + ((rest.takeWhile (fun s => decide (s.name = last.name))).map
            (getLength geo.dist)).sum) :: tail := by
  intro rest
  induction rest with
  | nil => intro last d n x; exact ⟨[], by simp [legFrom]⟩
  | cons here rest ih =>
    intro last d n x
    unfold legFrom
    by_cases hname : here.name = last.name
    · rw [if_pos hname]
      obtain ⟨tail, ht⟩ := ih last d n (x + getLength geo.dist here)
      refine ⟨tail, ?_⟩
      simp only [DeliveryCommand.increaseDistance, ht, List.takeWhile_cons, hname, decide_True,
        if_true, List.map_cons, List.sum_cons, add_assoc]
    · rw [if_neg hname]
      by_cases hangle : geo.angleBetween2Lines last here < 1 ∨
          geo.angleBetween2Lines last here > 359
      · rw [if_pos hangle]
        refine ⟨legFrom geo here (proceedFor geo here) rest, ?_⟩
        simp [List.takeWhile_cons, hname]
      · rw [if_neg hangle]
        refine ⟨DeliveryCommand.turn (generateTurnOf (geo.angleBetween2Lines last here))
          here.name :: legFrom geo here (proceedFor geo here) rest, ?_⟩
        simp [List.takeWhile_cons, hname]

/-- A leg that stays on one street yields the pending Proceed alone. -/
theorem legFrom_same (geo : Geometry) :
    ∀ (rest : List StreetSegment) (last : StreetSegment) (d n : String) (x : ℚ),
      (∀ s, s ∈ rest → s.name = last.name) →
      legFrom geo last (DeliveryCommand.proceed d n x) rest =
        [DeliveryCommand.proceed d n (x + (rest.map (getLength geo.dist)).sum)] := by
  intro rest
  induction rest with
  | nil => intro last d n x _; simp [legFrom]
  | cons here rest ih =>
    intro last d n x h
    unfold legFrom
    rw [if_pos (h here (List.mem_cons_self _ _))]
    simp only [DeliveryCommand.increaseDistance]
    rw [ih last d n _ (fun s hs => h s (List.mem_cons_of_mem _ hs))]
    simp [add_assoc]

/-- No segment length is lost or counted twice: the distances of the commands of the
rest of a leg add up to the pending distance plus the lengths of the segments. -/
theorem legFrom_distance (geo : Geometry) :
    ∀ (rest : List StreetSegment) (last : StreetSegment) (d n : String) (x : ℚ),
      ((legFrom geo last (DeliveryCommand.proceed d n x) rest).map
        DeliveryCommand.proceedDistance).sum = x + (rest.map (getLength geo.dist)).sum := by
  intro rest
  induction rest with
  | nil => intro last d n x; simp [legFrom, DeliveryCommand.proceedDistance]
  | cons here rest ih =>
    intro last d n x
    unfold legFrom
    by_cases hname : here.name = last.name
    · rw [if_pos hname]
      simp only [DeliveryCommand.increaseDistance]
      rw [ih]
      simp [add_assoc]
    · rw [if_neg hname]
      by_cases hangle : geo.angleBetween2Lines last here < 1 ∨
          geo.angleBetween2Lines last here > 359
      · rw [if_pos hangle]
        simp only [List.map_cons, List.sum_cons, proceedFor]
        rw [ih]
        simp [DeliveryCommand.proceedDistance]
      · rw [if_neg hangle]
        simp only [List.map_cons, List.sum_cons, proceedFor]
        rw [ih]
        simp [DeliveryCommand.proceedDistance]

theorem legCommands_distance (geo : Geometry) (route : List StreetSegment) :
    ((legCommands geo route).map DeliveryCommand.proceedDistance).sum =
      routeLength geo.dist route := by
  cases route with
  | nil => simp [legCommands_nil, routeLength]
  | cons segment rest =>
    rw [legCommands_cons]
    unfold proceedFor
    rw [legFrom_distance]
    simp only [routeLength, getLength, List.map_cons, List.sum_cons]
    rfl

theorem generateTurn_cases (direction : ℚ) (h1 : 1 ≤ direction) (h2 : direction ≤ 359) :
    generateTurn direction = "left" ∨ generateTurn direction = "right" := by
  unfold generateTurn
  by_cases h : direction < 180
  · exact Or.inl (by rw [if_pos ⟨h1, h⟩])
  · right
    rw [if_neg (fun hc => h hc.2), if_pos ⟨not_lt.1 h, h2⟩]

/-- The test `direction < 1 || direction > 359` fails for the numbers from 1 to 359, and
for NaN. -/
theorem angle_gate (angle : Angle) (h : ¬ (angle < 1 ∨ angle > 359)) :
    (∃ x : ℚ, angle = Angle.degrees x ∧ 1 ≤ x ∧ x ≤ 359) ∨ angle = Angle.nan := by
  cases angle with
  | nan => exact Or.inr rfl
  | degrees x =>
    refine Or.inl ⟨x, rfl, ?_, ?_⟩
    · refine not_lt.1 (fun hc => h (Or.inl ?_))
      show x < ((1 : Nat) : ℚ)
      simpa using hc
    · refine not_lt.1 (fun hc => h (Or.inr ?_))
      show ((359 : Nat) : ℚ) < x
      simpa using hc

/-- Every Turn among the commands of the rest of a leg was built by `generateTurn` from
an angle for which the test `direction < 1 || direction > 359` fails. -/
theorem legFrom_turn (geo : Geometry) :
    ∀ (rest : List StreetSegment) (last : StreetSegment) (d n : String) (x : ℚ)
      (dir name : String),
      DeliveryCommand.turn dir name ∈ legFrom geo last (DeliveryCommand.proceed d n x) rest →
      ∃ angle : Angle, ¬ (angle < 1 ∨ angle > 359) ∧ dir = generateTurnOf angle := by
  intro rest
  induction rest with
  | nil =>
    intro last d n x dir name h
    simp [legFrom] at h
  | cons here rest ih =>
    intro last d n x dir name h
    unfold legFrom at h
    by_cases hname : here.name = last.name
    · rw [if_pos hname] at h
      exact ih _ _ _ _ _ _ h
    · rw [if_neg hname] at h
      by_cases hangle : geo.angleBetween2Lines last here < 1 ∨
          geo.angleBetween2Lines last here > 359
      · rw [if_pos hangle] at h
        rcases List.mem_cons.1 h with h | h
        · cases h
        · exact ih _ _ _ _ _ _ h
      · rw [if_neg hangle] at h
        rcases List.mem_cons.1 h with h | h
        · cases h
        · rcases List.mem_cons.1 h with h | h
          · simp only [DeliveryCommand.turn.injEq] at h
            exact ⟨geo.angleBetween2Lines last here, hangle, h.1⟩
          · exact ih _ _ _ _ _ _ h

theorem legCommands_turn (geo : Geometry) (route : List StreetSegment) (dir name : String)
    (h : DeliveryCommand.turn dir name ∈ legCommands geo route) :
    ∃ angle : Angle, ¬ (angle < 1 ∨ angle > 359) ∧ dir = generateTurnOf angle := by
  cases route with
  | nil => simp [legCommands_nil] at h
  | cons segment rest =>
    rw [legCommands_cons] at h
    exact legFrom_turn geo rest segment _ _ _ dir name h

/-- The loop over the segments of a leg appends no Deliver. -/
theorem legFrom_deliver (geo : Geometry) :
    ∀ (rest : List StreetSegment) (last : StreetSegment) (d n : String) (x : ℚ),
      (legFrom geo last (DeliveryCommand.proceed d n x) rest).filterMap
        DeliveryCommand.deliveredItem = [] := by
  intro rest
  induction rest with
  | nil => intro last d n x; simp [legFrom, DeliveryCommand.deliveredItem]
  | cons here rest ih =>
    intro last d n x
    unfold legFrom
    by_cases hname : here.name = last.name
    · rw [if_pos hname]
      exact ih _ _ _ _
    · rw [if_neg hname]
      by_cases hangle : geo.angleBetween2Lines last here < 1 ∨
          geo.angleBetween2Lines last here > 359
      · rw [if_pos hangle]
        simp only [List.filterMap_cons, DeliveryCommand.deliveredItem, proceedFor]
        exact ih _ _ _ _
      · rw [if_neg hangle]
        simp only [List.filterMap_cons, DeliveryCommand.deliveredItem, proceedFor]
        exact ih _ _ _ _

theorem legCommands_deliver (geo : Geometry) (route : List StreetSegment) :
    (legCommands geo route).filterMap DeliveryCommand.deliveredItem = [] := by
  cases route with
  | nil => simp [legCommands_nil]
  | cons segment rest =>
    rw [legCommands_cons]
    exact legFrom_deliver geo rest segment _ _ _

/-- What follows a Turn among the commands of the rest of a leg: the Proceed for the
segment `here` the Turn was emitted at, carrying the length of its whole street run. -/
theorem legFrom_turn_followed (geo : Geometry) :
    ∀ (rest : List StreetSegment) (last : StreetSegment) (d n : String) (x : ℚ)
      (before after : List DeliveryCommand) (dir name : String),
      legFrom geo last (DeliveryCommand.proceed d n x) rest =
        before ++ DeliveryCommand.turn dir name :: after →
      ∃ pre here rest' tail, rest = pre ++ here :: rest' ∧ here.name = name ∧
        after = DeliveryCommand.proceed (generateProceed (geo.angleOfLine here)) name
          (((streetRun here rest').map (getLength geo.dist)).sum) :: tail := by
  intro rest
  induction rest with
  | nil =>
    intro last d n x before after dir name h
    simp only [legFrom] at h
    cases before with
    | nil => simp at h
    | cons b bs =>
      simp only [List.cons_append, List.cons.injEq] at h
      have := h.2
      simp at this
  | cons here rest ih =>
    intro last d n x before after dir name h
    unfold legFrom at h
    by_cases hname : here.name = last.name
    · rw [if_pos hname] at h
      obtain ⟨pre, here', rest', tail, hr, hn, ha⟩ := ih _ _ _ _ _ _ _ _ h
      exact ⟨here :: pre, here', rest', tail, by rw [hr]; rfl, hn, ha⟩
    · rw [if_neg hname] at h
      by_cases hangle : geo.angleBetween2Lines last here < 1 ∨
          geo.angleBetween2Lines last here > 359
      · rw [if_pos hangle] at h
        cases before with
        | nil => simp at h
        | cons b bs =>
          simp only [List.cons_append, List.cons.injEq] at h
          obtain ⟨pre, here', rest', tail, hr, hn, ha⟩ := ih _ _ _ _ _ _ _ _ h.2
          exact ⟨here :: pre, here', rest', tail, by rw [hr]; rfl, hn, ha⟩
      · rw [if_neg hangle] at h
        cases before with
        | nil => simp at h
        | cons b bs =>
          simp only [List.cons_append, List.cons.injEq] at h
          cases bs with
          | nil =>
            simp only [List.nil_append, List.cons.injEq, DeliveryCommand.turn.injEq] at h
            obtain ⟨-, ⟨-, hn⟩, ha⟩ := h
            obtain ⟨tail, ht⟩ := legFrom_head geo rest here
              (generateProceed (geo.angleOfLine here)) here.name (getLength geo.dist here)
            refine ⟨[], here, rest, tail, rfl, hn, ?_⟩
            rw [← ha]
            unfold proceedFor
            rw [ht, ← hn]
            simp [streetRun]
          | cons b' bs' =>
            simp only [List.cons_append, List.cons.injEq] at h
            obtain ⟨pre, here', rest', tail, hr, hn, ha⟩ := ih _ _ _ _ _ _ _ _ h.2.2
            exact ⟨here :: pre, here', rest', tail, by rw [hr]; rfl, hn, ha⟩

theorem legCommands_turn_followed (geo : Geometry) (route : List StreetSegment)
    (before after : List DeliveryCommand) (dir name : String)
    (h : legCommands geo route = before ++ DeliveryCommand.turn dir name :: after) :
    ∃ pre here rest tail, route = pre ++ here :: rest ∧ here.name = name ∧
      after = DeliveryCommand.proceed (generateProceed (geo.angleOfLine here)) name
        (((streetRun here rest).map (getLength geo.dist)).sum) :: tail := by
  cases route with
  | nil =>
    rw [legCommands_nil] at h
    simp at h
  | cons segment rest =>
    rw [legCommands_cons] at h
    obtain ⟨pre, here, rest', tail, hr, hn, ha⟩ :=
      legFrom_turn_followed geo rest segment _ _ _ _ _ _ _ h
    exact ⟨segment :: pre, here, rest', tail, by rw [hr]; rfl, hn, ha⟩

/-! ### The commands of a plan -/

theorem planCommands_distance (geo : Geometry) :
    ∀ (deliveries : List DeliveryRequest) (routes : List (List StreetSegment)),
      routes.length = deliveries.length + 1 →
      ((planCommands geo deliveries routes).map DeliveryCommand.proceedDistance).sum =
        (routes.map (routeLength geo.dist)).sum := by
  intro deliveries
  induction deliveries with
  | nil =>
    intro routes hlen
    match routes, hlen with
    | [route], _ => simp [planCommands, legCommands_distance]
  | cons d deliveries ih =>
    intro routes hlen
    match routes, hlen with
    | route :: routes, hlen =>
      simp only [List.length_cons, add_left_inj] at hlen
      simp only [planCommands, List.map_append, List.map_cons, List.sum_append, List.sum_cons,
        legCommands_distance, DeliveryCommand.proceedDistance, zero_add, ih routes hlen]

theorem planCommands_delivered (geo : Geometry) :
    ∀ (deliveries : List DeliveryRequest) (routes : List (List StreetSegment)),
      routes.length = deliveries.length + 1 →
      (planCommands geo deliveries routes).filterMap DeliveryCommand.deliveredItem =
        deliveries.map DeliveryRequest.item := by
  intro deliveries
  induction deliveries with
  | nil =>
    intro routes hlen
    match routes, hlen with
    | [route], _ => simp [planCommands, legCommands_deliver]
  | cons d deliveries ih =>
    intro routes hlen
    match routes, hlen with
    | route :: routes, hlen =>
      simp only [List.length_cons, add_left_inj] at hlen
      simp only [planCommands, List.filterMap_append, List.filterMap_cons,
        legCommands_deliver, DeliveryCommand.deliveredItem, List.nil_append, List.map_cons,
        ih routes hlen]

theorem planCommands_mem (geo : Geometry) :
    ∀ (deliveries : List DeliveryRequest) (routes : List (List StreetSegment))
      (c : DeliveryCommand), c ∈ planCommands geo deliveries routes →
      (∃ route, route ∈ routes ∧ c ∈ legCommands geo route) ∨
        ∃ d, d ∈ deliveries ∧ c = DeliveryCommand.deliver d.item := by
  intro deliveries
  induction deliveries with
  | nil =>
    intro routes c h
    cases routes with
    | nil => simp [planCommands] at h
    | cons route routes =>
      simp only [planCommands] at h
      exact Or.inl ⟨route, List.mem_cons_self _ _, h⟩
  | cons d deliveries ih =>
    intro routes c h
    cases routes with
    | nil => simp [planCommands] at h
    | cons route routes =>
      simp only [planCommands, List.mem_append, List.mem_cons] at h
      rcases h with h | h | h
      · exact Or.inl ⟨route, List.mem_cons_self _ _, h⟩
      · exact Or.inr ⟨d, List.mem_cons_self _ _, h⟩
      · rcases ih routes c h with ⟨r, hr, hc⟩ | ⟨d', hd', hc⟩
        · exact Or.inl ⟨r, List.mem_cons_of_mem _ hr, hc⟩
        · exact Or.inr ⟨d', List.mem_cons_of_mem _ hd', hc⟩

theorem planCommands_turn_followed (geo : Geometry) :
    ∀ (deliveries : List DeliveryRequest) (routes : List (List StreetSegment))
      (before after : List DeliveryCommand) (dir name : String),
      planCommands geo deliveries routes = before ++ DeliveryCommand.turn dir name :: after →
      ∃ route, route ∈ routes ∧ ∃ pre here rest tail, route = pre ++ here :: rest ∧
        here.name = name ∧
        after = DeliveryCommand.proceed (generateProceed (geo.angleOfLine here)) name
          (((streetRun here rest).map (getLength geo.dist)).sum) :: tail := by
  intro deliveries
  induction deliveries with
  | nil =>
    intro routes before after dir name h
    cases routes with
    | nil => simp [planCommands] at h
    | cons route routes =>
      simp only [planCommands] at h
      exact ⟨route, List.mem_cons_self _ _, legCommands_turn_followed geo route _ _ _ _ h⟩
  | cons d deliveries ih =>
    intro routes before after dir name h
    cases routes with
    | nil => simp [planCommands] at h
    | cons route routes =>
      simp only [planCommands] at h
      rcases List.append_eq_append_iff.1 h with ⟨a', hb, ha⟩ | ⟨c', hl, hc⟩
      · cases a' with
        | nil => simp at ha
        | cons a as =>
          simp only [List.cons_append, List.cons.injEq] at ha
          obtain ⟨r, hr, hrest⟩ := ih routes as after dir name ha.2
          exact ⟨r, List.mem_cons_of_mem _ hr, hrest⟩
      · cases c' with
        | nil => simp at hc
        | cons c cs =>
          simp only [List.cons_append, List.cons.injEq] at hc
          obtain ⟨hc1, hc2⟩ := hc
          subst hc1
          obtain ⟨pre, here, rest, tail, hr, hn, ha⟩ :=
            legCommands_turn_followed geo route before cs dir name hl
          refine ⟨route, List.mem_cons_self _ _, pre, here, rest,
            tail ++ DeliveryCommand.deliver d.item :: planCommands geo deliveries routes,
            hr, hn, ?_⟩
          rw [hc2, ha]
          rfl

/-- Every Turn of a command list that `generateDeliveryPlan` hands back was built by
`generateTurn` from an angle for which the test `direction < 1 || direction > 359`
fails. -/
theorem plan_turn (pop : Pop) (geo : Geometry) (sm : StreetMap)
    (depot : GeoCoord) (deliveries : List DeliveryRequest) (draws : List Nat) (fuel : Nat)
    (out : PlanOutcome)
    (h : generateDeliveryPlan pop geo sm depot deliveries draws fuel = some out)
    (dir name : String) (hmem : DeliveryCommand.turn dir name ∈ out.commands) :
    ∃ angle : Angle, ¬ (angle < 1 ∨ angle > 359) ∧ dir = generateTurnOf angle := by
  obtain ⟨opt, hopt, hcase⟩ := generateDeliveryPlan_char pop geo sm depot deliveries draws fuel
    out h
  rcases hcase with ⟨-, outs, -, -, hcommands⟩ | ⟨-, hnil⟩
  · rw [hcommands] at hmem
    rcases planCommands_mem geo _ _ _ hmem with ⟨route, -, hc⟩ | ⟨d, -, hc⟩
    · exact legCommands_turn geo route dir name hc
    · cases hc
  · rw [hnil] at hmem
    exact absurd hmem (List.not_mem_nil _)

theorem isRoute_mem {sm : StreetMap} :
    ∀ {r : List StreetSegment} {a b : GeoCoord}, IsRoute sm a b r →
      ∀ s, s ∈ r → HasSegment sm s := by
  intro r
  induction r with
  | nil => intro a b _ s hs; exact absurd hs (List.not_mem_nil _)
  | cons x r ih =>
    intro a b h s hs
    obtain ⟨-, hx, hr⟩ := h
    rcases List.mem_cons.1 hs with rfl | hs
    · exact hx
    · exact ih hr s hs

/-- On a well-formed table the routes of successful legs are as long as the distances
reported for them. -/
theorem legs_route_length {pop : Pop} {dist : GeoCoord → GeoCoord → ℚ} {sm : StreetMap}
    (hpop : PopSpec pop) (hd : IsDistance dist) (hwf : WellFormed sm) {fuel : Nat}
    {legs : List (GeoCoord × GeoCoord)} {outs : List RouteOutcome}
    (h : List.Forall₂ (LegSucceeds pop dist sm fuel) legs outs) :
    ((outs.map RouteOutcome.route).map (routeLength dist)).sum =
      (outs.map RouteOutcome.totalDistanceTravelled).sum := by
  induction h with
  | nil => rfl
  | cons hleg _ ih =>
    simp only [List.map_cons, List.sum_cons, ih]
    rw [(generate_success hpop hd hwf hleg.1 hleg.2).2.1]

theorem tourLegs_length (depot : GeoCoord) (deliveries : List DeliveryRequest) :
    (tourLegs depot deliveries).length = deliveries.length + 1 := by
  simp [tourLegs, deliveryLegs_length]

/-! ### The annealing loop -/

theorem annealLoop_succ (dist : GeoCoord → GeoCoord → ℚ) (depot : GeoCoord) (n fuel : Nat)
    (s : AnnealState) :
    annealLoop dist depot n (fuel + 1) s =
      if s.noImprove < n then (annealStep dist depot s).bind (annealLoop dist depot n fuel)
      else some s := by
  rw [annealLoop]
  by_cases hn : s.noImprove < n
  · simp only [hn, if_true, annealStep]
    cases hp : permute s.p s.draws with
    | none => rfl
    | some r =>
      obtain ⟨p, newP, draws⟩ := r
      simp only
      by_cases h1 : findCrowDistance dist depot newP < findCrowDistance dist depot s.p
      · simp only [h1, if_true]
        by_cases h2 : findCrowDistance dist depot newP < s.minCost
        · simp only [h2, if_true, Option.some_bind]
        · simp only [h2, if_false, Option.some_bind]
      · simp only [h1, if_false]
        cases draws with
        | nil => rfl
        | cons r draws' => simp only [Option.some_bind]
  · simp only [hn, if_false]

theorem swapRequests_eq (first second : DeliveryRequest) :
    swapRequests first second = (second, first) := rfl

theorem perm_cons_set {α : Type} (x b : α) :
    ∀ (xs : List α) (j : Nat), xs[j]? = some b → List.Perm (b :: xs.set j x) (x :: xs) := by
  intro xs
  induction xs with
  | nil => intro j h; simp at h
  | cons y ys ih =>
    intro j h
    cases j with
    | zero =>
      simp only [List.getElem?_cons_zero, Option.some.injEq] at h
      subst h
      exact List.Perm.swap _ _ _
    | succ k =>
      simp only [List.getElem?_cons_succ] at h
      simp only [List.set_cons_succ]
      exact (List.Perm.swap y b _).trans (((ih k h).cons y).trans (List.Perm.swap x y ys))

/-- Exchanging the entries at two different positions rearranges the list. -/
theorem perm_set_set {α : Type} :
    ∀ (l : List α) (i j : Nat) (a b : α), i ≠ j → l[i]? = some a → l[j]? = some b →
      List.Perm ((l.set i b).set j a) l := by
  intro l
  induction l with
  | nil => intro i j a b _ h; simp at h
  | cons x xs ih =>
    intro i j a b hij hi hj
    cases i with
    | zero =>
      cases j with
      | zero => exact absurd rfl hij
      | succ j' =>
        simp only [List.getElem?_cons_zero, Option.some.injEq] at hi
        simp only [List.getElem?_cons_succ] at hj
        subst hi
        simp only [List.set_cons_zero, List.set_cons_succ]
        exact perm_cons_set x b xs j' hj
    | succ i' =>
      cases j with
      | zero =>
        simp only [List.getElem?_cons_zero, Option.some.injEq] at hj
        simp only [List.getElem?_cons_succ] at hi
        subst hj
        simp only [List.set_cons_zero, List.set_cons_succ]
        exact perm_cons_set x a xs i' hi
      | succ j' =>
        simp only [List.getElem?_cons_succ] at hi hj
        simp only [List.set_cons_succ]
        exact (ih i' j' a b (fun h => hij (by rw [h])) hi hj).cons x

theorem drawDistinct_ne (deliveryCount : Nat) :
    ∀ (draws : List Nat) (rand1 rand2 : Nat) (rest : List Nat),
      drawDistinct deliveryCount draws = some (rand1, rand2, rest) → rand1 ≠ rand2 := by
  intro draws
  induction draws using drawDistinct.induct deliveryCount with
  | case1 r1 r2 rest heq ih =>
    intro rand1 rand2 rest' h
    rw [drawDistinct, if_pos heq] at h
    exact ih _ _ _ h
  | case2 r1 r2 rest hne =>
    intro rand1 rand2 rest' h
    rw [drawDistinct, if_neg hne] at h
    simp only [Option.some.injEq, Prod.mk.injEq] at h
    obtain ⟨h1, h2, -⟩ := h
    rw [← h1, ← h2]
    exact hne
  | case3 draws hno =>
    intro rand1 rand2 rest' h
    unfold drawDistinct at h
    split at h
    · exact absurd rfl (hno _ _ _)
    · cases h

/-- The function `permute` leaves in its reference parameter the list it returns, a
rearrangement of the list it was given, and not an empty one. -/
theorem permute_perm (deliveries : List DeliveryRequest) (draws : List Nat)
    (p newP : List DeliveryRequest) (rest : List Nat)
    (h : permute deliveries draws = some (p, newP, rest)) :
    p = newP ∧ List.Perm newP deliveries ∧ newP ≠ [] := by
  unfold permute at h
  simp only at h
  by_cases h1 : deliveries.length = 1
  · rw [if_pos h1] at h
    simp only [Option.some.injEq, Prod.mk.injEq] at h
    obtain ⟨rfl, rfl, -⟩ := h
    refine ⟨rfl, List.Perm.refl _, ?_⟩
    intro hnil
    rw [hnil] at h1
    simp at h1
  · rw [if_neg h1] at h
    by_cases h0 : deliveries.length = 0
    · rw [if_pos h0] at h
      cases h
    · rw [if_neg h0] at h
      cases hd : drawDistinct deliveries.length draws with
      | none => rw [hd] at h; cases h
      | some r =>
        obtain ⟨rand1, rand2, rest'⟩ := r
        rw [hd] at h
        simp only at h
        cases hf : deliveries[rand1]? with
        | none => rw [hf] at h; cases h
        | some first =>
          cases hs : deliveries[rand2]? with
          | none => rw [hf, hs] at h; cases h
          | some second =>
            rw [hf, hs] at h
            simp only [swapRequests_eq, Option.some.injEq, Prod.mk.injEq] at h
            obtain ⟨rfl, rfl, -⟩ := h
            have hperm := perm_set_set deliveries rand1 rand2 first second
              (drawDistinct_ne _ _ _ _ _ hd) hf hs
            refine ⟨rfl, hperm, ?_⟩
            intro hnil
            have := hperm.length_eq
            rw [hnil] at this
            exact h0 this.symm

/-- What one pass of the annealing loop does to `p`, `bestTour` and `minCost`. -/
theorem annealStep_cases (dist : GeoCoord → GeoCoord → ℚ) (depot : GeoCoord)
    (s s' : AnnealState) (h : annealStep dist depot s = some s') :
    ∃ newP draws, permute s.p s.draws = some (newP, newP, draws) ∧ s'.p = newP ∧
      ((findCrowDistance dist depot newP < findCrowDistance dist depot s.p ∧
          findCrowDistance dist depot newP < s.minCost ∧ s'.bestTour = newP ∧
          s'.minCost = findCrowDistance dist depot newP) ∨
        (s'.bestTour = s.bestTour ∧ s'.minCost = s.minCost ∧
          (¬ findCrowDistance dist depot newP < findCrowDistance dist depot s.p ∨
            ¬ findCrowDistance dist depot newP < s.minCost))) := by
  unfold annealStep at h
  simp only at h
  cases hp : permute s.p s.draws with
  | none => rw [hp] at h; cases h
  | some r =>
    obtain ⟨p, newP, draws⟩ := r
    obtain ⟨rfl, -, -⟩ := permute_perm _ _ _ _ _ hp
    rw [hp] at h
    simp only at h
    refine ⟨p, draws, rfl, ?_⟩
    by_cases h1 : findCrowDistance dist depot p < findCrowDistance dist depot s.p
    · rw [if_pos h1] at h
      by_cases h2 : findCrowDistance dist depot p < s.minCost
      · rw [if_pos h2] at h
        cases h
        exact ⟨rfl, Or.inl ⟨h1, h2, rfl, rfl⟩⟩
      · rw [if_neg h2] at h
        cases h
        exact ⟨rfl, Or.inr ⟨rfl, rfl, Or.inr h2⟩⟩
    · rw [if_neg h1] at h
      cases draws with
      | nil => cases h
      | cons r draws' =>
        simp only [Option.some.injEq] at h
        subst h
        exact ⟨by simp, Or.inr ⟨rfl, rfl, Or.inl h1⟩⟩

theorem annealTrace_succ (dist : GeoCoord → GeoCoord → ℚ) (depot : GeoCoord) (n fuel : Nat)
    (s s' : AnnealState) (newP : List DeliveryRequest) (draws : List Nat)
    (hn : s.noImprove < n) (hp : permute s.p s.draws = some (newP, newP, draws))
    (hs : annealStep dist depot s = some s') :
    annealTrace dist depot n (fuel + 1) s =
      (annealTrace dist depot n fuel s').map
        (fun t => (findCrowDistance dist depot s.p, findCrowDistance dist depot newP) :: t) := by
  rw [annealTrace, if_pos hn, hp, hs]

/-- The list in `bestTour` is empty or a rearrangement of the input, all along the
loop. -/
theorem annealLoop_perm (dist : GeoCoord → GeoCoord → ℚ) (depot : GeoCoord) (n : Nat)
    (deliveries : List DeliveryRequest) :
    ∀ (fuel : Nat) (s s' : AnnealState), annealLoop dist depot n fuel s = some s' →
      List.Perm s.p deliveries → (s.bestTour = [] ∨ List.Perm s.bestTour deliveries) →
      s'.bestTour = [] ∨ List.Perm s'.bestTour deliveries := by
  intro fuel
  induction fuel with
  | zero => intro s s' h; simp [annealLoop] at h
  | succ fuel ih =>
    intro s s' h hp hb
    rw [annealLoop_succ] at h
    by_cases hn : s.noImprove < n
    · rw [if_pos hn] at h
      cases hs : annealStep dist depot s with
      | none => rw [hs] at h; cases h
      | some s1 =>
        rw [hs, Option.some_bind] at h
        obtain ⟨newP, draws, hperm, hp1, hcase⟩ := annealStep_cases dist depot s s1 hs
        have hnew : List.Perm newP deliveries :=
          ((permute_perm _ _ _ _ _ hperm).2.1).trans hp
        refine ih s1 s' h (by rw [hp1]; exact hnew) ?_
        rcases hcase with ⟨-, -, hbest, -⟩ | ⟨hbest, -, -⟩
        · right; rw [hbest]; exact hnew
        · rw [hbest]; exact hb
    · rw [if_neg hn] at h
      cases h
      exact hb

/-- Once a list has been recorded in `bestTour`, the loop does not empty it. -/
theorem annealLoop_keep (dist : GeoCoord → GeoCoord → ℚ) (depot : GeoCoord) (n : Nat) :
    ∀ (fuel : Nat) (s s' : AnnealState), annealLoop dist depot n fuel s = some s' →
      s.bestTour ≠ [] → s'.bestTour ≠ [] := by
  intro fuel
  induction fuel with
  | zero => intro s s' h; simp [annealLoop] at h
  | succ fuel ih =>
    intro s s' h hb
    rw [annealLoop_succ] at h
    by_cases hn : s.noImprove < n
    · rw [if_pos hn] at h
      cases hs : annealStep dist depot s with
      | none => rw [hs] at h; cases h
      | some s1 =>
        rw [hs, Option.some_bind] at h
        obtain ⟨newP, draws, hperm, -, hcase⟩ := annealStep_cases dist depot s s1 hs
        refine ih s1 s' h ?_
        rcases hcase with ⟨-, -, hbest, -⟩ | ⟨hbest, -, -⟩
        · rw [hbest]; exact (permute_perm _ _ _ _ _ hperm).2.2
        · rw [hbest]; exact hb
    · rw [if_neg hn] at h
      cases h
      exact hb

/-- The trace is there whenever the loop returns. -/
theorem annealTrace_returns (dist : GeoCoord → GeoCoord → ℚ) (depot : GeoCoord) (n : Nat) :
    ∀ (fuel : Nat) (s s' : AnnealState), annealLoop dist depot n fuel s = some s' →
      ∃ t, annealTrace dist depot n fuel s = some t := by
  intro fuel
  induction fuel with
  | zero => intro s s' h; simp [annealLoop] at h
  | succ fuel ih =>
    intro s s' h
    rw [annealLoop_succ] at h
    by_cases hn : s.noImprove < n
    · rw [if_pos hn] at h
      cases hs : annealStep dist depot s with
      | none => rw [hs] at h; cases h
      | some s1 =>
        rw [hs, Option.some_bind] at h
        obtain ⟨newP, draws, hperm, -, -⟩ := annealStep_cases dist depot s s1 hs
        obtain ⟨t, ht⟩ := ih s1 s' h
        rw [annealTrace_succ dist depot n fuel s s1 newP draws hn hperm hs, ht]
        exact ⟨_, rfl⟩
    · exact ⟨[], by rw [annealTrace, if_neg hn]⟩

/-- While nothing has been recorded, `bestTour` stays empty exactly as long as no pass
finds its candidate strictly cheaper than the list it was derived from. -/
theorem annealLoop_trace (dist : GeoCoord → GeoCoord → ℚ) (depot : GeoCoord) (n : Nat)
    (deliveries : List DeliveryRequest)
    (hbound : ∀ tour, List.Perm tour deliveries → findCrowDistance dist depot tour < DBL_MAX) :
    ∀ (fuel : Nat) (s s' : AnnealState), annealLoop dist depot n fuel s = some s' →
      List.Perm s.p deliveries → s.bestTour = [] → s.minCost = DBL_MAX →
      ∃ trace, annealTrace dist depot n fuel s = some trace ∧
        (s'.bestTour = [] ↔ ∀ c, c ∈ trace → ¬ c.2 < c.1) := by
  intro fuel
  induction fuel with
  | zero => intro s s' h; simp [annealLoop] at h
  | succ fuel ih =>
    intro s s' h hp hb hmin
    rw [annealLoop_succ] at h
    by_cases hn : s.noImprove < n
    · rw [if_pos hn] at h
      cases hs : annealStep dist depot s with
      | none => rw [hs] at h; cases h
      | some s1 =>
        rw [hs, Option.some_bind] at h
        obtain ⟨newP, draws, hperm, hp1, hcase⟩ := annealStep_cases dist depot s s1 hs
        have hnew : List.Perm newP deliveries :=
          ((permute_perm _ _ _ _ _ hperm).2.1).trans hp
        rw [annealTrace_succ dist depot n fuel s s1 newP draws hn hperm hs]
        rcases hcase with ⟨hlt, -, hbest, -⟩ | ⟨hbest, hmin1, hno⟩
        · have hne : s'.bestTour ≠ [] :=
            annealLoop_keep dist depot n fuel s1 s' h
              (by rw [hbest]; exact (permute_perm _ _ _ _ _ hperm).2.2)
          obtain ⟨t, ht⟩ := annealTrace_returns dist depot n fuel s1 s' h
          refine ⟨_, by rw [ht]; rfl, ?_⟩
          constructor
          · intro h0; exact absurd h0 hne
          · intro hall
            exact absurd hlt (hall _ (List.mem_cons_self _ _))
        · have hcur : ¬ findCrowDistance dist depot newP < findCrowDistance dist depot s.p := by
            rcases hno with hno | hno
            · exact hno
            · exact absurd (by rw [hmin]; exact hbound newP hnew) hno
          obtain ⟨t, ht, hiff⟩ := ih s1 s' h (by rw [hp1]; exact hnew)
            (by rw [hbest]; exact hb) (by rw [hmin1]; exact hmin)
          refine ⟨_, by rw [ht]; rfl, ?_⟩
          rw [hiff]
          constructor
          · intro hall c hc
            rcases List.mem_cons.1 hc with rfl | hc
            · exact hcur
            · exact hall c hc
          · intro hall c hc
            exact hall c (List.mem_cons_of_mem _ hc)
    · rw [if_neg hn] at h
      cases h
      exact ⟨[], by rw [annealTrace, if_neg hn], by simp [hb]⟩

/-! ### The predecessor chain -/

theorem traceRoute_unique {sm : StreetMap} {p : ExpandableHashMap GeoCoord GeoCoord}
    {start : GeoCoord} {E : List GeoCoord} {v : GeoCoord} {r : List StreetSegment}
    (h : TraceRoute sm p start E v r) :
    ∀ {r' : List StreetSegment}, TraceRoute sm p start E v r' → r = r' := by
  induction h with
  | base =>
    intro r' h'
    cases h' with
    | base => rfl
    | step hne _ _ _ _ _ => exact absurd rfl hne
  | @step v u segs it r hne hprev hu hsegs hit _ ih =>
    intro r' h'
    cases h' with
    | base => exact absurd rfl hne
    | @step _ u' segs' it' r'' _ hprev' _ hsegs' hit' htr' =>
      rw [hprev] at hprev'
      cases hprev'
      rw [hsegs] at hsegs'
      cases hsegs'
      rw [hit] at hit'
      cases hit'
      rw [ih htr']

/-- The coordinates the reconstruction loop passes through, from `v` down to `start`: no
coordinate comes twice, and each step goes to the recorded predecessor along a stored
segment. -/
theorem traceRoute_chain {sm : StreetMap} {p : ExpandableHashMap GeoCoord GeoCoord}
    {start : GeoCoord} {E : List GeoCoord} {v : GeoCoord} {r : List StreetSegment}
    (h : TraceRoute sm p start E v r) :
    ∃ chain : List GeoCoord, chain.head? = some v ∧ chain.getLast? = some start ∧
      List.Chain' (TraceStep sm p) chain ∧ chain.length = r.length + 1 ∧ chain.Nodup ∧
      ∀ x, x ∈ chain → ∃ rx, TraceRoute sm p start E x rx ∧ rx.length ≤ r.length := by
  induction h with
  | base =>
    refine ⟨[start], rfl, rfl, List.chain'_singleton _, rfl, List.nodup_singleton _, ?_⟩
    intro x hx
    rw [List.mem_singleton] at hx
    subst hx
    exact ⟨[], TraceRoute.base, le_refl _⟩
  | @step v u segs it r hne hprev hu hsegs hit htr ih =>
    obtain ⟨chain, hhead, hlast, hchain, hlen, hnodup, hmem⟩ := ih
    have hsteps : TraceStep sm p v u :=
      ⟨hprev, segs, hsegs, it, List.mem_of_find?_eq_some hit, by
        have := List.find?_some hit
        simpa using this⟩
    have hfull : TraceRoute sm p start E v (r ++ [reverseSegment it]) :=
      TraceRoute.step hne hprev hu hsegs hit htr
    cases chain with
    | nil => simp at hhead
    | cons c cs =>
      simp only [List.head?_cons, Option.some.injEq] at hhead
      subst hhead
      refine ⟨v :: c :: cs, rfl, ?_, List.Chain'.cons hsteps hchain, ?_, ?_, ?_⟩
      · rw [List.getLast?_cons_cons]
        exact hlast
      · simp only [List.length_cons, List.length_append, List.length_nil] at hlen ⊢
        omega
      · refine List.nodup_cons.2 ⟨?_, hnodup⟩
        intro hv
        obtain ⟨rx, hrx, hle⟩ := hmem v hv
        have := traceRoute_unique hfull hrx
        rw [← this] at hle
        simp only [List.length_append, List.length_cons, List.length_nil] at hle
        omega
      · intro x hx
        rcases List.mem_cons.1 hx with rfl | hx
        · exact ⟨_, hfull, le_refl _⟩
        · obtain ⟨rx, hrx, hle⟩ := hmem x hx
          refine ⟨rx, hrx, ?_⟩
          simp only [List.length_append, List.length_cons, List.length_nil]
          omega

/-- The invariant of the search loop holds at every test of its condition. -/
theorem searchStates_inv {pop : Pop} {dist : GeoCoord → GeoCoord → ℚ} {sm : StreetMap}
    {start end_ : GeoCoord} (hpop : PopSpec pop) (hd : IsDistance dist) (hwf : WellFormed sm) :
    ∀ (passes B : Nat) (E : List GeoCoord) (st st' : SearchState),
      SearchInv dist sm start end_ E [] B st →
      searchStates pop dist sm end_ passes st = some st' →
      ∃ E' B', SearchInv dist sm start end_ E' [] B' st' := by
  intro passes
  induction passes with
  | zero =>
    intro B E st st' inv h
    simp only [searchStates, Option.some.injEq] at h
    subst h
    exact ⟨E, B, inv⟩
  | succ k ih =>
    intro B E st st' inv h
    unfold searchStates at h
    cases hp : pop st.nodes with
    | none => rw [hp] at h; cases h
    | some pr =>
      obtain ⟨top, rest⟩ := pr
      rw [hp] at h
      simp only at h
      obtain ⟨gu, hgu, -⟩ := popped_optimal hpop hd inv hp
      by_cases hcur : top.1 = end_
      · rw [if_pos hcur] at h
        cases h
      · rw [if_neg hcur] at h
        obtain ⟨segs, hsegs⟩ := inv.seen_key top.1 gu hgu
        simp only [StreetMapImpl.getSegmentsThatStartWith, hsegs] at h
        by_cases hE : top.1 ∈ E
        · have inv' := pop_stale hpop inv hp hE segs
          have hno : relaxAll dist end_ top.1 segs
              { segs := segs, prevs := st.prevs, gCost := st.gCost, nodes := rest } =
              some { segs := segs, prevs := st.prevs, gCost := st.gCost, nodes := rest } := by
            refine relaxAll_noop dist end_ top.1 gu segs
              { segs := segs, prevs := st.prevs, gCost := st.gCost, nodes := rest } hgu ?_
            intro it hit
            have hst : it.start = top.1 := hwf.start_eq _ _ _ hsegs hit
            have hhas : HasSegment sm it := ⟨segs, by rw [hst]; exact hsegs, hit⟩
            have := inv.closed_edges it hhas (by rw [hst]; exact hE) (List.not_mem_nil _) gu
              (by rw [hst]; exact hgu)
            rw [hst] at this
            exact this
          rw [hno] at h
          exact ih (B - 1) E _ st' inv' h
        · have inv1 := pop_new hpop hd inv hp hE hcur hsegs
          obtain ⟨st1, hrel, inv'⟩ := relaxAll_inv hd hwf top.1 (List.mem_cons_self _ _) segs _
            (fun s hs => by
              have hst : s.start = top.1 := hwf.start_eq _ _ _ hsegs hs
              exact ⟨⟨segs, by rw [hst]; exact hsegs, hs⟩, hst⟩) inv1
          rw [hrel] at h
          exact ih (B - 1) _ st1 st' inv' h

/-- The search loop entered in the state `st` carries on from the state reached after
`passes` passes. -/
theorem searchLoop_searchStates (pop : Pop) (dist : GeoCoord → GeoCoord → ℚ) (sm : StreetMap)
    (start end_ : GeoCoord) (bound : Nat) :
    ∀ (passes fuel : Nat) (st st' : SearchState),
      searchStates pop dist sm end_ passes st = some st' →
      searchLoop pop dist sm start end_ bound (passes + fuel) st =
        searchLoop pop dist sm start end_ bound fuel st' := by
  intro passes
  induction passes with
  | zero =>
    intro fuel st st' h
    simp only [searchStates, Option.some.injEq] at h
    subst h
    simp
  | succ k ih =>
    intro fuel st st' h
    unfold searchStates at h
    rw [show k + 1 + fuel = (k + fuel) + 1 by omega]
    rw [searchLoop]
    cases hp : pop st.nodes with
    | none => rw [hp] at h; cases h
    | some pr =>
      obtain ⟨top, rest⟩ := pr
      rw [hp] at h
      simp only at h ⊢
      by_cases hcur : top.1 = end_
      · rw [if_pos hcur] at h
        cases h
      · rw [if_neg hcur] at h ⊢
        cases hg : StreetMapImpl.getSegmentsThatStartWith sm top.1 st.segs with
        | mk flag segs =>
          rw [hg] at h
          cases flag with
          | false => cases h
          | true =>
            simp only at h ⊢
            cases hr : relaxAll dist end_ top.1 segs
                { segs := segs, prevs := st.prevs, gCost := st.gCost, nodes := rest } with
            | none => rw [hr] at h; cases h
            | some st1 =>
              rw [hr] at h
              exact ih fuel st1 st' h

/-! ### Reading the records of a map file -/

namespace IStream

theorem splitLine_append (l rest : List Char) (h : Char.ofNat 10 ∉ l) :
    splitLine (l ++ Char.ofNat 10 :: rest) = (l, some rest) := by
  induction l with
  | nil => simp [splitLine]
  | cons c cs ih =>
    have hc : c ≠ Char.ofNat 10 := fun hc => h (by rw [hc]; exact List.mem_cons_self _ _)
    have hcs : Char.ofNat 10 ∉ cs := fun hm => h (List.mem_cons_of_mem _ hm)
    rw [List.cons_append, splitLine, if_neg hc, ih hcs]

theorem skipSpace_cons (c : Char) (cs : List Char) (h : isSpace c = false) :
    skipSpace (c :: cs) = c :: cs := by
  simp [skipSpace, h]

theorem takeWhileRest_append (p : Char → Bool) (l more : List Char)
    (hl : ∀ c, c ∈ l → p c = true) (hmore : ∀ c cs, more = c :: cs → p c = false) :
    takeWhileRest p (l ++ more) = (l, more) := by
  induction l with
  | nil =>
    cases more with
    | nil => rfl
    | cons c cs => simp [takeWhileRest, hmore c cs rfl]
  | cons c cs ih =>
    have hc : p c = true := hl c (List.mem_cons_self _ _)
    rw [List.cons_append, takeWhileRest, if_pos hc,
      ih (fun x hx => hl x (List.mem_cons_of_mem _ hx))]

theorem isSpace_of_isDigit (c : Char) (h : c.isDigit = true) : isSpace c = false := by
  cases hs : isSpace c with
  | false => rfl
  | true =>
    simp only [isSpace, Bool.or_eq_true, decide_eq_true_eq] at hs
    rcases hs with ((((rfl | rfl) | rfl) | rfl) | rfl) | rfl <;> exact absurd h (by decide)

end IStream

namespace IStream

theorem string_mk_data (w : String) : String.mk w.data = w := rfl

theorem extractWord_first (w : String) (more : List Char) (str : String)
    (hne : w.data ≠ []) (hw : ∀ c, c ∈ w.data → isSpace c = false)
    (hmore : ∀ c cs, more = c :: cs → isSpace c = true) :
    extractWord ⟨w.data ++ more, false, false⟩ str = (⟨more, more.isEmpty, false⟩, w) := by
  have htake := takeWhileRest_append (fun ch => !isSpace ch) w.data more
    (fun c hc => by simp [hw c hc]) (fun c cs h => by simp [hmore c cs h])
  cases hd : w.data with
  | nil => exact absurd hd hne
  | cons c cs =>
    have hc : isSpace c = false := hw c (by rw [hd]; exact List.mem_cons_self _ _)
    rw [hd] at htake
    simp only [extractWord, good, Bool.not_false, Bool.and_self, Bool.not_true,
      Bool.false_eq_true, if_false, List.cons_append]
    rw [skipSpace_cons _ _ hc]
    simp only [← List.cons_append, htake]
    rw [← hd]

theorem extractWord_next (w : String) (more : List Char) (str : String)
    (hne : w.data ≠ []) (hw : ∀ c, c ∈ w.data → isSpace c = false)
    (hmore : ∀ c cs, more = c :: cs → isSpace c = true) :
    extractWord ⟨' ' :: (w.data ++ more), false, false⟩ str =
      (⟨more, more.isEmpty, false⟩, w) := by
  have h := extractWord_first w more str hne hw hmore
  simp only [extractWord, good, Bool.not_false, Bool.and_self, Bool.not_true,
    Bool.false_eq_true, if_false] at h ⊢
  have hs : skipSpace (' ' :: (w.data ++ more)) = skipSpace (w.data ++ more) := by
    simp [skipSpace, isSpace]
  rw [hs]
  exact h

end IStream

namespace StreetRecord

theorem wordOk_ne_newline {stodOk : String → Bool} {w : String} (h : WordOk stodOk w) :
    Char.ofNat 10 ∉ w.data := by
  intro hm
  have := h.2.1 _ hm
  exact absurd this (by decide)

/-- The coordinate line without its newline. -/
theorem lineText_eq (line : String × String × String × String) :
    lineText line =
      (line.1.data ++ ' ' :: (line.2.1.data ++ ' ' :: (line.2.2.1.data ++ ' ' ::
        line.2.2.2.data))) ++ [Char.ofNat 10] := by
  simp [lineText, List.append_assoc]

end StreetRecord

namespace StreetMapImpl

open StreetRecord in
/-- One pass of the `for` loop on a coordinate line of four words: the line is consumed,
the four variables receive its words, and the segment is inserted. -/
theorem readSegment_line (stodOk : String → Bool) (v : LoadVars)
    (line : String × String × String × String) (rest : List Char)
    (h1 : WordOk stodOk line.1) (h2 : WordOk stodOk line.2.1)
    (h3 : WordOk stodOk line.2.2.1) (h4 : WordOk stodOk line.2.2.2)
    (hin : v.infile = ⟨lineText line ++ rest, false, false⟩) :
    ∃ v', readSegment stodOk v = some v' ∧ v'.infile = ⟨rest, false, false⟩ ∧
      v'.streetName = v.streetName ∧ v'.cerr = v.cerr ∧
      v'.m_streets = loadSegment v.m_streets
        ⟨⟨line.1, line.2.1⟩, ⟨line.2.2.1, line.2.2.2⟩, v.streetName⟩ ∧
      v'.coordLat1 = line.1 ∧ v'.coordLon1 = line.2.1 ∧ v'.coordLat2 = line.2.2.1 ∧
      v'.coordLon2 = line.2.2.2 := by
  have hspace : ∀ c cs, (' ' :: cs : List Char) = c :: cs → IStream.isSpace c = true := by
    intro c cs h
    simp only [List.cons.injEq] at h
    rw [← h.1]
    decide
  have hbody : Char.ofNat 10 ∉ (line.1.data ++ ' ' :: (line.2.1.data ++ ' ' ::
      (line.2.2.1.data ++ ' ' :: line.2.2.2.data))) := by
    simp only [List.mem_append, List.mem_cons, not_or]
    exact ⟨wordOk_ne_newline h1, by decide, wordOk_ne_newline h2, by decide,
      wordOk_ne_newline h3, by decide, wordOk_ne_newline h4⟩
  have hline : IStream.getline ⟨lineText line ++ rest, false, false⟩ v.coords =
      (⟨rest, false, false⟩, String.mk (line.1.data ++ ' ' :: (line.2.1.data ++ ' ' ::
        (line.2.2.1.data ++ ' ' :: line.2.2.2.data)))) := by
    rw [lineText_eq, List.append_assoc, List.singleton_append]
    simp only [IStream.getline, IStream.good, Bool.not_false, Bool.and_self, Bool.not_true,
      Bool.false_eq_true, if_false, IStream.splitLine_append _ _ hbody]
  have e1 := IStream.extractWord_first line.1 (' ' :: (line.2.1.data ++ ' ' ::
      (line.2.2.1.data ++ ' ' :: line.2.2.2.data))) v.coordLat1 h1.1 h1.2.1
    (fun c cs h => by simp only [List.cons.injEq] at h; rw [← h.1]; decide)
  have e2 := IStream.extractWord_next line.2.1 (' ' :: (line.2.2.1.data ++ ' ' ::
      line.2.2.2.data)) v.coordLon1 h2.1 h2.2.1
    (fun c cs h => by simp only [List.cons.injEq] at h; rw [← h.1]; decide)
  have e3 := IStream.extractWord_next line.2.2.1 (' ' :: line.2.2.2.data) v.coordLat2 h3.1
    h3.2.1 (fun c cs h => by simp only [List.cons.injEq] at h; rw [← h.1]; decide)
  have e4 := IStream.extractWord_next line.2.2.2 [] v.coordLon2 h4.1 h4.2.1
    (fun c cs h => by cases h)
  rw [List.append_nil] at e4
  simp only [List.isEmpty_cons] at e1 e2 e3
  unfold readSegment
  simp only [hin, hline, IStream.ofString, e1, e2, e3, e4, h1.2.2, h2.2.2, h3.2.2, h4.2.2,
    Bool.and_self, if_true]
  exact ⟨_, rfl, rfl, rfl, rfl, rfl, rfl, rfl, rfl, rfl⟩

end StreetMapImpl

namespace IStream

theorem not_sign_of_isDigit (c : Char) (h : c.isDigit = true) : c ≠ '-' ∧ c ≠ '+' := by
  constructor <;> rintro rfl <;> exact absurd h (by decide)

/-- The extraction of a count written in decimal digits that fits an `int`. -/
theorem extractInt_count (count rest : List Char) (value : Option Int) (hne : count ≠ [])
    (hd : ∀ c, c ∈ count → c.isDigit = true) (hmax : (natOfDigits count : Int) ≤ INT_MAX) :
    extractInt ⟨count ++ Char.ofNat 10 :: rest, false, false⟩ value =
      (⟨Char.ofNat 10 :: rest, false, false⟩, some (natOfDigits count : Int)) := by
  have htake := takeWhileRest_append Char.isDigit count (Char.ofNat 10 :: rest) hd
    (fun c cs h => by simp only [List.cons.injEq] at h; rw [← h.1]; decide)
  cases hc : count with
  | nil => exact absurd hc hne
  | cons c cs =>
    have hcd : c.isDigit = true := hd c (by rw [hc]; exact List.mem_cons_self _ _)
    obtain ⟨hm, hp⟩ := not_sign_of_isDigit c hcd
    rw [hc] at htake
    have hmin : ¬ ((natOfDigits (c :: cs) : Int) < INT_MIN) := by
      have : (0 : Int) ≤ (natOfDigits (c :: cs) : Int) := Int.natCast_nonneg _
      have hneg : INT_MIN < 0 := by decide
      omega
    rw [hc] at hmax
    simp only [extractInt, good, Bool.not_false, Bool.and_self, Bool.not_true,
      Bool.false_eq_true, if_false, List.cons_append]
    rw [skipSpace_cons _ _ (isSpace_of_isDigit c hcd)]
    simp only [hm, hp, or_self, if_false, decide_False, ← List.cons_append, htake,
      List.isEmpty_cons]
    simp [not_lt.2 hmax, hmin]

theorem ignore_newline (rest : List Char) :
    ignore ⟨Char.ofNat 10 :: rest, false, false⟩ = ⟨rest, false, false⟩ := by
  simp [ignore, good, discard]

end IStream

namespace StreetMapImpl

theorem readSegments_add (stodOk : String → Bool) :
    ∀ (a b : Nat) (v : LoadVars),
      readSegments stodOk (a + b) v =
        (readSegments stodOk a v).bind (readSegments stodOk b) := by
  intro a
  induction a with
  | zero => intro b v; simp [readSegments]
  | succ a ih =>
    intro b v
    rw [show a + 1 + b = (a + b) + 1 by omega, readSegments, readSegments]
    cases readSegment stodOk v with
    | none => rfl
    | some v' => exact ih b v'

open StreetRecord in
/-- The `for` loop on as many coordinate lines as it makes passes: the lines are consumed
and their segments inserted in file order; the four variables hold the words of the
last line. -/
theorem readSegments_lines (stodOk : String → Bool) :
    ∀ (lines : List (String × String × String × String)) (v : LoadVars) (rest : List Char),
      (∀ line, line ∈ lines →
        WordOk stodOk line.1 ∧ WordOk stodOk line.2.1 ∧ WordOk stodOk line.2.2.1 ∧
          WordOk stodOk line.2.2.2) →
      v.infile = ⟨(lines.map lineText).flatten ++ rest, false, false⟩ →
      ∃ v', readSegments stodOk lines.length v = some v' ∧ v'.infile = ⟨rest, false, false⟩ ∧
        v'.streetName = v.streetName ∧ v'.cerr = v.cerr ∧
        v'.m_streets = (lines.map (fun line =>
          (⟨⟨line.1, line.2.1⟩, ⟨line.2.2.1, line.2.2.2⟩, v.streetName⟩ : StreetSegment))).foldl
            loadSegment v.m_streets ∧
        ∀ l, lines.getLast? = some l →
          v'.coordLat1 = l.1 ∧ v'.coordLon1 = l.2.1 ∧ v'.coordLat2 = l.2.2.1 ∧
            v'.coordLon2 = l.2.2.2 := by
  intro lines
  induction lines with
  | nil =>
    intro v rest _ hin
    refine ⟨v, rfl, by simpa using hin, rfl, rfl, rfl, ?_⟩
    intro l hl
    simp at hl
  | cons line lines ih =>
    intro v rest hw hin
    obtain ⟨w1, w2, w3, w4⟩ := hw line (List.mem_cons_self _ _)
    rw [List.map_cons, List.flatten_cons, List.append_assoc] at hin
    obtain ⟨v1, hr, hin1, hname1, hcerr1, htab1, hc1, hc2, hc3, hc4⟩ :=
      readSegment_line stodOk v line _ w1 w2 w3 w4 hin
    obtain ⟨v', hrs, hin', hname', hcerr', htab', hlast⟩ :=
      ih v1 rest (fun l hl => hw l (List.mem_cons_of_mem _ hl)) hin1
    refine ⟨v', ?_, hin', hname'.trans hname1, hcerr'.trans hcerr1, ?_, ?_⟩
    · rw [List.length_cons, readSegments, hr]
      exact hrs
    · rw [htab', htab1, hname1, List.map_cons, List.foldl_cons]
    · intro l hl
      cases lines with
      | nil =>
        simp only [List.getLast?_singleton, Option.some.injEq] at hl
        subst hl
        simp only [List.length_nil, readSegments, Option.some.injEq] at hrs
        subst hrs
        exact ⟨hc1, hc2, hc3, hc4⟩
      | cons l2 ls =>
        rw [List.getLast?_cons_cons] at hl
        exact hlast l hl

/-- One pass of the `for` loop once the file has ended: nothing is read, the four
variables keep their words, and the segment they stand for is inserted once more. -/
theorem readSegment_ended (stodOk : String → Bool) (v : LoadVars)
    (hchars : v.infile.chars = []) (hstate : v.infile.good = true ∨ v.coords = "")
    (h1 : stodOk v.coordLat1 = true) (h2 : stodOk v.coordLon1 = true)
    (h3 : stodOk v.coordLat2 = true) (h4 : stodOk v.coordLon2 = true) :
    ∃ v', readSegment stodOk v = some v' ∧ v'.infile.chars = [] ∧ v'.infile.good = false ∧
      v'.coords = "" ∧ v'.streetName = v.streetName ∧ v'.cerr = v.cerr ∧
      v'.coordLat1 = v.coordLat1 ∧ v'.coordLon1 = v.coordLon1 ∧
      v'.coordLat2 = v.coordLat2 ∧ v'.coordLon2 = v.coordLon2 ∧
      v'.m_streets = loadSegment v.m_streets
        ⟨⟨v.coordLat1, v.coordLon1⟩, ⟨v.coordLat2, v.coordLon2⟩, v.streetName⟩ := by
  have hline : (IStream.getline v.infile v.coords).2 = "" ∧
      (IStream.getline v.infile v.coords).1.chars = [] ∧
      (IStream.getline v.infile v.coords).1.good = false := by
    cases hi : v.infile with
    | mk chars e f =>
      rw [hi] at hchars hstate
      simp only at hchars
      subst hchars
      have hempty : String.mk [] = "" := rfl
      cases e <;> cases f <;>
        simp_all [IStream.getline, IStream.good, IStream.splitLine]
  obtain ⟨hl2, hl1, hl3⟩ := hline
  have hwords : ∀ s1 s2 s3 s4 : String,
      (IStream.extractWord (IStream.ofString "") s1).2 = s1 ∧
      (IStream.extractWord (IStream.extractWord (IStream.ofString "") s1).1 s2).2 = s2 ∧
      (IStream.extractWord (IStream.extractWord (IStream.extractWord
        (IStream.ofString "") s1).1 s2).1 s3).2 = s3 ∧
      (IStream.extractWord (IStream.extractWord (IStream.extractWord (IStream.extractWord
        (IStream.ofString "") s1).1 s2).1 s3).1 s4).2 = s4 := by
    intro s1 s2 s3 s4
    simp [IStream.extractWord, IStream.ofString, IStream.good, IStream.skipSpace]
  obtain ⟨e1, e2, e3, e4⟩ := hwords v.coordLat1 v.coordLon1 v.coordLat2 v.coordLon2
  unfold readSegment
  simp only [hl2, e1, e2, e3, e4, h1, h2, h3, h4, Bool.and_self, if_true]
  exact ⟨_, rfl, hl1, hl3, rfl, rfl, rfl, rfl, rfl, rfl, rfl, rfl⟩

/-- The `for` loop once the file has ended: each pass inserts the segment of the last line
read once more. -/
theorem readSegments_ended (stodOk : String → Bool) :
    ∀ (n : Nat) (v : LoadVars), v.infile.chars = [] →
      (v.infile.good = true ∨ v.coords = "") →
      stodOk v.coordLat1 = true → stodOk v.coordLon1 = true → stodOk v.coordLat2 = true →
      stodOk v.coordLon2 = true →
      ∃ v', readSegments stodOk n v = some v' ∧ v'.infile.chars = [] ∧
        (0 < n → v'.infile.good = false) ∧ (n = 0 → v'.infile = v.infile) ∧
        v'.cerr = v.cerr ∧
        v'.m_streets = (List.replicate n
          (⟨⟨v.coordLat1, v.coordLon1⟩, ⟨v.coordLat2, v.coordLon2⟩, v.streetName⟩ :
            StreetSegment)).foldl loadSegment v.m_streets := by
  intro n
  induction n with
  | zero =>
    intro v hchars _ _ _ _ _
    exact ⟨v, rfl, hchars, fun h => absurd h (Nat.lt_irrefl 0), fun _ => rfl, rfl, rfl⟩
  | succ n ih =>
    intro v hchars hstate h1 h2 h3 h4
    obtain ⟨v1, hr, hch1, hg1, hco1, hname1, hcerr1, c1, c2, c3, c4, htab1⟩ :=
      readSegment_ended stodOk v hchars hstate h1 h2 h3 h4
    obtain ⟨v', hrs, hch', hg', hz', hcerr', htab'⟩ := ih v1 hch1 (Or.inr hco1)
      (by rw [c1]; exact h1) (by rw [c2]; exact h2) (by rw [c3]; exact h3)
      (by rw [c4]; exact h4)
    refine ⟨v', ?_, hch', ?_, ?_, hcerr'.trans hcerr1, ?_⟩
    · rw [readSegments, hr]
      exact hrs
    · intro _
      by_cases hn : 0 < n
      · exact hg' hn
      · have hn0 : n = 0 := by omega
        rw [hz' hn0]
        exact hg1
    · intro h
      exact absurd h (Nat.succ_ne_zero n)
    · rw [htab', htab1, c1, c2, c3, c4, hname1, List.replicate_succ, List.foldl_cons]

end StreetMapImpl

namespace StreetMapImpl

open StreetRecord in
/-- One pass of the `while` loop up to its `for` loop, on a record whose name is one line
and whose count is written in digits: the name and the count are read and the rest of
the count line is skipped. -/
theorem loadLoop_header (stodOk : String → Bool) (fuel : Nat) (v : LoadVars)
    (r : StreetRecord) (tail : List Char) (hname : Char.ofNat 10 ∉ r.name.data)
    (hne : r.count ≠ []) (hd : ∀ c, c ∈ r.count → c.isDigit = true)
    (hmax : (r.announced : Int) ≤ IStream.INT_MAX)
    (hin : v.infile =
      ⟨r.name.data ++ Char.ofNat 10 :: (r.count ++ Char.ofNat 10 :: tail), false, false⟩) :
    loadLoop stodOk (fuel + 1) v =
      (readSegments stodOk r.announced
        { infile := ⟨tail, false, false⟩, streetName := r.name,
          streetCount := some (r.announced : Int), coords := v.coords,
          coordLat1 := v.coordLat1, coordLon1 := v.coordLon1, coordLat2 := v.coordLat2,
          coordLon2 := v.coordLon2, m_streets := v.m_streets, cerr := v.cerr }).bind
        (loadLoop stodOk fuel) := by
  have hline : IStream.getline v.infile v.streetName =
      (⟨r.count ++ Char.ofNat 10 :: tail, false, false⟩, r.name) := by
    rw [hin]
    simp only [IStream.getline, IStream.good, Bool.not_false, Bool.and_self, Bool.not_true,
      Bool.false_eq_true, if_false, IStream.splitLine_append _ _ hname]
  have hcount := IStream.extractInt_count r.count tail v.streetCount hne hd hmax
  have hnot : ¬ ((r.announced : Int) < 0) := not_lt.2 (Int.natCast_nonneg _)
  rw [loadLoop]
  simp only [hline, Bool.false_eq_true, if_false, hcount, IStream.ignore_newline]
  simp only [announced] at hnot ⊢
  rw [if_neg hnot, Int.toNat_ofNat]
  cases readSegments stodOk (IStream.natOfDigits r.count) _ with
  | none => rfl
  | some v' => rfl

/-- The `while` loop ends when the stream has nothing left or has failed; the table and
`cerr` stay. -/
theorem loadLoop_ended (stodOk : String → Bool) (fuel : Nat) (v : LoadVars)
    (h : v.infile.good = false ∨ v.infile.chars = []) :
    ∃ v', loadLoop stodOk (fuel + 1) v = some v' ∧ v'.m_streets = v.m_streets ∧
      v'.cerr = v.cerr := by
  have hfail : (IStream.getline v.infile v.streetName).1.failbit = true := by
    cases hi : v.infile with
    | mk chars e f =>
      rw [hi] at h
      cases e <;> cases f <;> simp_all [IStream.getline, IStream.good, IStream.splitLine]
  rw [loadLoop]
  simp only [hfail, if_true]
  exact ⟨_, rfl, rfl, rfl⟩

open StreetRecord in
/-- One pass of the `while` loop on a complete record: the record is consumed and its
segments are inserted in file order. -/
theorem loadLoop_record (stodOk : String → Bool) (fuel : Nat) (v : LoadVars)
    (r : StreetRecord) (rest : List Char) (hr : r.Complete stodOk)
    (hin : v.infile = ⟨r.text ++ rest, false, false⟩) :
    ∃ v', loadLoop stodOk (fuel + 1) v = loadLoop stodOk fuel v' ∧
      v'.infile = ⟨rest, false, false⟩ ∧ v'.cerr = v.cerr ∧
      v'.m_streets = r.segments.foldl loadSegment v.m_streets := by
  obtain ⟨⟨hname, hne, hd, hmax, hw⟩, hlen⟩ := hr
  have hin' : v.infile = ⟨r.name.data ++ Char.ofNat 10 :: (r.count ++ Char.ofNat 10 ::
      ((r.lines.map lineText).flatten ++ rest)), false, false⟩ := by
    rw [hin]
    simp [StreetRecord.text, List.append_assoc]
  rw [loadLoop_header stodOk fuel v r _ hname hne hd hmax hin', ← hlen]
  obtain ⟨v', hrs, hinf, -, hcerr, htab, -⟩ := readSegments_lines stodOk r.lines
    { infile := ⟨(r.lines.map lineText).flatten ++ rest, false, false⟩, streetName := r.name,
      streetCount := some (r.announced : Int), coords := v.coords,
      coordLat1 := v.coordLat1, coordLon1 := v.coordLon1, coordLat2 := v.coordLat2,
      coordLon2 := v.coordLon2, m_streets := v.m_streets, cerr := v.cerr } rest hw rfl
  rw [hlen] at hrs ⊢
  refine ⟨v', ?_, hinf, hcerr, htab⟩
  rw [hrs]
  rfl

/-- The `while` loop on complete records: they are consumed one pass each, and their
segments are inserted in file order. -/
theorem loadLoop_records (stodOk : String → Bool) :
    ∀ (records : List StreetRecord) (fuel : Nat) (v : LoadVars) (rest : List Char),
      (∀ r, r ∈ records → r.Complete stodOk) →
      v.infile = ⟨mapText records ++ rest, false, false⟩ →
      ∃ v', loadLoop stodOk (records.length + fuel) v = loadLoop stodOk fuel v' ∧
        v'.infile = ⟨rest, false, false⟩ ∧ v'.cerr = v.cerr ∧
        v'.m_streets = (mapSegments records).foldl loadSegment v.m_streets := by
  intro records
  induction records with
  | nil =>
    intro fuel v rest _ hin
    refine ⟨v, by simp, by simpa [mapText] using hin, rfl, by simp [mapSegments]⟩
  | cons r records ih =>
    intro fuel v rest hall hin
    have hin1 : v.infile = ⟨r.text ++ (mapText records ++ rest), false, false⟩ := by
      rw [hin]
      simp [mapText, List.append_assoc]
    obtain ⟨v1, hstep, hinf1, hcerr1, htab1⟩ := loadLoop_record stodOk (records.length + fuel)
      v r _ (hall r (List.mem_cons_self _ _)) hin1
    obtain ⟨v', hrest, hinf', hcerr', htab'⟩ := ih fuel v1 rest
      (fun x hx => hall x (List.mem_cons_of_mem _ hx)) hinf1
    refine ⟨v', ?_, hinf', hcerr'.trans hcerr1, ?_⟩
    · rw [show (r :: records).length + fuel = (records.length + fuel) + 1 by
        simp only [List.length_cons]; omega]
      rw [hstep, hrest]
    · rw [htab', htab1]
      simp [mapSegments, List.foldl_append]

end StreetMapImpl

namespace StreetMapImpl

/-- Every segment line is stored, under its start coordinate, in the table `load` builds
from the lines. -/
theorem hasSegment_load (segmentLines : List StreetSegment) (s : StreetSegment)
    (h : s ∈ segmentLines) : HasSegment (load segmentLines) s := by
  induction segmentLines using List.reverseRecOn with
  | nil => exact absurd h (List.not_mem_nil _)
  | append_singleton l x ih =>
    rw [load_snoc]
    rcases List.mem_append.1 h with h | h
    · obtain ⟨v, hv, hs⟩ := ih h
      exact loadSegment_mono (load l) x hv hs
    · rw [List.mem_singleton] at h
      subst h
      exact loadSegment_forward (load l) s

/-- The variables of `load` when the file has just been opened on `text`. -/
theorem loadFile_some (stodOk : String → Bool) (mapFile : String) (text : List Char)
    (fuel : Nat) :
    loadFile stodOk mapFile (some (String.mk text)) fuel =
      (loadLoop stodOk fuel
        { infile := ⟨text, false, false⟩, streetName := "", streetCount := none,
          coords := "", coordLat1 := "", coordLon1 := "", coordLat2 := "", coordLon2 := "",
          m_streets := ExpandableHashMap.empty, cerr := [] }).map
        (fun v => ⟨true, v.m_streets, v.cerr⟩) := by
  unfold loadFile
  simp only [IStream.ofString]
  cases loadLoop stodOk fuel _ with
  | none => rfl
  | some v => rfl

/-- A map file of complete records: `load` returns true, writes nothing to `cerr`, and
leaves the table of the segments of the records, in file order. -/
theorem loadFile_complete (stodOk : String → Bool) (mapFile : String)
    (records : List StreetRecord) (hrecords : ∀ r, r ∈ records → r.Complete stodOk)
    (fuel : Nat) (hfuel : records.length + 1 ≤ fuel) :
    loadFile stodOk mapFile (some (String.mk (mapText records))) fuel =
      some ⟨true, load (mapSegments records), []⟩ := by
  obtain ⟨f, rfl⟩ : ∃ f, fuel = records.length + (f + 1) := ⟨fuel - records.length - 1, by omega⟩
  rw [loadFile_some]
  obtain ⟨v', hloop, hinf, hcerr, htab⟩ := loadLoop_records stodOk records (f + 1)
    { infile := ⟨mapText records, false, false⟩, streetName := "", streetCount := none,
      coords := "", coordLat1 := "", coordLon1 := "", coordLat2 := "", coordLon2 := "",
      m_streets := ExpandableHashMap.empty, cerr := [] } []
    hrecords (by rw [List.append_nil])
  obtain ⟨v'', hend, htab', hcerr'⟩ := loadLoop_ended stodOk f v'
    (Or.inr (by rw [hinf]))
  rw [hloop, hend, Option.map_some', htab', hcerr', htab, hcerr]
  rfl

open StreetRecord in
/-- A map file that ends within its last record, after at least one of its coordinate
lines: `load` returns true, writes nothing to `cerr`, and leaves the table of the
segments of all the lines, followed by the segment of the last line once more for
each line that is missing. -/
theorem loadFile_short (stodOk : String → Bool) (mapFile : String)
    (records : List StreetRecord) (short : StreetRecord)
    (last : String × String × String × String)
    (hrecords : ∀ r, r ∈ records → r.Complete stodOk) (hshort : short.Written stodOk)
    (hlast : short.lines.getLast? = some last)
    (hfew : short.lines.length < short.announced) (fuel : Nat)
    (hfuel : records.length + 2 ≤ fuel) :
    loadFile stodOk mapFile (some (String.mk (mapText records ++ short.text))) fuel =
      some ⟨true,
        load (mapSegments records ++ short.segments ++
          List.replicate (short.announced - short.lines.length) (short.segmentOf last)),
        []⟩ := by
  obtain ⟨f, rfl⟩ : ∃ f, fuel = records.length + (1 + (f + 1)) :=
    ⟨fuel - records.length - 2, by omega⟩
  obtain ⟨hname, hne, hd, hmax, hw⟩ := hshort
  obtain ⟨m, hm, hpos⟩ : ∃ m, short.announced = short.lines.length + m ∧ 0 < m :=
    ⟨short.announced - short.lines.length, by omega, by omega⟩
  have hsub : short.announced - short.lines.length = m := by omega
  rw [hsub, loadFile_some]
  obtain ⟨v1, hloop, hinf1, hcerr1, htab1⟩ := loadLoop_records stodOk records (1 + (f + 1))
    { infile := ⟨mapText records ++ short.text, false, false⟩, streetName := "", streetCount := none,
      coords := "", coordLat1 := "", coordLon1 := "", coordLat2 := "", coordLon2 := "",
      m_streets := ExpandableHashMap.empty, cerr := [] }
    short.text hrecords rfl
  simp only at hcerr1 htab1
  have hin1 : v1.infile = ⟨short.name.data ++ Char.ofNat 10 :: (short.count ++
      Char.ofNat 10 :: ((short.lines.map lineText).flatten ++ [])), false, false⟩ := by
    rw [hinf1]
    simp [StreetRecord.text, List.append_assoc]
  rw [hloop, show 1 + (f + 1) = (f + 1) + 1 by omega,
    loadLoop_header stodOk (f + 1) v1 short _ hname hne hd hmax hin1, hm, readSegments_add]
  obtain ⟨v2, hrs, hinf2, hname2, hcerr2, htab2, hcoords⟩ := readSegments_lines stodOk
    short.lines
    { infile := ⟨(short.lines.map lineText).flatten ++ [], false, false⟩,
      streetName := short.name,
      streetCount := some ((short.lines.length + m : Nat) : Int),
      coords := v1.coords, coordLat1 := v1.coordLat1, coordLon1 := v1.coordLon1,
      coordLat2 := v1.coordLat2, coordLon2 := v1.coordLon2, m_streets := v1.m_streets,
      cerr := v1.cerr } [] hw rfl
  simp only at hname2 hcerr2 htab2
  obtain ⟨c1, c2, c3, c4⟩ := hcoords last hlast
  have hmem : last ∈ short.lines := List.mem_of_getLast?_eq_some hlast
  obtain ⟨w1, w2, w3, w4⟩ := hw last hmem
  obtain ⟨v3, hrs3, hch3, hg3, -, hcerr3, htab3⟩ := readSegments_ended stodOk m v2
    (by rw [hinf2]) (Or.inl (by rw [hinf2]; rfl))
    (by rw [c1]; exact w1.2.2) (by rw [c2]; exact w2.2.2) (by rw [c3]; exact w3.2.2)
    (by rw [c4]; exact w4.2.2)
  obtain ⟨v4, hend, htab4, hcerr4⟩ := loadLoop_ended stodOk f v3 (Or.inl (hg3 hpos))
  rw [hrs, Option.some_bind, hrs3, Option.some_bind, hend, Option.map_some', htab4, hcerr4,
    htab3, hcerr3, htab2, hcerr2, c1, c2, c3, c4, hname2, hcerr1, htab1]
  simp only [load, List.foldl_append, StreetRecord.segments, StreetRecord.segmentOf]
  rfl

/-- A map file in which, after complete records, a count line starts with a character
that is neither a digit nor a sign: `load` writes its message to `cerr`, reads no
further, and returns true with the table of the records before. -/
theorem loadFile_bad_count (stodOk : String → Bool) (mapFile : String)
    (records : List StreetRecord) (hrecords : ∀ r, r ∈ records → r.Complete stodOk)
    (fuel : Nat) (hfuel : records.length + 2 ≤ fuel) (name : String) (tail : List Char)
    (c : Char) (cs : List Char) (hname : Char.ofNat 10 ∉ name.data)
    (htail : IStream.skipSpace tail = c :: cs) (hdigit : c.isDigit = false)
    (hminus : c ≠ '-') (hplus : c ≠ '+') :
    loadFile stodOk mapFile
        (some (String.mk (mapText records ++ (name.data ++ Char.ofNat 10 :: tail)))) fuel =
      some ⟨true, load (mapSegments records), ["inFile failed to retrieve streetCount."]⟩ := by
  obtain ⟨f, rfl⟩ : ∃ f, fuel = records.length + (1 + (f + 1)) :=
    ⟨fuel - records.length - 2, by omega⟩
  rw [loadFile_some]
  obtain ⟨v1, hloop, hinf1, hcerr1, htab1⟩ := loadLoop_records stodOk records (1 + (f + 1))
    { infile := ⟨mapText records ++ (name.data ++ Char.ofNat 10 :: tail), false, false⟩, streetName := "", streetCount := none,
      coords := "", coordLat1 := "", coordLon1 := "", coordLat2 := "", coordLon2 := "",
      m_streets := ExpandableHashMap.empty, cerr := [] }
    (name.data ++ Char.ofNat 10 :: tail) hrecords rfl
  have hline : IStream.getline v1.infile v1.streetName = (⟨tail, false, false⟩, name) := by
    rw [hinf1]
    simp only [IStream.getline, IStream.good, Bool.not_false, Bool.and_self, Bool.not_true,
      Bool.false_eq_true, if_false, IStream.splitLine_append _ _ hname]
  have hcount : IStream.extractInt ⟨tail, false, false⟩ v1.streetCount =
      (⟨c :: cs, false, true⟩, some 0) := by
    simp only [IStream.extractInt, IStream.good, Bool.not_false, Bool.and_self, Bool.not_true,
      Bool.false_eq_true, if_false, htail, hminus, hplus, or_self, decide_False,
      IStream.takeWhileRest, hdigit, List.isEmpty_nil, if_true, List.isEmpty_cons]
  have hignore : IStream.ignore ⟨c :: cs, false, true⟩ = ⟨c :: cs, false, true⟩ := by
    simp [IStream.ignore, IStream.good]
  rw [hloop, show 1 + (f + 1) = (f + 1) + 1 by omega, loadLoop]
  simp only [hline, Bool.false_eq_true, if_false, hcount, if_true, hignore, lt_self_iff_false,
    Int.toNat_zero, readSegments]
  obtain ⟨v2, hend, htab2, hcerr2⟩ := loadLoop_ended stodOk f
    { infile := ⟨c :: cs, false, true⟩, streetName := name, streetCount := some 0,
      coords := v1.coords, coordLat1 := v1.coordLat1, coordLon1 := v1.coordLon1,
      coordLat2 := v1.coordLat2, coordLon2 := v1.coordLon2, m_streets := v1.m_streets,
      cerr := v1.cerr ++ ["inFile failed to retrieve streetCount."] } (Or.inl rfl)
  rw [hend, Option.map_some', htab2, hcerr2]
  simp only [htab1, hcerr1, List.nil_append]
  rfl

end StreetMapImpl

/-! ## The claims -/

/-- C1. On a table built by `load`, when `generatePointToPointRoute` succeeds the distance
it reports is the minimum of the summed segment lengths over all routes from `start`
to `end_` in the table: it is the length of such a route (the returned one), and no
route is shorter. The distance function is assumed non-negative and to satisfy the
triangle inequality. -/
theorem router_distance_is_minimum (pop : Pop) (hpop : PopSpec pop)
    (dist : GeoCoord → GeoCoord → ℚ) (hd : IsDistance dist) (segmentLines : List StreetSegment)
    (start end_ : GeoCoord) (fuel : Nat) (out : RouteOutcome)
    (h : generatePointToPointRoute pop dist (load segmentLines) start end_ fuel = some out)
    (hok : out.result = DeliveryResult.DELIVERY_SUCCESS) :
    IsLeast {x | ∃ r, IsRoute (load segmentLines) start end_ r ∧ routeLength dist r = x}
      out.totalDistanceTravelled := by
  obtain ⟨hroute, hlen, hmin⟩ := generate_success hpop hd (wellFormed_load segmentLines) h hok
  refine ⟨⟨out.route, hroute, hlen⟩, ?_⟩
  rintro x ⟨r, hr, rfl⟩
  exact hmin r hr

/-- Witness for C1: from A to D on the scenario map the router reports 3, the minimum. -/
theorem router_distance_is_minimum_witness :
    IsLeast {x | ∃ r, IsRoute (load scenarioLines) (coordAt "0" "0") (coordAt "1" "2") r ∧
      routeLength gridDistance r = x} 3 :=
  router_distance_is_minimum popMin popMin_spec gridDistance gridDistance_isDistance
    scenarioLines (coordAt "0" "0") (coordAt "1" "2") 20
    ⟨DeliveryResult.DELIVERY_SUCCESS,
      [⟨coordAt "0" "0", coordAt "0" "1", "Main St"⟩, ⟨coordAt "0" "1", coordAt "0" "2", "Main St"⟩,
       ⟨coordAt "0" "2", coordAt "1" "2", "Oak Ave"⟩], 3⟩
    (by decide!) rfl

/-- C2. On a table built by `load`, when `generatePointToPointRoute` succeeds for
`start ≠ end_`, the returned list is non-empty, its first segment starts at `start`,
its last segment ends at `end_`, and each segment ends where the next one starts. -/
theorem router_route_contiguous (pop : Pop) (hpop : PopSpec pop)
    (dist : GeoCoord → GeoCoord → ℚ) (hd : IsDistance dist) (segmentLines : List StreetSegment)
    (start end_ : GeoCoord) (hne : start ≠ end_) (fuel : Nat) (out : RouteOutcome)
    (h : generatePointToPointRoute pop dist (load segmentLines) start end_ fuel = some out)
    (hok : out.result = DeliveryResult.DELIVERY_SUCCESS) :
    out.route ≠ [] ∧ out.route.head?.map StreetSegment.start = some start ∧
      out.route.getLast?.map StreetSegment.end_ = some end_ ∧
      List.Chain' (fun s t => s.end_ = t.start) out.route := by
  obtain ⟨hroute, -, -⟩ := generate_success hpop hd (wellFormed_load segmentLines) h hok
  obtain ⟨h1, h2, h3⟩ := isRoute_shape hroute
  exact ⟨h1 hne, (h2 (h1 hne)).1, (h2 (h1 hne)).2, h3⟩

/-- Witness for C2: the route from A to D on the scenario map. -/
theorem router_route_contiguous_witness :
    ([⟨coordAt "0" "0", coordAt "0" "1", "Main St"⟩, ⟨coordAt "0" "1", coordAt "0" "2", "Main St"⟩,
       ⟨coordAt "0" "2", coordAt "1" "2", "Oak Ave"⟩] : List StreetSegment) ≠ [] ∧
      ([⟨coordAt "0" "0", coordAt "0" "1", "Main St"⟩, ⟨coordAt "0" "1", coordAt "0" "2", "Main St"⟩,
       ⟨coordAt "0" "2", coordAt "1" "2", "Oak Ave"⟩] : List StreetSegment).head?.map
        StreetSegment.start = some (coordAt "0" "0") ∧
      ([⟨coordAt "0" "0", coordAt "0" "1", "Main St"⟩, ⟨coordAt "0" "1", coordAt "0" "2", "Main St"⟩,
       ⟨coordAt "0" "2", coordAt "1" "2", "Oak Ave"⟩] : List StreetSegment).getLast?.map
        StreetSegment.end_ = some (coordAt "1" "2") ∧
      List.Chain' (fun s t => s.end_ = t.start)
        ([⟨coordAt "0" "0", coordAt "0" "1", "Main St"⟩, ⟨coordAt "0" "1", coordAt "0" "2", "Main St"⟩,
          ⟨coordAt "0" "2", coordAt "1" "2", "Oak Ave"⟩] : List StreetSegment) :=
  router_route_contiguous popMin popMin_spec gridDistance gridDistance_isDistance
    scenarioLines (coordAt "0" "0") (coordAt "1" "2") (by decide) 20
    ⟨DeliveryResult.DELIVERY_SUCCESS,
      [⟨coordAt "0" "0", coordAt "0" "1", "Main St"⟩, ⟨coordAt "0" "1", coordAt "0" "2", "Main St"⟩,
       ⟨coordAt "0" "2", coordAt "1" "2", "Oak Ave"⟩], 3⟩
    (by decide!) rfl

/-- C3. On a table built by `load`, when `generatePointToPointRoute` succeeds, the
reported `totalDistanceTravelled` (the value stored in `gCost` for `end_`) equals the
sum of the lengths of the returned segments. -/
theorem router_distance_is_route_length (pop : Pop) (hpop : PopSpec pop)
    (dist : GeoCoord → GeoCoord → ℚ) (hd : IsDistance dist) (segmentLines : List StreetSegment)
    (start end_ : GeoCoord) (fuel : Nat) (out : RouteOutcome)
    (h : generatePointToPointRoute pop dist (load segmentLines) start end_ fuel = some out)
    (hok : out.result = DeliveryResult.DELIVERY_SUCCESS) :
    out.totalDistanceTravelled = routeLength dist out.route :=
  (generate_success hpop hd (wellFormed_load segmentLines) h hok).2.1.symm

/-- Witness for C3: from A to C on the scenario map, two segments of length 1. -/
theorem router_distance_is_route_length_witness :
    (2 : ℚ) = routeLength gridDistance
      [⟨coordAt "0" "0", coordAt "0" "1", "Main St"⟩, ⟨coordAt "0" "1", coordAt "0" "2", "Main St"⟩] :=
  router_distance_is_route_length popMin popMin_spec gridDistance gridDistance_isDistance
    scenarioLines (coordAt "0" "0") (coordAt "0" "2") 20
    ⟨DeliveryResult.DELIVERY_SUCCESS,
      [⟨coordAt "0" "0", coordAt "0" "1", "Main St"⟩, ⟨coordAt "0" "1", coordAt "0" "2", "Main St"⟩], 2⟩
    (by decide!) rfl

/-- C4. On a table built by `load`, with fuel `searchFuel` or more,
`generatePointToPointRoute` returns, and it returns `BAD_COORD` exactly when `start` or
`end_` is not a key of the table. In particular the search loop, entered with `start`
a key, never returns `BAD_COORD`, whatever the fuel. -/
theorem router_bad_coord_iff (pop : Pop) (hpop : PopSpec pop)
    (dist : GeoCoord → GeoCoord → ℚ) (hd : IsDistance dist) (segmentLines : List StreetSegment)
    (start end_ : GeoCoord) (fuel : Nat) (hfuel : searchFuel (load segmentLines) ≤ fuel) :
    (∃ out, generatePointToPointRoute pop dist (load segmentLines) start end_ fuel = some out ∧
      (out.result = DeliveryResult.BAD_COORD ↔
        (load segmentLines).find start = none ∨ (load segmentLines).find end_ = none)) ∧
    (∀ segs bound fuel' out', (load segmentLines).find start ≠ none →
      searchLoop pop dist (load segmentLines) start end_ bound fuel' (initialState start segs) =
        some out' → out'.result ≠ DeliveryResult.BAD_COORD) := by
  have hwf := wellFormed_load segmentLines
  constructor
  · cases hs : (load segmentLines).find start with
    | none =>
      exact ⟨_, generate_of_not_keys pop dist _ start end_ fuel (Or.inl hs), by simp⟩
    | some segs0 =>
      cases he : (load segmentLines).find end_ with
      | none =>
        exact ⟨_, generate_of_not_keys pop dist _ start end_ fuel (Or.inr he), by simp⟩
      | some segs1 =>
        obtain ⟨out, hout, hpost⟩ := generate_total hpop hd hwf hs he hfuel
        exact ⟨out, hout, by simp [hpost.1]⟩
  · intro segs bound fuel' out' hs h
    cases hs' : (load segmentLines).find start with
    | none => exact absurd hs' hs
    | some segs0 => exact (searchLoop_post hpop hd hwf hs' segs h).1

/-- Witness for C4: from A to a coordinate that is not on the scenario map. -/
theorem router_bad_coord_iff_witness :
    (∃ out, generatePointToPointRoute popMin gridDistance (load scenarioLines) (coordAt "0" "0")
        (coordAt "9" "9") 20 = some out ∧
      (out.result = DeliveryResult.BAD_COORD ↔
        (load scenarioLines).find (coordAt "0" "0") = none ∨
          (load scenarioLines).find (coordAt "9" "9") = none)) ∧
    (∀ segs bound fuel' out', (load scenarioLines).find (coordAt "0" "0") ≠ none →
      searchLoop popMin gridDistance (load scenarioLines) (coordAt "0" "0") (coordAt "9" "9") bound fuel'
        (initialState (coordAt "0" "0") segs) = some out' →
      out'.result ≠ DeliveryResult.BAD_COORD) :=
  router_bad_coord_iff popMin popMin_spec gridDistance gridDistance_isDistance scenarioLines
    (coordAt "0" "0") (coordAt "9" "9") 20 (by decide!)

/-- C5. On a table built by `load`, for `start` and `end_` both keys of the table and
fuel `searchFuel` or more, `generatePointToPointRoute` returns; it returns `NO_ROUTE`
exactly when no route of stored segments leads from `start` to `end_`, and
`DELIVERY_SUCCESS` exactly when one does. -/
theorem router_no_route_iff (pop : Pop) (hpop : PopSpec pop)
    (dist : GeoCoord → GeoCoord → ℚ) (hd : IsDistance dist) (segmentLines : List StreetSegment)
    (start end_ : GeoCoord) (hs : (load segmentLines).find start ≠ none)
    (he : (load segmentLines).find end_ ≠ none) (fuel : Nat)
    (hfuel : searchFuel (load segmentLines) ≤ fuel) :
    ∃ out, generatePointToPointRoute pop dist (load segmentLines) start end_ fuel = some out ∧
      (out.result = DeliveryResult.NO_ROUTE ↔
        ¬ ∃ r, IsRoute (load segmentLines) start end_ r) ∧
      (out.result = DeliveryResult.DELIVERY_SUCCESS ↔
        ∃ r, IsRoute (load segmentLines) start end_ r) := by
  have hwf := wellFormed_load segmentLines
  cases hs' : (load segmentLines).find start with
  | none => exact absurd hs' hs
  | some segs0 =>
    cases he' : (load segmentLines).find end_ with
    | none => exact absurd he' he
    | some segs1 =>
      obtain ⟨out, hout, hbad, hsucc, hno⟩ :=
        generate_total hpop hd hwf hs' he' hfuel
      refine ⟨out, hout, ?_, ?_⟩
      · constructor
        · intro h
          rintro ⟨r, hr⟩
          exact (hno h).2.2 r hr
        · intro h
          cases hres : out.result with
          | DELIVERY_SUCCESS => exact absurd ⟨out.route, (hsucc hres).1⟩ h
          | NO_ROUTE => rfl
          | BAD_COORD => exact absurd hres hbad
      · constructor
        · intro h
          exact ⟨out.route, (hsucc h).1⟩
        · rintro ⟨r, hr⟩
          cases hres : out.result with
          | DELIVERY_SUCCESS => rfl
          | NO_ROUTE => exact absurd hr ((hno hres).2.2 r)
          | BAD_COORD => exact absurd hres hbad

/-- Witness for C5: from A to I, which lies on a street apart from A's. -/
theorem router_no_route_iff_witness :
    ∃ out, generatePointToPointRoute popMin gridDistance (load scenarioLines) (coordAt "0" "0")
        (coordAt "5" "5") 20 = some out ∧
      (out.result = DeliveryResult.NO_ROUTE ↔
        ¬ ∃ r, IsRoute (load scenarioLines) (coordAt "0" "0") (coordAt "5" "5") r) ∧
      (out.result = DeliveryResult.DELIVERY_SUCCESS ↔
        ∃ r, IsRoute (load scenarioLines) (coordAt "0" "0") (coordAt "5" "5") r) :=
  router_no_route_iff popMin popMin_spec gridDistance gridDistance_isDistance scenarioLines
    (coordAt "0" "0") (coordAt "5" "5") (by decide!) (by decide!) 20 (by decide!)

/-- C6. For every table and every coordinate `x` that is a key of it,
`generatePointToPointRoute` from `x` to `x` returns `DELIVERY_SUCCESS` with an empty
segment list and distance 0 (one iteration of the search loop suffices). -/
theorem router_same_point (pop : Pop) (hpop : PopSpec pop) (dist : GeoCoord → GeoCoord → ℚ)
    (sm : StreetMap) (x : GeoCoord) (hx : sm.find x ≠ none) (fuel : Nat) (hfuel : 1 ≤ fuel) :
    generatePointToPointRoute pop dist sm x x fuel =
      some ⟨DeliveryResult.DELIVERY_SUCCESS, [], 0⟩ := by
  cases hs : sm.find x with
  | none => exact absurd hs hx
  | some segs0 =>
    rw [generate_of_keys pop dist sm x x fuel hs hs]
    cases fuel with
    | zero => exact absurd hfuel (Nat.not_succ_le_zero _)
    | succ f =>
      unfold searchLoop
      cases hp : pop (initialState x segs0).nodes with
      | none =>
        have := (hpop.none_iff _).1 hp
        simp [initialState] at this
      | some pr =>
        obtain ⟨top, rest⟩ := pr
        have hperm := hpop.perm _ _ _ hp
        have htop : top = (x, 0) := by
          have : top ∈ (initialState x segs0).nodes := hperm.mem_iff.2 (List.mem_cons_self _ _)
          simpa [initialState] using this
        subst htop
        simp [traceBack, initialState, find_associate_self]

/-- Witness for C6: from A to A on the scenario map. -/
theorem router_same_point_witness :
    generatePointToPointRoute popMin gridDistance (load scenarioLines) (coordAt "0" "0")
      (coordAt "0" "0") 1 = some ⟨DeliveryResult.DELIVERY_SUCCESS, [], 0⟩ :=
  router_same_point popMin popMin_spec gridDistance (load scenarioLines) (coordAt "0" "0")
    (by decide!) 1 (le_refl 1)

/-- With one delivery and at least two draws left, `optimizeDeliveryOrder` runs its loop
twice, finds no strictly cheaper candidate either time, and writes back `bestTour`
as it was declared: empty. -/
theorem optimizeDeliveryOrder_singleton (dist : GeoCoord → GeoCoord → ℚ) (depot : GeoCoord)
    (d : DeliveryRequest) (r1 r2 : Nat) (draws : List Nat) (fuel : Nat) :
    optimizeDeliveryOrder dist depot [d] (r1 :: r2 :: draws) (fuel + 3) =
      some
        { deliveries := []
          oldCrowDistance := dist depot d.location + dist d.location depot
          newCrowDistance := dist depot depot
          draws := draws } := by
  simp [optimizeDeliveryOrder, annealLoop, permute, findCrowDistance]

/-- C7 (the code departs from the claim). For every depot, every single delivery and every
sequence of at least two draws, `optimizeDeliveryOrder` writes back the empty list,
not the delivery, and sets `newCrowDistance` to the distance from the depot to
itself, not to `oldCrowDistance`, which is the round trip to the delivery. -/
theorem optimizer_single_delivery_emptied (dist : GeoCoord → GeoCoord → ℚ) (depot : GeoCoord)
    (d : DeliveryRequest) (r1 r2 : Nat) (draws : List Nat) (fuel : Nat) :
    ∃ out, optimizeDeliveryOrder dist depot [d] (r1 :: r2 :: draws) (fuel + 3) = some out ∧
      out.deliveries = [] ∧ out.deliveries ≠ [d] ∧
      out.oldCrowDistance = dist depot d.location + dist d.location depot ∧
      out.newCrowDistance = dist depot depot :=
  ⟨_, optimizeDeliveryOrder_singleton dist depot d r1 r2 draws fuel, rfl,
    (List.cons_ne_nil d []).symm, rfl, rfl⟩

/-- C8 (the code departs from the claim). The list written back is not always a
permutation of the input. For every single delivery it is empty; and with two
deliveries on the scenario map, whose two visiting orders have the same crow-flight
length, no candidate is ever strictly cheaper and it is empty too. -/
theorem optimizer_output_not_permutation :
    (∀ (dist : GeoCoord → GeoCoord → ℚ) (depot : GeoCoord) (d : DeliveryRequest) (r1 r2 : Nat)
        (draws : List Nat) (fuel : Nat),
      ∃ out, optimizeDeliveryOrder dist depot [d] (r1 :: r2 :: draws) (fuel + 3) = some out ∧
        ¬ List.Perm out.deliveries [d]) ∧
    (∃ out, optimizeDeliveryOrder gridDistance (coordAt "0" "0")
        [⟨"pizza", coordAt "1" "2"⟩, ⟨"soda", coordAt "0" "1"⟩]
        [0, 1, 0, 0, 1, 0, 0, 1, 0, 0, 1, 0] 10 = some out ∧
      out.deliveries = [] ∧
      ¬ List.Perm out.deliveries [⟨"pizza", coordAt "1" "2"⟩, ⟨"soda", coordAt "0" "1"⟩]) := by
  constructor
  · intro dist depot d r1 r2 draws fuel
    refine ⟨_, optimizeDeliveryOrder_singleton dist depot d r1 r2 draws fuel, ?_⟩
    intro h
    have := h.length_eq
    simp at this
  · refine ⟨⟨[], 6, 0, []⟩, by decide!, rfl, ?_⟩
    intro h
    have := h.length_eq
    simp at this

/-- C9 (the code departs from the claim). With four deliveries along the equator, given in
the order of least crow-flight length 8, and the draws `equatorDraws`, the walk first
moves to an order of length 12, then to one of length 10, which becomes `bestTour`
since `minCost` starts at `DBL_MAX`; nothing cheaper follows, and the written-back
order has `newCrowDistance = 10 > 8 = oldCrowDistance`. -/
theorem optimizer_crow_distance_grows :
    optimizeDeliveryOrder gridDistance (coordAt "0" "0") equatorDeliveries equatorDraws 20 =
      some
        { deliveries :=
            [⟨"c", coordAt "0" "3"⟩, ⟨"b", coordAt "0" "2"⟩, ⟨"d", coordAt "0" "4"⟩, ⟨"a", coordAt "0" "1"⟩]
          oldCrowDistance := 8
          newCrowDistance := 10
          draws := [] } := by
  decide!

/-- C10 (the code departs from the claim). On the scenario map the plan from A with the
single delivery of "pizza" to D succeeds with no command at all and distance 0: the
optimizer has emptied the delivery list, so the only leg is depot to depot and no
Deliver command is emitted. -/
theorem planner_single_delivery_not_delivered :
    generateDeliveryPlan popMin scenarioGeometry (load scenarioLines) (coordAt "0" "0")
      [⟨"pizza", coordAt "1" "2"⟩] [0, 0] 20 =
      some ⟨DeliveryResult.DELIVERY_SUCCESS, [], 0⟩ := by
  decide!

/-- C11. When `generateDeliveryPlan` succeeds, the router succeeds on every consecutive leg
of (depot, d1, ..., dn, depot), the deliveries taken in the order the optimizer wrote
back, and `totalDistanceTravelled` is the sum of the distances the router returns for
these legs. -/
theorem planner_distance_is_sum_of_legs (pop : Pop) (geo : Geometry) (sm : StreetMap)
    (depot : GeoCoord) (deliveries : List DeliveryRequest) (draws : List Nat) (fuel : Nat)
    (out : PlanOutcome)
    (h : generateDeliveryPlan pop geo sm depot deliveries draws fuel = some out)
    (hok : out.result = DeliveryResult.DELIVERY_SUCCESS) :
    ∃ opt outs, optimizeDeliveryOrder geo.dist depot deliveries draws fuel = some opt ∧
      List.Forall₂ (LegSucceeds pop geo.dist sm fuel) (tourLegs depot opt.deliveries) outs ∧
      out.totalDistanceTravelled = (outs.map RouteOutcome.totalDistanceTravelled).sum := by
  obtain ⟨opt, hopt, hcase⟩ := generateDeliveryPlan_char pop geo sm depot deliveries draws fuel
    out h
  rcases hcase with ⟨-, outs, hall, htotal, -⟩ | ⟨⟨_, _, _, _, bad, _, _, _, hne, hres, _⟩, -⟩
  · exact ⟨opt, outs, hopt, hall, htotal⟩
  · exact absurd (hres.trans hok) hne

/-- Witness for C11: the plan for `roundDeliveries` on the scenario map, of distance
1 + 1 + 1 + 3. -/
theorem planner_distance_is_sum_of_legs_witness :
    ∃ opt outs, optimizeDeliveryOrder scenarioGeometry.dist (coordAt "0" "0") roundDeliveries
        scenarioDraws 20 = some opt ∧
      List.Forall₂ (LegSucceeds popMin scenarioGeometry.dist (load scenarioLines) 20)
        (tourLegs (coordAt "0" "0") opt.deliveries) outs ∧
      (6 : ℚ) = (outs.map RouteOutcome.totalDistanceTravelled).sum :=
  planner_distance_is_sum_of_legs popMin scenarioGeometry (load scenarioLines) (coordAt "0" "0")
    roundDeliveries scenarioDraws 20
    ⟨DeliveryResult.DELIVERY_SUCCESS,
      [.proceed "east" "Main St" 1, .deliver "soda", .proceed "east" "Main St" 1,
       .deliver "pizza", .proceed "east" "Oak Ave" 1, .deliver "salad",
       .proceed "east" "Oak Ave" 1, .turn "left" "Main St", .proceed "east" "Main St" 2], 6⟩
    (by decide!) rfl

/-- C12. On a table built by `load`, with fuel `searchFuel` or more and the optimizer
having returned, `generateDeliveryPlan` returns. It returns `DELIVERY_SUCCESS` exactly
when the router succeeds on every consecutive leg of the optimized tour; otherwise it
returns what the router returns for the first leg on which it does not succeed. The
emission loop, run on one route more than there are deliveries, ends by returning
`DELIVERY_SUCCESS`, so the `return NO_ROUTE` after it is not reached. -/
theorem planner_result_is_first_failure (pop : Pop) (hpop : PopSpec pop) (geo : Geometry)
    (hd : IsDistance geo.dist) (segmentLines : List StreetSegment) (depot : GeoCoord)
    (deliveries : List DeliveryRequest) (draws : List Nat) (fuel : Nat)
    (hfuel : searchFuel (load segmentLines) ≤ fuel) (opt : OptimizeOutcome)
    (hopt : optimizeDeliveryOrder geo.dist depot deliveries draws fuel = some opt) :
    ∃ out, generateDeliveryPlan pop geo (load segmentLines) depot deliveries draws fuel =
        some out ∧
      (out.result = DeliveryResult.DELIVERY_SUCCESS ↔
        ∃ outs, List.Forall₂ (LegSucceeds pop geo.dist (load segmentLines) fuel)
          (tourLegs depot opt.deliveries) outs) ∧
      (out.result ≠ DeliveryResult.DELIVERY_SUCCESS →
        ∃ paid, FirstFailure pop geo.dist (load segmentLines) fuel
          (tourLegs depot opt.deliveries) out.result paid) ∧
      (∀ (routes : List (List StreetSegment)) (s : LegState),
        routes.length = opt.deliveries.length + 1 →
        ∃ commands, emitRoutes geo opt.deliveries routes 0 s =
          some (DeliveryResult.DELIVERY_SUCCESS, commands)) := by
  obtain ⟨out, hout⟩ := generateDeliveryPlan_returns pop geo (load segmentLines) depot
    deliveries draws fuel (generate_returns hpop hd segmentLines hfuel) opt hopt
  obtain ⟨opt', hopt', hcase⟩ := generateDeliveryPlan_char pop geo (load segmentLines) depot
    deliveries draws fuel out hout
  rw [hopt] at hopt'
  cases hopt'
  refine ⟨out, hout, ?_, ?_, ?_⟩
  · constructor
    · intro hok
      rcases hcase with ⟨-, outs, hall, -, -⟩ | ⟨⟨_, _, _, _, bad, _, _, _, hne, hres, _⟩, -⟩
      · exact ⟨outs, hall⟩
      · exact absurd (hres.trans hok) hne
    · rintro ⟨outs, hall⟩
      rcases hcase with ⟨hok, -⟩ | ⟨⟨pre, leg, post, _, bad, hlegs, _, hbad, hne, _, _⟩, -⟩
      · exact hok
      · rw [hlegs] at hall
        obtain ⟨o, ho, hsucc⟩ := forall₂_mid hall
        rw [hbad] at ho
        cases ho
        exact absurd hsucc hne
  · intro hne
    rcases hcase with ⟨hok, -⟩ | ⟨hfail, -⟩
    · exact absurd hok hne
    · exact ⟨_, hfail⟩
  · intro routes s hlen
    exact ⟨_, emitRoutes_all geo opt.deliveries routes s hlen⟩

/-- Witness for C12: the plan for `strandedDeliveries`, whose third leg, from B to I, has
no route. -/
theorem planner_result_is_first_failure_witness :
    ∃ out, generateDeliveryPlan popMin scenarioGeometry (load scenarioLines) (coordAt "0" "0")
        strandedDeliveries scenarioDraws 20 = some out ∧
      (out.result = DeliveryResult.DELIVERY_SUCCESS ↔
        ∃ outs, List.Forall₂ (LegSucceeds popMin scenarioGeometry.dist (load scenarioLines) 20)
          (tourLegs (coordAt "0" "0")
            [⟨"menu", coordAt "0" "0"⟩, ⟨"soda", coordAt "0" "1"⟩, ⟨"pizza", coordAt "5" "5"⟩])
          outs) ∧
      (out.result ≠ DeliveryResult.DELIVERY_SUCCESS →
        ∃ paid, FirstFailure popMin scenarioGeometry.dist (load scenarioLines) 20
          (tourLegs (coordAt "0" "0")
            [⟨"menu", coordAt "0" "0"⟩, ⟨"soda", coordAt "0" "1"⟩, ⟨"pizza", coordAt "5" "5"⟩])
          out.result paid) ∧
      (∀ (routes : List (List StreetSegment)) (s : LegState),
        routes.length =
          ([⟨"menu", coordAt "0" "0"⟩, ⟨"soda", coordAt "0" "1"⟩, ⟨"pizza", coordAt "5" "5"⟩] :
            List DeliveryRequest).length + 1 →
        ∃ commands, emitRoutes scenarioGeometry
          [⟨"menu", coordAt "0" "0"⟩, ⟨"soda", coordAt "0" "1"⟩, ⟨"pizza", coordAt "5" "5"⟩]
          routes 0 s = some (DeliveryResult.DELIVERY_SUCCESS, commands)) :=
  planner_result_is_first_failure popMin popMin_spec scenarioGeometry gridDistance_isDistance
    scenarioLines (coordAt "0" "0") strandedDeliveries scenarioDraws 20 (by decide!)
    ⟨[⟨"menu", coordAt "0" "0"⟩, ⟨"soda", coordAt "0" "1"⟩, ⟨"pizza", coordAt "5" "5"⟩],
      22, 20, []⟩
    (by decide!)

/-- C13. In the table `load` leaves after reading a map file, whenever the segment from
`a` to `b` named `name` is in the neighbor list of `a`, the segment from `b` to `a`
with the same name is in the neighbor list of `b`. -/
theorem load_symmetric (stodOk : String → Bool) (mapFile : String) (content : Option String)
    (fuel : Nat) (out : LoadOutcome) (h : loadFile stodOk mapFile content fuel = some out)
    (a b : GeoCoord) (name : String) (va : List StreetSegment)
    (ha : out.m_streets.find a = some va) (hmem : (⟨a, b, name⟩ : StreetSegment) ∈ va) :
    ∃ vb, out.m_streets.find b = some vb ∧ (⟨b, a, name⟩ : StreetSegment) ∈ vb := by
  obtain ⟨segmentLines, hlines⟩ := loadFile_table stodOk mapFile content fuel out h
  rw [hlines] at ha ⊢
  exact (wellFormed_load segmentLines).reverse_mem ⟨a, b, name⟩ ⟨va, ha, hmem⟩

/-- Witness for C13: B-C on "Main St" in the scenario map, read from its file. -/
theorem load_symmetric_witness :
    ∃ vb, (load scenarioLines).find (coordAt "0" "2") = some vb ∧
      (⟨coordAt "0" "2", coordAt "0" "1", "Main St"⟩ : StreetSegment) ∈ vb :=
  load_symmetric digitsOnly "mapdata.txt"
    (some "Main St\n2\n0 0 0 1\n0 1 0 2\nOak Ave\n1\n0 2 1 2\nFar Rd\n1\n5 5 5 6\n") 10
    ⟨true, load scenarioLines, []⟩ (by decide!)
    (coordAt "0" "1") (coordAt "0" "2") "Main St"
    [⟨coordAt "0" "1", coordAt "0" "0", "Main St"⟩,
     ⟨coordAt "0" "1", coordAt "0" "2", "Main St"⟩]
    (by decide!) (by decide!)

/-- C14 (the code departs from the claim). A map file whose only segment line runs from a
coordinate to itself is loaded into a table that stores one entry for it, not two:
`load` looks up the start and the end before inserting either, finds no vector for
both, and the second `associate` replaces the vector the first one stored. -/
theorem load_self_loop_stored_once :
    loadFile digitsOnly "mapdata.txt" (some "Loop Rd\n1\n0 0 0 0\n") 10 =
      some ⟨true, load [⟨coordAt "0" "0", coordAt "0" "0", "Loop Rd"⟩], []⟩ ∧
    (load [⟨coordAt "0" "0", coordAt "0" "0", "Loop Rd"⟩]).find (coordAt "0" "0") =
      some [⟨coordAt "0" "0", coordAt "0" "0", "Loop Rd"⟩] ∧
    storedSegments (load [⟨coordAt "0" "0", coordAt "0" "0", "Loop Rd"⟩]) = 1 := by
  decide!

/-- Counterexample to C15: in this map file the count announces two coordinate lines and
one follows. `load` returns true, writes nothing to `cerr`, and leaves a table that
holds the one segment twice (the second pass of the `for` loop finds no line and
inserts the coordinates of the first again). -/
theorem load_short_record_returns_true :
    loadFile digitsOnly "mapdata.txt" (some "Main St\n2\n0 0 0 1\n") 10 =
      some ⟨true,
        [(coordAt "0" "0",
            [⟨coordAt "0" "0", coordAt "0" "1", "Main St"⟩,
             ⟨coordAt "0" "0", coordAt "0" "1", "Main St"⟩]),
         (coordAt "0" "1",
            [⟨coordAt "0" "1", coordAt "0" "0", "Main St"⟩,
             ⟨coordAt "0" "1", coordAt "0" "0", "Main St"⟩])], []⟩ := by
  decide!

/-- C15, amended. `load` returns false, leaving the table empty, when the map file cannot be
opened, and only then: whenever it returns on a file it could open it returns true,
and the table it leaves is a table of segment lines. For a map file of complete
records that ends within its last record, after at least one of that record's
coordinate lines and before the number its count announces, `load` returns true
without writing to `cerr`; the table it leaves is the table of the segments of all the
coordinate lines of the file in file order, followed by the segment of the last line
once more for each missing line, so every segment of the file is in the neighbor list
of its start coordinate. And when, after complete records, a count line starts with a
character that is neither a digit nor a sign, `load` writes "inFile failed to retrieve
streetCount." to `cerr`, reads no further, and returns true with the table of the
records before. -/
theorem load_returns_true_once_open (stodOk : String → Bool) (mapFile : String)
    (records : List StreetRecord) (short : StreetRecord)
    (last : String × String × String × String)
    (hrecords : ∀ r, r ∈ records → r.Complete stodOk) (hshort : short.Written stodOk)
    (hlast : short.lines.getLast? = some last)
    (hfew : short.lines.length < short.announced) (fuel : Nat)
    (hfuel : records.length + 2 ≤ fuel) :
    loadFile stodOk mapFile none fuel =
      some ⟨false, ExpandableHashMap.empty,
        ["Failed to retrieve data from " ++ mapFile ++ "!"]⟩ ∧
    (∀ (content : Option String) (fuel' : Nat) (out : LoadOutcome),
      loadFile stodOk mapFile content fuel' = some out →
      (out.result = false ↔ content = none) ∧ ∃ segmentLines, out.m_streets = load segmentLines) ∧
    loadFile stodOk mapFile (some (String.mk (mapText records ++ short.text))) fuel =
      some ⟨true,
        load (mapSegments records ++ short.segments ++
          List.replicate (short.announced - short.lines.length) (short.segmentOf last)),
        []⟩ ∧
    (∀ s, s ∈ mapSegments records ++ short.segments →
      ∃ v, StreetMapImpl.getSegmentsThatStartWith
          (load (mapSegments records ++ short.segments ++
            List.replicate (short.announced - short.lines.length) (short.segmentOf last)))
          s.start [] = (true, v) ∧ s ∈ v) ∧
    (∀ (name : String) (tail : List Char) (c : Char) (cs : List Char),
      Char.ofNat 10 ∉ name.data → IStream.skipSpace tail = c :: cs → c.isDigit = false →
      c ≠ '-' → c ≠ '+' →
      loadFile stodOk mapFile
          (some (String.mk (mapText records ++ (name.data ++ Char.ofNat 10 :: tail)))) fuel =
        some ⟨true, load (mapSegments records),
          ["inFile failed to retrieve streetCount."]⟩) := by
  refine ⟨rfl, ?_, loadFile_short stodOk mapFile records short last hrecords hshort hlast hfew
    fuel hfuel, ?_, ?_⟩
  · intro content fuel' out h
    refine ⟨?_, loadFile_table stodOk mapFile content fuel' out h⟩
    cases content with
    | none =>
      simp only [loadFile, Option.some.injEq] at h
      subst h
      simp
    | some text =>
      have := loadFile_result stodOk mapFile text fuel' out h
      simp [this]
  · intro s hs
    obtain ⟨v, hv, hmem⟩ := hasSegment_load (mapSegments records ++ short.segments ++
      List.replicate (short.announced - short.lines.length) (short.segmentOf last)) s
      (List.mem_append_left _ hs)
    refine ⟨v, ?_, hmem⟩
    unfold StreetMapImpl.getSegmentsThatStartWith
    rw [hv]
  · intro name tail c cs hname htail hdigit hminus hplus
    exact loadFile_bad_count stodOk mapFile records hrecords fuel hfuel name tail c cs hname
      htail hdigit hminus hplus

/-- Witness for C15: the map file "Oak Ave", 1, C-D, then "Main St", 2, A-B and the end of
the file; the table holds C-D, A-B, and A-B once more. -/
theorem load_returns_true_once_open_witness :
    loadFile digitsOnly "mapdata.txt" none 10 =
      some ⟨false, ExpandableHashMap.empty,
        ["Failed to retrieve data from " ++ "mapdata.txt" ++ "!"]⟩ ∧
    (∀ (content : Option String) (fuel' : Nat) (out : LoadOutcome),
      loadFile digitsOnly "mapdata.txt" content fuel' = some out →
      (out.result = false ↔ content = none) ∧ ∃ segmentLines, out.m_streets = load segmentLines) ∧
    loadFile digitsOnly "mapdata.txt"
        (some "Oak Ave\n1\n0 2 1 2\nMain St\n2\n0 0 0 1\n") 10 =
      some ⟨true,
        load [⟨coordAt "0" "2", coordAt "1" "2", "Oak Ave"⟩,
          ⟨coordAt "0" "0", coordAt "0" "1", "Main St"⟩,
          ⟨coordAt "0" "0", coordAt "0" "1", "Main St"⟩],
        []⟩ ∧
    (∀ s, s ∈ ([⟨coordAt "0" "2", coordAt "1" "2", "Oak Ave"⟩,
        ⟨coordAt "0" "0", coordAt "0" "1", "Main St"⟩] : List StreetSegment) →
      ∃ v, StreetMapImpl.getSegmentsThatStartWith
          (load [⟨coordAt "0" "2", coordAt "1" "2", "Oak Ave"⟩,
            ⟨coordAt "0" "0", coordAt "0" "1", "Main St"⟩,
            ⟨coordAt "0" "0", coordAt "0" "1", "Main St"⟩])
          s.start [] = (true, v) ∧ s ∈ v) ∧
    (∀ (name : String) (tail : List Char) (c : Char) (cs : List Char),
      Char.ofNat 10 ∉ name.data → IStream.skipSpace tail = c :: cs → c.isDigit = false →
      c ≠ '-' → c ≠ '+' →
      loadFile digitsOnly "mapdata.txt"
          (some (String.mk ("Oak Ave\n1\n0 2 1 2\n".data ++
            (name.data ++ Char.ofNat 10 :: tail)))) 10 =
        some ⟨true, load [⟨coordAt "0" "2", coordAt "1" "2", "Oak Ave"⟩],
          ["inFile failed to retrieve streetCount."]⟩) :=
  load_returns_true_once_open digitsOnly "mapdata.txt" [oakRecord] shortRecord
    ("0", "0", "0", "1")
    (by
      intro r hr
      rw [List.mem_singleton] at hr
      subst hr
      exact ⟨⟨by decide, by decide, by decide, by decide, by decide⟩, by decide⟩)
    ⟨by decide, by decide, by decide, by decide, by decide⟩ rfl (by decide) 10 (by decide)

/-- C16. For every bearing `d` in [0, 360), `generateProceed d` is "east" on [0, 22.5),
"northeast" on [22.5, 67.5), "north" on [67.5, 112.5), "northwest" on [112.5, 157.5),
"west" on [157.5, 202.5), "southwest" on [202.5, 247.5), "south" on (247.5, 292.5),
"southeast" on [292.5, 337.5), "east" on [337.5, 360); and at exactly 247.5 it is
"east", not "south". -/
theorem generateProceed_ranges (d : ℚ) (h0 : 0 ≤ d) (h360 : d < 360) :
    (d < 45 / 2 → generateProceed d = "east") ∧
    (45 / 2 ≤ d → d < 135 / 2 → generateProceed d = "northeast") ∧
    (135 / 2 ≤ d → d < 225 / 2 → generateProceed d = "north") ∧
    (225 / 2 ≤ d → d < 315 / 2 → generateProceed d = "northwest") ∧
    (315 / 2 ≤ d → d < 405 / 2 → generateProceed d = "west") ∧
    (405 / 2 ≤ d → d < 495 / 2 → generateProceed d = "southwest") ∧
    (495 / 2 < d → d < 585 / 2 → generateProceed d = "south") ∧
    (585 / 2 ≤ d → d < 675 / 2 → generateProceed d = "southeast") ∧
    (675 / 2 ≤ d → generateProceed d = "east") ∧
    (d = 495 / 2 → generateProceed d = "east" ∧ generateProceed d ≠ "south") := by
  refine ⟨?_, ?_, ?_, ?_, ?_, ?_, ?_, ?_, ?_, ?_⟩
  · intro h
    simp [generateProceed, h0, h]
  · intro h1 h2
    have : ¬ d < 45 / 2 := not_lt.2 h1
    simp [generateProceed, *]
  · intro h1 h2
    have a1 : ¬ d < 45 / 2 := by linarith
    have a2 : ¬ d < 135 / 2 := by linarith
    simp [generateProceed, *]
  · intro h1 h2
    have a1 : ¬ d < 45 / 2 := by linarith
    have a2 : ¬ d < 135 / 2 := by linarith
    have a3 : ¬ d < 225 / 2 := by linarith
    simp [generateProceed, *]
  · intro h1 h2
    have a1 : ¬ d < 45 / 2 := by linarith
    have a2 : ¬ d < 135 / 2 := by linarith
    have a3 : ¬ d < 225 / 2 := by linarith
    have a4 : ¬ d < 315 / 2 := by linarith
    simp [generateProceed, *]
  · intro h1 h2
    have a1 : ¬ d < 45 / 2 := by linarith
    have a2 : ¬ d < 135 / 2 := by linarith
    have a3 : ¬ d < 225 / 2 := by linarith
    have a4 : ¬ d < 315 / 2 := by linarith
    have a5 : ¬ d < 405 / 2 := by linarith
    simp [generateProceed, *]
  · intro h1 h2
    have a1 : ¬ d < 45 / 2 := by linarith
    have a2 : ¬ d < 135 / 2 := by linarith
    have a3 : ¬ d < 225 / 2 := by linarith
    have a4 : ¬ d < 315 / 2 := by linarith
    have a5 : ¬ d < 405 / 2 := by linarith
    have a6 : ¬ d < 495 / 2 := by linarith
    simp [generateProceed, *]
  · intro h1 h2
    have a1 : ¬ d < 45 / 2 := by linarith
    have a2 : ¬ d < 135 / 2 := by linarith
    have a3 : ¬ d < 225 / 2 := by linarith
    have a4 : ¬ d < 315 / 2 := by linarith
    have a5 : ¬ d < 405 / 2 := by linarith
    have a6 : ¬ d < 495 / 2 := by linarith
    have a7 : ¬ d < 585 / 2 := by linarith
    simp [generateProceed, *]
  · intro h1
    have a1 : ¬ d < 45 / 2 := by linarith
    have a2 : ¬ d < 135 / 2 := by linarith
    have a3 : ¬ d < 225 / 2 := by linarith
    have a4 : ¬ d < 315 / 2 := by linarith
    have a5 : ¬ d < 405 / 2 := by linarith
    have a6 : ¬ d < 495 / 2 := by linarith
    have a7 : ¬ d < 585 / 2 := by linarith
    have a8 : ¬ d < 675 / 2 := by linarith
    simp [generateProceed, *]
  · intro h
    subst h
    constructor <;> decide!

/-- Witness for C16: the bearing 247.5. -/
theorem generateProceed_ranges_witness :
    ((495 / 2 : ℚ) < 45 / 2 → generateProceed (495 / 2) = "east") ∧
    (45 / 2 ≤ (495 / 2 : ℚ) → (495 / 2 : ℚ) < 135 / 2 →
      generateProceed (495 / 2) = "northeast") ∧
    (135 / 2 ≤ (495 / 2 : ℚ) → (495 / 2 : ℚ) < 225 / 2 → generateProceed (495 / 2) = "north") ∧
    (225 / 2 ≤ (495 / 2 : ℚ) → (495 / 2 : ℚ) < 315 / 2 →
      generateProceed (495 / 2) = "northwest") ∧
    (315 / 2 ≤ (495 / 2 : ℚ) → (495 / 2 : ℚ) < 405 / 2 → generateProceed (495 / 2) = "west") ∧
    (405 / 2 ≤ (495 / 2 : ℚ) → (495 / 2 : ℚ) < 495 / 2 →
      generateProceed (495 / 2) = "southwest") ∧
    ((495 / 2 : ℚ) < 495 / 2 → (495 / 2 : ℚ) < 585 / 2 → generateProceed (495 / 2) = "south") ∧
    (585 / 2 ≤ (495 / 2 : ℚ) → (495 / 2 : ℚ) < 675 / 2 →
      generateProceed (495 / 2) = "southeast") ∧
    (675 / 2 ≤ (495 / 2 : ℚ) → generateProceed (495 / 2) = "east") ∧
    ((495 / 2 : ℚ) = 495 / 2 →
      generateProceed (495 / 2) = "east" ∧ generateProceed (495 / 2) ≠ "south") :=
  generateProceed_ranges (495 / 2) (by norm_num) (by norm_num)

/-- Counterexample to C17: the turn angle 359.5 lies in [180, 360), and `generateTurn`
returns the empty string for it, not "right". -/
theorem generateTurn_not_right_above_359 :
    (180 : ℚ) ≤ 719 / 2 ∧ (719 / 2 : ℚ) < 360 ∧ generateTurn (719 / 2) = "" ∧
      generateTurn (719 / 2) ≠ "right" := by
  decide!

/-- C17, amended. For every turn angle `t`, `generateTurn t` is "left" when `t` is in
[1, 180), "right" when `t` is in [180, 359], and the empty string otherwise, that is
below 1 and above 359, the angles at which the planner emits no Turn. -/
theorem generateTurn_ranges (t : ℚ) :
    (1 ≤ t → t < 180 → generateTurn t = "left") ∧
    (180 ≤ t → t ≤ 359 → generateTurn t = "right") ∧
    (t < 1 ∨ 359 < t → generateTurn t = "") := by
  refine ⟨?_, ?_, ?_⟩
  · intro h1 h2
    simp [generateTurn, h1, h2]
  · intro h1 h2
    have : ¬ t < 180 := not_lt.2 h1
    simp [generateTurn, *]
  · rintro (h | h)
    · have a1 : ¬ 1 ≤ t := not_le.2 h
      have a2 : ¬ 180 ≤ t := by linarith
      simp [generateTurn, *]
    · have a1 : ¬ t < 180 := by linarith
      have a2 : ¬ t ≤ 359 := not_le.2 h
      simp [generateTurn, *]

/-- C18. At a street-name change whose turn angle is below 1 or above 359, the loop body
appends the pending Proceed to the command list and makes a fresh Proceed for the
new segment pending, with no Turn; and a leg of two segments with different names
and such an angle yields exactly the Proceed of the first and the Proceed of the
second. -/
theorem planner_straight_through (geo : Geometry) (last here : StreetSegment)
    (hname : here.name ≠ last.name)
    (hangle : geo.angleBetween2Lines last here < 1 ∨ geo.angleBetween2Lines last here > 359) :
    (∀ (s : LegState) (front : DeliveryCommand) (moves : List DeliveryCommand),
      s.moves = front :: moves → s.last = last →
      segmentStep geo s here =
        { here := here, last := here, moves := moves ++ [proceedFor geo here],
          commands := s.commands ++ [front] }) ∧
    legCommands geo [last, here] = [proceedFor geo last, proceedFor geo here] := by
  constructor
  · intro s front moves hmoves hlast
    subst hlast
    simp [segmentStep, hmoves, hname, hangle]
  · simp [legCommands, segmentStep, flushMoves, hname, hangle]

/-- Witness for C18: "Main St" running straight into "Oak Ave". -/
theorem planner_straight_through_witness :
    (∀ (s : LegState) (front : DeliveryCommand) (moves : List DeliveryCommand),
      s.moves = front :: moves → s.last = ⟨coordAt "0" "0", coordAt "0" "1", "Main St"⟩ →
      segmentStep straightGeometry s ⟨coordAt "0" "1", coordAt "0" "2", "Oak Ave"⟩ =
        { here := ⟨coordAt "0" "1", coordAt "0" "2", "Oak Ave"⟩
          last := ⟨coordAt "0" "1", coordAt "0" "2", "Oak Ave"⟩
          moves := moves ++
            [proceedFor straightGeometry ⟨coordAt "0" "1", coordAt "0" "2", "Oak Ave"⟩]
          commands := s.commands ++ [front] }) ∧
    legCommands straightGeometry
        [⟨coordAt "0" "0", coordAt "0" "1", "Main St"⟩,
         ⟨coordAt "0" "1", coordAt "0" "2", "Oak Ave"⟩] =
      [proceedFor straightGeometry ⟨coordAt "0" "0", coordAt "0" "1", "Main St"⟩,
       proceedFor straightGeometry ⟨coordAt "0" "1", coordAt "0" "2", "Oak Ave"⟩] :=
  planner_straight_through straightGeometry ⟨coordAt "0" "0", coordAt "0" "1", "Main St"⟩
    ⟨coordAt "0" "1", coordAt "0" "2", "Oak Ave"⟩ (by decide) (Or.inl (by decide!))

/-- C19. For every table and every depot that is a key of it, `generateDeliveryPlan` with
no delivery returns `DELIVERY_SUCCESS` with an empty command list and distance 0,
whatever the draws: the optimizer's loop does not run, and the single leg from the
depot to itself has no segment. -/
theorem planner_no_deliveries (pop : Pop) (hpop : PopSpec pop) (geo : Geometry)
    (sm : StreetMap) (depot : GeoCoord) (hkey : sm.find depot ≠ none) (draws : List Nat)
    (fuel : Nat) (hfuel : 1 ≤ fuel) :
    generateDeliveryPlan pop geo sm depot [] draws fuel =
      some ⟨DeliveryResult.DELIVERY_SUCCESS, [], 0⟩ := by
  obtain ⟨f, rfl⟩ : ∃ f, fuel = f + 1 := ⟨fuel - 1, by omega⟩
  unfold generateDeliveryPlan
  rw [optimizeDeliveryOrder_nil]
  simp only [routeLegs]
  rw [generate_self hpop geo.dist sm depot hkey f]
  simp [emitRoutes, flushMoves]

/-- Witness for C19: the depot A of the scenario map. -/
theorem planner_no_deliveries_witness :
    generateDeliveryPlan popMin scenarioGeometry (load scenarioLines) (coordAt "0" "0") []
      [] 1 = some ⟨DeliveryResult.DELIVERY_SUCCESS, [], 0⟩ :=
  planner_no_deliveries popMin popMin_spec scenarioGeometry (load scenarioLines)
    (coordAt "0" "0") (by decide!) [] 1 (le_refl 1)

/-- Counterexample to C20: the plan for `scenarioDeliveries` succeeds with a non-empty
command list whose first command is a Deliver. The optimizer puts the delivery to the
depot first, and the leg from the depot to itself has no segment. -/
theorem planner_first_command_deliver :
    generateDeliveryPlan popMin scenarioGeometry (load scenarioLines) (coordAt "0" "0")
      scenarioDeliveries scenarioDraws 20 =
      some ⟨DeliveryResult.DELIVERY_SUCCESS,
        [.deliver "menu", .proceed "east" "Main St" 1, .deliver "soda",
         .proceed "east" "Main St" 1, .deliver "pizza", .proceed "east" "Main St" 2], 4⟩ := by
  decide!

/-- C20, amended. When `generateDeliveryPlan` succeeds with a non-empty command list, the
first command is a Proceed if the first leg of the optimized tour has a segment; if
that leg has none, the first command is the Deliver command of the first delivery of
the optimized order. -/
theorem planner_first_command (pop : Pop) (geo : Geometry) (sm : StreetMap) (depot : GeoCoord)
    (deliveries : List DeliveryRequest) (draws : List Nat) (fuel : Nat) (out : PlanOutcome)
    (h : generateDeliveryPlan pop geo sm depot deliveries draws fuel = some out)
    (hok : out.result = DeliveryResult.DELIVERY_SUCCESS) (hne : out.commands ≠ []) :
    ∃ opt leg legs first,
      optimizeDeliveryOrder geo.dist depot deliveries draws fuel = some opt ∧
      tourLegs depot opt.deliveries = leg :: legs ∧
      LegSucceeds pop geo.dist sm fuel leg first ∧
      (first.route ≠ [] → ∃ c, out.commands.head? = some c ∧ c.IsProceed) ∧
      (first.route = [] → ∃ d rest, opt.deliveries = d :: rest ∧
        out.commands.head? = some (DeliveryCommand.deliver d.item)) := by
  obtain ⟨opt, hopt, hcase⟩ := generateDeliveryPlan_char pop geo sm depot deliveries draws fuel
    out h
  rcases hcase with ⟨-, outs, hall, -, hcmds⟩ | ⟨⟨_, _, _, _, bad, _, _, _, hbad, hres, _⟩, -⟩
  · cases hdel : opt.deliveries with
    | nil =>
      rw [hdel] at hall hcmds
      cases hall with
      | @cons leg first legs outs' hfirst hrest =>
        refine ⟨opt, _, _, first, hopt, by rw [hdel]; rfl, hfirst, ?_, ?_⟩
        · intro hroute
          obtain ⟨seg, rest, hsr⟩ := List.exists_cons_of_ne_nil hroute
          obtain ⟨c, tail, hc, hlc⟩ := legCommands_head geo seg rest
          refine ⟨c, ?_, hc⟩
          rw [hcmds]
          simp [planCommands, hsr, hlc]
        · intro hroute
          exfalso
          apply hne
          rw [hcmds]
          simp [planCommands, hroute, legCommands_nil]
    | cons d rest =>
      rw [hdel] at hall hcmds
      cases hall with
      | @cons leg first legs outs' hfirst hrest =>
        refine ⟨opt, _, _, first, hopt, by rw [hdel]; rfl, hfirst, ?_, ?_⟩
        · intro hroute
          obtain ⟨seg, rest', hsr⟩ := List.exists_cons_of_ne_nil hroute
          obtain ⟨c, tail, hc, hlc⟩ := legCommands_head geo seg rest'
          refine ⟨c, ?_, hc⟩
          rw [hcmds]
          simp [planCommands, hsr, hlc]
        · intro hroute
          refine ⟨d, rest, hdel, ?_⟩
          rw [hcmds]
          simp [planCommands, hroute, legCommands_nil]
  · exact absurd (hres.trans hok) hbad

/-- Witness for C20: the plan for `roundDeliveries`, whose first leg runs from A to B. -/
theorem planner_first_command_witness :
    ∃ opt leg legs first,
      optimizeDeliveryOrder scenarioGeometry.dist (coordAt "0" "0") roundDeliveries
        scenarioDraws 20 = some opt ∧
      tourLegs (coordAt "0" "0") opt.deliveries = leg :: legs ∧
      LegSucceeds popMin scenarioGeometry.dist (load scenarioLines) 20 leg first ∧
      (first.route ≠ [] →
        ∃ c, ([.proceed "east" "Main St" 1, .deliver "soda", .proceed "east" "Main St" 1,
          .deliver "pizza", .proceed "east" "Oak Ave" 1, .deliver "salad",
          .proceed "east" "Oak Ave" 1, .turn "left" "Main St", .proceed "east" "Main St" 2] :
            List DeliveryCommand).head? = some c ∧ c.IsProceed) ∧
      (first.route = [] → ∃ d rest, opt.deliveries = d :: rest ∧
        ([.proceed "east" "Main St" 1, .deliver "soda", .proceed "east" "Main St" 1,
          .deliver "pizza", .proceed "east" "Oak Ave" 1, .deliver "salad",
          .proceed "east" "Oak Ave" 1, .turn "left" "Main St", .proceed "east" "Main St" 2] :
            List DeliveryCommand).head? = some (DeliveryCommand.deliver d.item)) :=
  planner_first_command popMin scenarioGeometry (load scenarioLines) (coordAt "0" "0")
    roundDeliveries scenarioDraws 20
    ⟨DeliveryResult.DELIVERY_SUCCESS,
      [.proceed "east" "Main St" 1, .deliver "soda", .proceed "east" "Main St" 1,
       .deliver "pizza", .proceed "east" "Oak Ave" 1, .deliver "salad",
       .proceed "east" "Oak Ave" 1, .turn "left" "Main St", .proceed "east" "Main St" 2], 6⟩
    (by decide!) rfl (by simp)

/-- C21. When `generateDeliveryPlan` succeeds, whatever stands before and after a Turn in
the command list, the command directly after the Turn is a Proceed with the Turn's
street name. The Turn was emitted at a segment `here` of one of the routes of the
optimized tour, and the Proceed carries the summed lengths of `here` and of the segments
that follow it on that street, up to the next change of street name or the end of the
leg. -/
theorem planner_turn_followed_by_proceed (pop : Pop) (geo : Geometry) (sm : StreetMap)
    (depot : GeoCoord) (deliveries : List DeliveryRequest) (draws : List Nat) (fuel : Nat)
    (out : PlanOutcome)
    (h : generateDeliveryPlan pop geo sm depot deliveries draws fuel = some out)
    (hok : out.result = DeliveryResult.DELIVERY_SUCCESS)
    (before after : List DeliveryCommand) (dir name : String)
    (hcmd : out.commands = before ++ DeliveryCommand.turn dir name :: after) :
    ∃ opt outs, optimizeDeliveryOrder geo.dist depot deliveries draws fuel = some opt ∧
      List.Forall₂ (LegSucceeds pop geo.dist sm fuel) (tourLegs depot opt.deliveries) outs ∧
      ∃ o, o ∈ outs ∧ ∃ pre here rest tail, o.route = pre ++ here :: rest ∧
        here.name = name ∧
        after = DeliveryCommand.proceed (generateProceed (geo.angleOfLine here)) name
          (((streetRun here rest).map (getLength geo.dist)).sum) :: tail := by
  obtain ⟨opt, hopt, hcase⟩ := generateDeliveryPlan_char pop geo sm depot deliveries draws fuel
    out h
  rcases hcase with ⟨-, outs, hall, -, hcommands⟩ | ⟨⟨_, _, _, _, bad, _, _, _, hne, hres, _⟩, -⟩
  · rw [hcommands] at hcmd
    obtain ⟨route, hroute, hrest⟩ := planCommands_turn_followed geo opt.deliveries _ before
      after dir name hcmd
    obtain ⟨o, ho, rfl⟩ := List.mem_map.1 hroute
    exact ⟨opt, outs, hopt, hall, o, ho, hrest⟩
  · exact absurd (hres.trans hok) hne

/-- Witness for C21: the Turn onto "Main St" on the way back to the depot in the plan for
`roundDeliveries`; the Proceed after it carries the two segments of "Main St". -/
theorem planner_turn_followed_by_proceed_witness :
    ∃ opt outs, optimizeDeliveryOrder scenarioGeometry.dist (coordAt "0" "0") roundDeliveries
        scenarioDraws 20 = some opt ∧
      List.Forall₂ (LegSucceeds popMin scenarioGeometry.dist (load scenarioLines) 20)
        (tourLegs (coordAt "0" "0") opt.deliveries) outs ∧
      ∃ o, o ∈ outs ∧ ∃ pre here rest tail, o.route = pre ++ here :: rest ∧
        here.name = "Main St" ∧
        [DeliveryCommand.proceed "east" "Main St" 2] =
          DeliveryCommand.proceed (generateProceed (scenarioGeometry.angleOfLine here))
            "Main St" (((streetRun here rest).map (getLength scenarioGeometry.dist)).sum) ::
            tail :=
  planner_turn_followed_by_proceed popMin scenarioGeometry (load scenarioLines)
    (coordAt "0" "0") roundDeliveries scenarioDraws 20
    ⟨DeliveryResult.DELIVERY_SUCCESS,
      [.proceed "east" "Main St" 1, .deliver "soda", .proceed "east" "Main St" 1,
       .deliver "pizza", .proceed "east" "Oak Ave" 1, .deliver "salad",
       .proceed "east" "Oak Ave" 1, .turn "left" "Main St", .proceed "east" "Main St" 2], 6⟩
    (by decide!) rfl
    [.proceed "east" "Main St" 1, .deliver "soda", .proceed "east" "Main St" 1,
     .deliver "pizza", .proceed "east" "Oak Ave" 1, .deliver "salad",
     .proceed "east" "Oak Ave" 1]
    [.proceed "east" "Main St" 2] "left" "Main St" rfl

/-- C22 (the code departs from the claim). On the map with a bend the leg from A to D runs
east on "Hill Rd", north on "Hill Rd", north on "Elm St". The segment before the change
of street name and the new segment both head north, an angle of 0 between them, and
the plan contains a Turn onto "Elm St" all the same: the loop body leaves `last` at
the first segment of "Hill Rd", which heads east, when it extends the current street,
and takes the angle of 90 from there. -/
theorem planner_turn_angle_from_street_start :
    loadFile digitsOnly "mapdata.txt"
        (some "Hill Rd\n2\n0 0 0 1\n0 1 1 1\nElm St\n1\n1 1 2 1\n") 10 =
      some ⟨true, load bendLines, []⟩ ∧
    generateDeliveryPlan popMin compassGeometry (load bendLines) (coordAt "0" "0")
        bendDeliveries scenarioDraws 20 =
      some ⟨DeliveryResult.DELIVERY_SUCCESS,
        [.deliver "menu", .proceed "east" "Hill Rd" 2, .turn "left" "Elm St",
         .proceed "north" "Elm St" 1, .deliver "soda", .deliver "pizza",
         .proceed "south" "Elm St" 1, .proceed "south" "Hill Rd" 2], 6⟩ ∧
    legCommands compassGeometry bendLines =
      [.proceed "east" "Hill Rd" 2, .turn "left" "Elm St", .proceed "north" "Elm St" 1] ∧
    compassGeometry.angleBetween2Lines ⟨coordAt "0" "1", coordAt "1" "1", "Hill Rd"⟩
      ⟨coordAt "1" "1", coordAt "2" "1", "Elm St"⟩ = 0 ∧
    compassGeometry.angleBetween2Lines ⟨coordAt "0" "0", coordAt "0" "1", "Hill Rd"⟩
      ⟨coordAt "1" "1", coordAt "2" "1", "Elm St"⟩ = 90 ∧
    (bendLines.foldl (segmentStep compassGeometry)
      ⟨defaultSegment, defaultSegment, [], []⟩).last =
        ⟨coordAt "1" "1", coordAt "2" "1", "Elm St"⟩ ∧
    ((bendLines.take 2).foldl (segmentStep compassGeometry)
      ⟨defaultSegment, defaultSegment, [], []⟩).last =
        ⟨coordAt "0" "0", coordAt "0" "1", "Hill Rd"⟩ := by
  decide!

/-- C23 (the code departs from the claim). With deliveries one, two and three degrees east
of the depot and the draws 0, 1, 95, the first pass of the loop exchanges the first two
deliveries: the candidate is longer than the current list (8 against 6), and the
acceptance roll 95 is not below the chance of 90, yet `p` after the pass is the
exchanged list and not `p` before it. This is so in every pass: `permute` has
exchanged the entries in `p` itself before handing back the copy `newP`, so `p` is
`newP` whatever the roll. -/
theorem optimizer_rejected_candidate_kept :
    findCrowDistance gridDistance (coordAt "0" "0")
        [⟨"a", coordAt "0" "1"⟩, ⟨"b", coordAt "0" "2"⟩, ⟨"c", coordAt "0" "3"⟩] = 6 ∧
    findCrowDistance gridDistance (coordAt "0" "0")
        [⟨"b", coordAt "0" "2"⟩, ⟨"a", coordAt "0" "1"⟩, ⟨"c", coordAt "0" "3"⟩] = 8 ∧
    ¬ (((95 % 100 : Nat) : ℚ) < 90) ∧
    annealStep gridDistance (coordAt "0" "0")
        ⟨[⟨"a", coordAt "0" "1"⟩, ⟨"b", coordAt "0" "2"⟩, ⟨"c", coordAt "0" "3"⟩], DBL_MAX, [],
          0, 90, [0, 1, 95]⟩ =
      some ⟨[⟨"b", coordAt "0" "2"⟩, ⟨"a", coordAt "0" "1"⟩, ⟨"c", coordAt "0" "3"⟩], DBL_MAX,
        [], 1, 81, []⟩ ∧
    (∀ (dist : GeoCoord → GeoCoord → ℚ) (depot : GeoCoord) (s s' : AnnealState),
      annealStep dist depot s = some s' →
      ∃ newP draws, permute s.p s.draws = some (newP, newP, draws) ∧ s'.p = newP) := by
  refine ⟨by decide!, by decide!, by decide!, by decide!, ?_⟩
  intro dist depot s s' h
  obtain ⟨newP, draws, hp, hp1, -⟩ := annealStep_cases dist depot s s' h
  exact ⟨newP, draws, hp, hp1⟩

/-- C24. For a leg whose segments all carry the street name of the first one, the loop
over the segments and the flush after it append exactly one command: a Proceed with the
compass direction of the first segment's bearing, that street name, and the sum of the
lengths of all the segments of the leg, the length of a segment being the distance
from its start to its end. -/
theorem planner_single_street_leg (geo : Geometry) (segment : StreetSegment)
    (rest : List StreetSegment) (h : ∀ s, s ∈ rest → s.name = segment.name) :
    legCommands geo (segment :: rest) =
      [DeliveryCommand.proceed (generateProceed (geo.angleOfLine segment)) segment.name
        (((segment :: rest).map (fun s => geo.dist s.start s.end_)).sum)] := by
  rw [legCommands_cons]
  unfold proceedFor
  rw [legFrom_same geo rest segment _ _ _ h]
  simp only [List.map_cons, List.sum_cons, getLength]
  rfl

/-- Witness for C24: the leg from A to C on the scenario map, two segments of "Main St",
each one degree long, gives the one Proceed east on "Main St" over 2. -/
theorem planner_single_street_leg_witness :
    legCommands scenarioGeometry
        [⟨coordAt "0" "0", coordAt "0" "1", "Main St"⟩,
         ⟨coordAt "0" "1", coordAt "0" "2", "Main St"⟩] =
      [DeliveryCommand.proceed "east" "Main St" 2] :=
  (planner_single_street_leg scenarioGeometry ⟨coordAt "0" "0", coordAt "0" "1", "Main St"⟩
    [⟨coordAt "0" "1", coordAt "0" "2", "Main St"⟩] (by decide)).trans (by decide!)

/-- C25. On a table built by `load`, take the search loop entered with `start` a key, at
a test of its condition reached after any number of passes, and let the next extraction
yield `end_`. Then the recorded predecessors lead from `end_` to `start` along a
list of coordinates in which none comes twice, each step going from a coordinate to
its recorded predecessor, which is the end of a segment in the neighbor list of that
coordinate; and the reconstruction loop returns a route once its bound is at least
the length of that list. The distance function is assumed non-negative and to satisfy
the triangle inequality. -/
theorem router_predecessor_chain (pop : Pop) (hpop : PopSpec pop)
    (dist : GeoCoord → GeoCoord → ℚ) (hd : IsDistance dist) (segmentLines : List StreetSegment)
    (start end_ : GeoCoord) (segs0 segs : List StreetSegment)
    (hstart : (load segmentLines).find start = some segs0) (passes : Nat) (st : SearchState)
    (hreach : searchStates pop dist (load segmentLines) end_ passes (initialState start segs) =
      some st)
    (top : GeoCoord × ℚ) (rest : List (GeoCoord × ℚ)) (hext : pop st.nodes = some (top, rest))
    (htop : top.1 = end_) :
    ∃ chain : List GeoCoord, chain.head? = some end_ ∧ chain.getLast? = some start ∧
      chain.Nodup ∧ List.Chain' (TraceStep (load segmentLines) st.prevs) chain ∧
      ∀ bound, chain.length ≤ bound →
        ∃ route, traceBack (load segmentLines) st.prevs start bound end_ st.segs [] =
          some route := by
  have hwf := wellFormed_load segmentLines
  obtain ⟨E, B, inv⟩ := searchStates_inv hpop hd hwf passes _ [] _ st
    (searchInv_init hd end_ hstart segs) hreach
  obtain ⟨gu, hgu, -⟩ := popped_optimal hpop hd inv hext
  rw [htop] at hgu
  obtain ⟨r, htr, -, -, -, -⟩ := inv.trace end_ gu hgu
  obtain ⟨chain, hhead, hlast, hchain, hlen, hnodup, -⟩ := traceRoute_chain htr
  refine ⟨chain, hhead, hlast, hnodup, hchain, ?_⟩
  intro bound hbound
  exact ⟨_, traceBack_of_trace htr bound st.segs [] (by omega)⟩

/-- Witness for C25: from A to C on the scenario map; after two passes, which extracted A
and B, the extraction yields C, whose predecessor is B, whose predecessor is A. -/
theorem router_predecessor_chain_witness :
    ∃ chain : List GeoCoord, chain.head? = some (coordAt "0" "2") ∧
      chain.getLast? = some (coordAt "0" "0") ∧ chain.Nodup ∧
      List.Chain' (TraceStep (load scenarioLines)
        [(coordAt "0" "0", coordAt "0" "0"), (coordAt "0" "1", coordAt "0" "0"),
          (coordAt "0" "2", coordAt "0" "1")]) chain ∧
      ∀ bound, chain.length ≤ bound →
        ∃ route, traceBack (load scenarioLines)
          [(coordAt "0" "0", coordAt "0" "0"), (coordAt "0" "1", coordAt "0" "0"),
            (coordAt "0" "2", coordAt "0" "1")] (coordAt "0" "0") bound (coordAt "0" "2")
          [⟨coordAt "0" "1", coordAt "0" "0", "Main St"⟩,
            ⟨coordAt "0" "1", coordAt "0" "2", "Main St"⟩] [] = some route :=
  router_predecessor_chain popMin popMin_spec gridDistance gridDistance_isDistance
    scenarioLines (coordAt "0" "0") (coordAt "0" "2")
    [⟨coordAt "0" "0", coordAt "0" "1", "Main St"⟩]
    [⟨coordAt "0" "2", coordAt "0" "1", "Main St"⟩, ⟨coordAt "0" "2", coordAt "1" "2", "Oak Ave"⟩]
    (by decide!) 2
    ⟨[⟨coordAt "0" "1", coordAt "0" "0", "Main St"⟩, ⟨coordAt "0" "1", coordAt "0" "2", "Main St"⟩],
      [(coordAt "0" "0", coordAt "0" "0"), (coordAt "0" "1", coordAt "0" "0"),
        (coordAt "0" "2", coordAt "0" "1")],
      [(coordAt "0" "0", 0), (coordAt "0" "1", 1), (coordAt "0" "2", 2)],
      [(coordAt "0" "2", 2)]⟩
    (by decide!) (coordAt "0" "2", 2) [] (by decide!) rfl

/-- C26. When `generateDeliveryPlan` succeeds, the command list is made of the commands of
the legs of the optimized tour, each leg that ends at a delivery followed directly by
the Deliver command of that delivery; the loop over a leg's segments appends no
Deliver itself. So the Deliver commands, read in order, name the items of the
optimizer's output sequence in order, and there are as many of them as the sequence
is long. -/
theorem planner_deliver_commands (pop : Pop) (geo : Geometry) (sm : StreetMap)
    (depot : GeoCoord) (deliveries : List DeliveryRequest) (draws : List Nat) (fuel : Nat)
    (out : PlanOutcome)
    (h : generateDeliveryPlan pop geo sm depot deliveries draws fuel = some out)
    (hok : out.result = DeliveryResult.DELIVERY_SUCCESS) :
    ∃ opt outs, optimizeDeliveryOrder geo.dist depot deliveries draws fuel = some opt ∧
      List.Forall₂ (LegSucceeds pop geo.dist sm fuel) (tourLegs depot opt.deliveries) outs ∧
      out.commands = planCommands geo opt.deliveries (outs.map RouteOutcome.route) ∧
      (∀ route, (legCommands geo route).filterMap DeliveryCommand.deliveredItem = []) ∧
      out.commands.filterMap DeliveryCommand.deliveredItem =
        opt.deliveries.map DeliveryRequest.item ∧
      (out.commands.filterMap DeliveryCommand.deliveredItem).length =
        opt.deliveries.length := by
  obtain ⟨opt, hopt, hcase⟩ := generateDeliveryPlan_char pop geo sm depot deliveries draws fuel
    out h
  rcases hcase with ⟨-, outs, hall, -, hcommands⟩ | ⟨⟨_, _, _, _, bad, _, _, _, hne, hres, _⟩, -⟩
  · have hlen : (outs.map RouteOutcome.route).length = opt.deliveries.length + 1 := by
      rw [List.length_map, forall₂_legSucceeds_length hall, tourLegs_length]
    have hitems := planCommands_delivered geo opt.deliveries _ hlen
    refine ⟨opt, outs, hopt, hall, hcommands, legCommands_deliver geo, ?_, ?_⟩
    · rw [hcommands, hitems]
    · rw [hcommands, hitems, List.length_map]
  · exact absurd (hres.trans hok) hne

/-- Witness for C26: the plan for `roundDeliveries`, which delivers soda, pizza and salad
in the order the optimizer wrote back. -/
theorem planner_deliver_commands_witness :
    ∃ opt outs, optimizeDeliveryOrder scenarioGeometry.dist (coordAt "0" "0") roundDeliveries
        scenarioDraws 20 = some opt ∧
      List.Forall₂ (LegSucceeds popMin scenarioGeometry.dist (load scenarioLines) 20)
        (tourLegs (coordAt "0" "0") opt.deliveries) outs ∧
      [.proceed "east" "Main St" 1, .deliver "soda", .proceed "east" "Main St" 1,
        .deliver "pizza", .proceed "east" "Oak Ave" 1, .deliver "salad",
        .proceed "east" "Oak Ave" 1, .turn "left" "Main St", .proceed "east" "Main St" 2] =
        planCommands scenarioGeometry opt.deliveries (outs.map RouteOutcome.route) ∧
      (∀ route,
        (legCommands scenarioGeometry route).filterMap DeliveryCommand.deliveredItem = []) ∧
      ([.proceed "east" "Main St" 1, .deliver "soda", .proceed "east" "Main St" 1,
        .deliver "pizza", .proceed "east" "Oak Ave" 1, .deliver "salad",
        .proceed "east" "Oak Ave" 1, .turn "left" "Main St",
        .proceed "east" "Main St" 2] : List DeliveryCommand).filterMap
          DeliveryCommand.deliveredItem = opt.deliveries.map DeliveryRequest.item ∧
      (([.proceed "east" "Main St" 1, .deliver "soda", .proceed "east" "Main St" 1,
        .deliver "pizza", .proceed "east" "Oak Ave" 1, .deliver "salad",
        .proceed "east" "Oak Ave" 1, .turn "left" "Main St",
        .proceed "east" "Main St" 2] : List DeliveryCommand).filterMap
          DeliveryCommand.deliveredItem).length = opt.deliveries.length :=
  planner_deliver_commands popMin scenarioGeometry (load scenarioLines) (coordAt "0" "0")
    roundDeliveries scenarioDraws 20
    ⟨DeliveryResult.DELIVERY_SUCCESS,
      [.proceed "east" "Main St" 1, .deliver "soda", .proceed "east" "Main St" 1,
       .deliver "pizza", .proceed "east" "Oak Ave" 1, .deliver "salad",
       .proceed "east" "Oak Ave" 1, .turn "left" "Main St", .proceed "east" "Main St" 2], 6⟩
    (by decide!) rfl

/-- C27. On a table built by `load`, when `generateDeliveryPlan` succeeds, the distances of
the Proceed commands of the command list add up to `totalDistanceTravelled`, in exact
arithmetic. The distance function is assumed non-negative and to satisfy the triangle
inequality. -/
theorem planner_proceed_distances_sum (pop : Pop) (hpop : PopSpec pop) (geo : Geometry)
    (hd : IsDistance geo.dist) (segmentLines : List StreetSegment) (depot : GeoCoord)
    (deliveries : List DeliveryRequest) (draws : List Nat) (fuel : Nat) (out : PlanOutcome)
    (h : generateDeliveryPlan pop geo (load segmentLines) depot deliveries draws fuel =
      some out)
    (hok : out.result = DeliveryResult.DELIVERY_SUCCESS) :
    (out.commands.map DeliveryCommand.proceedDistance).sum = out.totalDistanceTravelled := by
  obtain ⟨opt, hopt, hcase⟩ := generateDeliveryPlan_char pop geo (load segmentLines) depot
    deliveries draws fuel out h
  rcases hcase with ⟨-, outs, hall, htotal, hcommands⟩ |
    ⟨⟨_, _, _, _, bad, _, _, _, hne, hres, _⟩, -⟩
  · have hlen : (outs.map RouteOutcome.route).length = opt.deliveries.length + 1 := by
      rw [List.length_map, forall₂_legSucceeds_length hall, tourLegs_length]
    rw [hcommands, planCommands_distance geo opt.deliveries _ hlen, htotal]
    exact legs_route_length hpop hd (wellFormed_load segmentLines) hall
  · exact absurd (hres.trans hok) hne

/-- Witness for C27: the plan for `roundDeliveries`, 1 + 1 + 1 + 1 + 2 = 6. -/
theorem planner_proceed_distances_sum_witness :
    (([.proceed "east" "Main St" 1, .deliver "soda", .proceed "east" "Main St" 1,
        .deliver "pizza", .proceed "east" "Oak Ave" 1, .deliver "salad",
        .proceed "east" "Oak Ave" 1, .turn "left" "Main St",
        .proceed "east" "Main St" 2] : List DeliveryCommand).map
          DeliveryCommand.proceedDistance).sum = 6 :=
  planner_proceed_distances_sum popMin popMin_spec scenarioGeometry gridDistance_isDistance
    scenarioLines (coordAt "0" "0") roundDeliveries scenarioDraws 20
    ⟨DeliveryResult.DELIVERY_SUCCESS,
      [.proceed "east" "Main St" 1, .deliver "soda", .proceed "east" "Main St" 1,
       .deliver "pizza", .proceed "east" "Oak Ave" 1, .deliver "salad",
       .proceed "east" "Oak Ave" 1, .turn "left" "Main St", .proceed "east" "Main St" 2], 6⟩
    (by decide!) rfl

/-- C28. On a table built by `load`, when `generatePointToPointRoute` succeeds, every
segment of the returned route is stored, with the same start, end and street name, in
the neighbor list of its own start coordinate. The distance function is assumed
non-negative and to satisfy the triangle inequality. -/
theorem router_route_segments_stored (pop : Pop) (hpop : PopSpec pop)
    (dist : GeoCoord → GeoCoord → ℚ) (hd : IsDistance dist) (segmentLines : List StreetSegment)
    (start end_ : GeoCoord) (fuel : Nat) (out : RouteOutcome)
    (h : generatePointToPointRoute pop dist (load segmentLines) start end_ fuel = some out)
    (hok : out.result = DeliveryResult.DELIVERY_SUCCESS)
    (s : StreetSegment) (hs : s ∈ out.route) :
    ∃ v, StreetMapImpl.getSegmentsThatStartWith (load segmentLines) s.start [] = (true, v) ∧
      s ∈ v := by
  obtain ⟨hroute, -, -⟩ := generate_success hpop hd (wellFormed_load segmentLines) h hok
  obtain ⟨v, hv, hmem⟩ := isRoute_mem hroute s hs
  exact ⟨v, by simp [StreetMapImpl.getSegmentsThatStartWith, hv], hmem⟩

/-- Witness for C28: the last segment of the route from A to D on the scenario map, C-D on
"Oak Ave". -/
theorem router_route_segments_stored_witness :
    ∃ v, StreetMapImpl.getSegmentsThatStartWith (load scenarioLines) (coordAt "0" "2") [] =
        (true, v) ∧
      (⟨coordAt "0" "2", coordAt "1" "2", "Oak Ave"⟩ : StreetSegment) ∈ v :=
  router_route_segments_stored popMin popMin_spec gridDistance gridDistance_isDistance
    scenarioLines (coordAt "0" "0") (coordAt "1" "2") 20
    ⟨DeliveryResult.DELIVERY_SUCCESS,
      [⟨coordAt "0" "0", coordAt "0" "1", "Main St"⟩, ⟨coordAt "0" "1", coordAt "0" "2", "Main St"⟩,
       ⟨coordAt "0" "2", coordAt "1" "2", "Oak Ave"⟩], 3⟩
    (by decide!) rfl ⟨coordAt "0" "2", coordAt "1" "2", "Oak Ave"⟩ (by decide)

/-- C29 (the code departs from the claim). When `angleBetween2Lines` yields NaN at a change
of street name, both comparisons of the test `direction < 1 || direction > 359` are
false, the planner takes the branch that emits a Turn, and `generateTurn`, whose own
comparisons are false as well, returns the empty string from its error branch: the leg
of two segments gets a Turn with the direction text "". On the map whose middle
coordinate X has the latitude text "nan" the plan for `nanDeliveries` succeeds and
holds such a Turn onto "Oak Ave"; X lies on the only route from A to D, and nothing is
said here of the distances, which are numbers in the embedding and NaN in the
program. In every command list a Turn carries "left" or "right" when its angle is a
number, and "" when it is NaN. -/
theorem planner_turn_direction_empty_for_nan :
    loadFile (fun text => digitsOnly text || decide (text = "nan")) "mapdata.txt"
        (some "Main St\n1\n0 0 nan 1\nOak Ave\n1\nnan 1 0 2\n") 10 =
      some ⟨true, load nanLines, []⟩ ∧
    (∀ (geo : Geometry) (first here : StreetSegment), here.name ≠ first.name →
      geo.angleBetween2Lines first here = Angle.nan →
      legCommands geo [first, here] =
        [proceedFor geo first, DeliveryCommand.turn "" here.name, proceedFor geo here]) ∧
    (∃ out, generateDeliveryPlan popMin nanGeometry (load nanLines) (coordAt "0" "0")
        nanDeliveries scenarioDraws 20 = some out ∧
      out.result = DeliveryResult.DELIVERY_SUCCESS ∧
      DeliveryCommand.turn "" "Oak Ave" ∈ out.commands ∧
      out.commands.filterMap DeliveryCommand.deliveredItem = ["menu", "soda", "pizza"]) ∧
    (∀ (pop : Pop) (geo : Geometry) (sm : StreetMap) (depot : GeoCoord)
      (deliveries : List DeliveryRequest) (draws : List Nat) (fuel : Nat) (out : PlanOutcome)
      (dir name : String),
      generateDeliveryPlan pop geo sm depot deliveries draws fuel = some out →
      DeliveryCommand.turn dir name ∈ out.commands →
      ∃ angle : Angle, dir = generateTurnOf angle ∧
        ((∃ x : ℚ, angle = Angle.degrees x ∧ 1 ≤ x ∧ x ≤ 359 ∧
            (dir = "left" ∨ dir = "right")) ∨
          (angle = Angle.nan ∧ dir = ""))) := by
  refine ⟨by decide!, ?_, ?_, ?_⟩
  · intro geo first here hname hnan
    have hgate : ¬ ((Angle.nan : Angle) < 1 ∨ (Angle.nan : Angle) > 359) := by
      rintro (h | h)
      · exact h
      · exact h
    rw [legCommands_cons]
    simp only [legFrom, if_neg hname, hnan, if_neg hgate, generateTurnOf]
  · exact ⟨⟨DeliveryResult.DELIVERY_SUCCESS,
      [.deliver "menu", .proceed "east" "Main St" 1, .turn "" "Oak Ave",
       .proceed "east" "Oak Ave" 1, .deliver "soda", .deliver "pizza",
       .proceed "east" "Oak Ave" 1, .turn "" "Main St", .proceed "east" "Main St" 1],
      4⟩, by decide!, rfl, by decide, by decide⟩
  · intro pop geo sm depot deliveries draws fuel out dir name h hmem
    obtain ⟨angle, hgate, hdir⟩ := plan_turn pop geo sm depot deliveries draws fuel out h dir
      name hmem
    refine ⟨angle, hdir, ?_⟩
    rcases angle_gate angle hgate with ⟨x, rfl, h1, h2⟩ | rfl
    · left
      refine ⟨x, rfl, h1, h2, ?_⟩
      rw [hdir]
      exact generateTurn_cases x h1 h2
    · right
      exact ⟨rfl, hdir⟩

/-- C30. When `optimizeDeliveryOrder` returns, the list it writes back is empty or a
rearrangement of the input list. It is empty exactly when in no pass of the loop the
candidate's crow-flight length `newCost` was strictly below `curCost`, the length of the
list the candidate was derived from. For the second part every rearrangement of the
input is assumed to have a crow-flight length below `DBL_MAX`, the value `minCost`
starts with. -/
theorem optimizer_output_empty_or_permutation (dist : GeoCoord → GeoCoord → ℚ)
    (depot : GeoCoord) (deliveries : List DeliveryRequest) (draws : List Nat) (fuel : Nat)
    (opt : OptimizeOutcome)
    (hbound : ∀ tour, List.Perm tour deliveries → findCrowDistance dist depot tour < DBL_MAX)
    (h : optimizeDeliveryOrder dist depot deliveries draws fuel = some opt) :
    (opt.deliveries = [] ∨ List.Perm opt.deliveries deliveries) ∧
      ∃ trace, annealTrace dist depot (min (deliveries.length * 2) 15) fuel
          ⟨deliveries, DBL_MAX, [], 0, 90, draws⟩ = some trace ∧
        (opt.deliveries = [] ↔ ∀ c, c ∈ trace → ¬ c.2 < c.1) := by
  unfold optimizeDeliveryOrder at h
  simp only at h
  cases hloop : annealLoop dist depot (min (deliveries.length * 2) 15) fuel
      ⟨deliveries, DBL_MAX, [], 0, 90, draws⟩ with
  | none => rw [hloop] at h; cases h
  | some s' =>
    rw [hloop] at h
    simp only [Option.some.injEq] at h
    subst h
    exact ⟨annealLoop_perm dist depot _ deliveries fuel _ s' hloop (List.Perm.refl _)
        (Or.inl rfl),
      annealLoop_trace dist depot _ deliveries hbound fuel _ s' hloop (List.Perm.refl _)
        rfl rfl⟩

/-- Witness for C30: `roundDeliveries` with the draws `scenarioDraws`; the first pass finds
a candidate of length 6 below 8, and the list written back is that candidate. -/
theorem optimizer_output_empty_or_permutation_witness :
    (([⟨"soda", coordAt "0" "1"⟩, ⟨"pizza", coordAt "0" "2"⟩, ⟨"salad", coordAt "1" "2"⟩] :
        List DeliveryRequest) = [] ∨
      List.Perm [⟨"soda", coordAt "0" "1"⟩, ⟨"pizza", coordAt "0" "2"⟩,
        ⟨"salad", coordAt "1" "2"⟩] roundDeliveries) ∧
      ∃ trace, annealTrace gridDistance (coordAt "0" "0")
          (min (roundDeliveries.length * 2) 15) 20
          ⟨roundDeliveries, DBL_MAX, [], 0, 90, scenarioDraws⟩ = some trace ∧
        (([⟨"soda", coordAt "0" "1"⟩, ⟨"pizza", coordAt "0" "2"⟩,
          ⟨"salad", coordAt "1" "2"⟩] : List DeliveryRequest) = [] ↔
            ∀ c, c ∈ trace → ¬ c.2 < c.1) :=
  optimizer_output_empty_or_permutation gridDistance (coordAt "0" "0") roundDeliveries
    scenarioDraws 20
    ⟨[⟨"soda", coordAt "0" "1"⟩, ⟨"pizza", coordAt "0" "2"⟩, ⟨"salad", coordAt "1" "2"⟩],
      8, 6, []⟩
    (fun tour hperm =>
      (by decide! : ∀ t ∈ roundDeliveries.permutations,
        findCrowDistance gridDistance (coordAt "0" "0") t < DBL_MAX) tour
        (List.mem_permutations.2 hperm))
    (by decide!)

end GooberEats
